import Mathlib

/-!
# PyRV32 guest firmware: a shallow embedding

The firmware of `kl7107/pyrv32` (`firmware/syscalls.c`, `firmware/runtime.c`,
`firmware/hello.c`) talks to the outside world in three ways only: volatile
loads and stores on memory-mapped registers, the `ecall` instruction and the
`ebreak` instruction.  The embedding makes each of them an `Event` appended to
a trace; what a device or the host answers is an oracle (`Env`), so every
theorem holds whatever the devices and the host do.

C `int`, `long` and `ssize_t` are 32 bits wide on RV32: they are `Int` here,
narrowed with `toInt32` wherever the source converts or can overflow.
`size_t`, `unsigned int` and pointers are `Nat`.
-/

namespace PyRV32

/-! ## Machine integers -/

/-- Two's-complement reading of the low 32 bits: conversion to `int`, `long` or `ssize_t`. -/
def toInt32 (x : Int) : Int := (x + 2147483648) % 4294967296 - 2147483648

/-- Exit code that the emulator derives from `a0` on `EBREAK`: its low 8 bits. -/
def exitCode (a0 : Int) : Int := a0 % 256

/-! ## Memory map (`syscalls.c` lines 102-111, `runtime.c` line 6) -/

def DEBUG_UART_TX : Nat := 0x10000000
def TIMER_MS : Nat := 0x10000004
def CLOCK_TIME : Nat := 0x10000008
def CLOCK_NSEC : Nat := 0x1000000C
def CONSOLE_UART_TX : Nat := 0x10001000
def CONSOLE_UART_RX : Nat := 0x10001004
def CONSOLE_UART_RX_STATUS : Nat := 0x10001008

/-- Base of guest RAM. -/
def RAM_BASE : Nat := 0x80000000

/-! ## Linux RV32 syscall numbers (`syscalls.c` lines 29-43) -/

def SYS_GETCWD : Int := 17
def SYS_UNLINKAT : Int := 35
def SYS_LINKAT : Int := 37
def SYS_RENAMEAT : Int := 38
def SYS_FACCESSAT : Int := 48
def SYS_CHDIR : Int := 49
def SYS_OPENAT : Int := 56
def SYS_CLOSE : Int := 57
def SYS_LSEEK : Int := 62
def SYS_READ : Int := 63
def SYS_WRITE : Int := 64
def SYS_FSTATAT : Int := 79
def SYS_FSTAT : Int := 80
def SYS_EXIT : Int := 93

/-- Modelled from the spec: the macro `AT_FDCWD` comes from the C library header
`<fcntl.h>`, which is not among the sources; the spec fixes `AT_FDCWD = -100`. -/
def AT_FDCWD : Int := -100

/-- Modelled from the spec: `EBADF` comes from `<errno.h>`; the spec fixes `EBADF = 9`. -/
def EBADF : Int := 9

/-- Modelled from the spec: `ERANGE` comes from `<errno.h>`; the spec fixes `ERANGE = 34`. -/
def ERANGE : Int := 34

/-! ## Events, environment, state -/

/-- What the program does that is visible outside the CPU. -/
inductive Event where
  /-- An 8-bit volatile load from `addr` that returned `val`. -/
  | load8 (addr val : Nat)
  /-- A 32-bit volatile load from `addr` that returned `val`. -/
  | load32 (addr val : Nat)
  /-- An 8-bit volatile store of `val` to `addr`. -/
  | store8 (addr val : Nat)
  /-- An `ecall` with `a7` and the argument registers `a0, a1, ...` the wrapper sets. -/
  | ecall (a7 : Int) (args : List Int)
  /-- An `ebreak` with register `a0`. -/
  | ebreak (a0 : Int)
  deriving DecidableEq, Repr

/-- The world outside the program, as oracles. -/
structure Env where
  /-- The value the device at `addr` returns to the `k`-th load from that address. -/
  dev : Nat → Nat → Nat
  /-- The value the host leaves in `a0` at the `k`-th `ecall`. -/
  hostRet : Nat → Int
  /-- What the host does to guest memory at the `k`-th `ecall`. -/
  hostMem : Nat → (Nat → Nat) → (Nat → Nat)

/-- Program state: guest RAM (bytes), `errno`, how many loads each device register has
served, how many `ecall`s were made, and the trace of events so far. -/
structure State where
  mem : Nat → Nat
  errno : Int
  cnt : Nat → Nat
  ecalls : Nat
  trace : List Event

/-- An 8-bit volatile load. -/
def vload8 (env : Env) (addr : Nat) (s : State) : Nat × State :=
  let v := env.dev addr (s.cnt addr) % 256
  (v, { s with cnt := fun a => if a = addr then s.cnt a + 1 else s.cnt a,
               trace := s.trace ++ [Event.load8 addr v] })

/-- A 32-bit volatile load. -/
def vload32 (env : Env) (addr : Nat) (s : State) : Nat × State :=
  let v := env.dev addr (s.cnt addr) % 4294967296
  (v, { s with cnt := fun a => if a = addr then s.cnt a + 1 else s.cnt a,
               trace := s.trace ++ [Event.load32 addr v] })

/-- An 8-bit volatile store: the value is truncated to its low 8 bits. -/
def vstore8 (addr val : Nat) (s : State) : State :=
  { s with trace := s.trace ++ [Event.store8 addr (val % 256)] }

/-- A byte store to guest RAM, `ptr[i] = byte`. -/
def ramStore (addr val : Nat) (s : State) : State :=
  { s with mem := fun a => if a = addr then val % 256 else s.mem a }

/-- The `ecall` instruction with `a7 = n` and the listed argument registers; the result is
`a0` afterwards, read as a `long`. -/
def ecall (env : Env) (n : Int) (args : List Int) (s : State) : Int × State :=
  (toInt32 (env.hostRet s.ecalls),
   { s with mem := env.hostMem s.ecalls s.mem,
            ecalls := s.ecalls + 1,
            trace := s.trace ++ [Event.ecall n args] })

def syscall1 (env : Env) (n arg0 : Int) (s : State) : Int × State :=
  ecall env n [arg0] s

def syscall2 (env : Env) (n arg0 arg1 : Int) (s : State) : Int × State :=
  ecall env n [arg0, arg1] s

def syscall3 (env : Env) (n arg0 arg1 arg2 : Int) (s : State) : Int × State :=
  ecall env n [arg0, arg1, arg2] s

def syscall4 (env : Env) (n arg0 arg1 arg2 arg3 : Int) (s : State) : Int × State :=
  ecall env n [arg0, arg1, arg2, arg3] s

def syscall5 (env : Env) (n arg0 arg1 arg2 arg3 arg4 : Int) (s : State) : Int × State :=
  ecall env n [arg0, arg1, arg2, arg3, arg4] s

/-- The bytes of a C string literal, without the terminating NUL. -/
def cstr (s : String) : List Nat := s.toList.map Char.toNat

/-- An environment whose devices and host always answer `0`. -/
def env0 : Env := { dev := fun _ _ => 0, hostRet := fun _ => 0, hostMem := fun _ m => m }

/-- A state with zeroed RAM, `errno = 0` and an empty trace. -/
def s0 : State := { mem := fun _ => 0, errno := 0, cnt := fun _ => 0, ecalls := 0, trace := [] }

/-! ## `_exit` (`syscalls.c` lines 415-455) -/

/-- The loop `for (i = 0; msg[i] != '\0'; i++) *DEBUG_UART_TX = msg[i];`: the list holds the
bytes from `msg[i]` on, the terminating NUL being implicit at its end. -/
def exit_msg : List Nat → State → State
  | [], s => s
  | c :: cs, s => if c = 0 then s else exit_msg cs (vstore8 DEBUG_UART_TX c s)

/-- The loop `while (status > 0) { digits[ndigits++] = '0' + (status % 10); status /= 10; }`.
It returns the final `status` and `digits[0..ndigits)`.  The first argument bounds the
number of iterations; `status.toNat` is enough because `status / 10 < status`. -/
def exit_digits : Nat → Int → List Nat → Int × List Nat
  | 0, status, digits => (status, digits)
  | fuel + 1, status, digits =>
    if status > 0 then
      exit_digits fuel (status.tdiv 10) (digits ++ [((48 + status.tmod 10) % 256).toNat])
    else (status, digits)

/-- The loop `for (i = ndigits - 1; i >= 0; i--) *DEBUG_UART_TX = digits[i];`, given
`digits[0..ndigits)` reversed. -/
def exit_print : List Nat → State → State
  | [], s => s
  | d :: ds, s => exit_print ds (vstore8 DEBUG_UART_TX d s)

/-- The function `_exit`, up to and including its `ebreak`: the variable `status` is
threaded through the printing code exactly as in the source, and `a0` receives its value
at line 448. -/
def _exit (status : Int) (s : State) : State :=
  let s := exit_msg (cstr "\n[Program exited with status ") s
  let (status, s) :=
    if status < 0 then (toInt32 (-status), vstore8 DEBUG_UART_TX 45 s) else (status, s)
  let (status, s) :=
    if status = 0 then (status, vstore8 DEBUG_UART_TX 48 s)
    else
      let (status, digits) := exit_digits status.toNat status []
      (status, exit_print digits.reverse s)
  let s := vstore8 DEBUG_UART_TX 93 s
  let s := vstore8 DEBUG_UART_TX 10 s
  { s with trace := s.trace ++ [Event.ebreak status] }

/-- The value of the variable `status` when `_exit` reaches line 448. -/
def exit_final_status (status : Int) : Int :=
  let status := if status < 0 then toInt32 (-status) else status
  if status = 0 then status else (exit_digits status.toNat status []).1

/-! ## `_write` and `write` (`syscalls.c` lines 244-256, 295-314) -/

/-- The loop `for (i = 0; i < len; i++) *UART = ptr[i];` of `_write`, where `addr` is the
UART register: the first argument is the number of iterations left (`len - i`). -/
def write_loop (addr ptr : Nat) : Nat → Nat → State → State
  | 0, _, s => s
  | n + 1, i, s => write_loop addr ptr n (i + 1) (vstore8 addr (s.mem (ptr + i)) s)

/-- The function `_write(int fd, char *ptr, int len)`: with `int i` and `int len`, the loop
runs `len` times when `len > 0` and not at all otherwise. -/
def _write (fd : Int) (ptr : Nat) (len : Int) (s : State) : Int × State :=
  if fd = 1 then
    (len, write_loop CONSOLE_UART_TX ptr len.toNat 0 s)
  else if fd = 2 then
    (len, write_loop DEBUG_UART_TX ptr len.toNat 0 s)
  else
    (-1, { s with errno := EBADF })

/-- The function `write(int fd, const void *ptr, size_t len)`.  The `size_t len` is
converted to the `int len` of `_write`; the `long` arguments of `syscall3` are the
conversions of the pointer and of the length. -/
def write (env : Env) (fd : Int) (ptr len : Nat) (s : State) : Int × State :=
  if fd = 1 ∨ fd = 2 then
    _write fd ptr (toInt32 len) s
  else
    let (ret, s) := syscall3 env SYS_WRITE fd (toInt32 ptr) (toInt32 len) s
    if ret < 0 then (-1, { s with errno := toInt32 (-ret) }) else (ret, s)

/-! ## `_read` and `read` (`syscalls.c` lines 263-275, 325-359) -/

/-- The loop of `_read`: the first argument is the number of iterations left (`len - i`);
at loop exit the function returns `len`. -/
def read_loop (env : Env) (ptr : Nat) (len : Int) : Nat → Nat → State → Int × State
  | 0, _, s => (len, s)
  | n + 1, i, s =>
    let (status, s) := vload8 env CONSOLE_UART_RX_STATUS s
    if status = 0 then
      if i = 0 then (0, s) else ((i : Int), s)
    else
      let (byte, s) := vload8 env CONSOLE_UART_RX s
      if byte = 0xFF then ((i : Int), s)
      else read_loop env ptr len n (i + 1) (ramStore (ptr + i) byte s)

/-- The function `_read(int fd, char *ptr, int len)`. -/
def _read (env : Env) (fd : Int) (ptr : Nat) (len : Int) (s : State) : Int × State :=
  if fd = 0 then
    read_loop env ptr len len.toNat 0 s
  else
    (-1, { s with errno := EBADF })

/-- The function `read(int fd, void *ptr, size_t len)`. -/
def read (env : Env) (fd : Int) (ptr len : Nat) (s : State) : Int × State :=
  if fd = 0 then
    _read env fd ptr (toInt32 len) s
  else
    let (ret, s) := syscall3 env SYS_READ fd (toInt32 ptr) (toInt32 len) s
    if ret < 0 then (-1, { s with errno := toInt32 (-ret) }) else (ret, s)

/-! ## `stdin_read` (`syscalls.c` lines 120-147) -/

/-- The loop `while ((*CONSOLE_UART_RX_STATUS & 0x01) == 0) {}`: it gives `none` when the
fuel runs out before a status read has bit 0 set. -/
def stdin_wait (env : Env) : Nat → State → Option State
  | 0, _ => none
  | fuel + 1, s =>
    let (status, s) := vload8 env CONSOLE_UART_RX_STATUS s
    if status &&& 0x01 = 0 then stdin_wait env fuel s else some s

/-- The loop `for (i = 1; i < count; i++)` of `stdin_read`: the first argument is the
number of iterations left (`count - i`); the result is the `size_t` that is returned. -/
def stdin_loop (env : Env) (ptr count : Nat) : Nat → Nat → State → Nat × State
  | 0, _, s => (count, s)
  | n + 1, i, s =>
    let (status, s) := vload8 env CONSOLE_UART_RX_STATUS s
    if status &&& 0x01 = 0 then (i, s)
    else
      let (byte, s) := vload8 env CONSOLE_UART_RX s
      stdin_loop env ptr count n (i + 1) (ramStore (ptr + i) byte s)

/-- The function `stdin_read(int fd, void *buf, size_t count)`; the `size_t` it returns is
converted to `ssize_t`.  The first argument is the fuel of the wait loop. -/
def stdin_read (env : Env) (fuel : Nat) (_fd : Int) (buf count : Nat) (s : State) :
    Option (Int × State) :=
  if count = 0 then some (0, s)
  else
    match stdin_wait env fuel s with
    | none => none
    | some s =>
      let (byte, s) := vload8 env CONSOLE_UART_RX s
      let s := ramStore (buf + 0) byte s
      let (r, s) := stdin_loop env buf count (count - 1) 1 s
      some (toInt32 r, s)

/-! ## ECALL wrappers (`syscalls.c` lines 585-611, 640-656, 671-688, 723-731, 896-924)

Pointers are passed as `(long)ptr`, that is `toInt32 ptr`; `errno = -ret` assigns a `long`
to the `int errno`. -/

/-- The function `open(const char *name, int flags, ...)`: C `open`, renamed because `open`
is a keyword here.  The mode passed is the octal constant `0644`. -/
def open_ (env : Env) (name : Nat) (flags : Int) (s : State) : Int × State :=
  let (ret, s) := syscall4 env SYS_OPENAT AT_FDCWD (toInt32 name) flags 0o644 s
  if ret < 0 then (-1, { s with errno := toInt32 (-ret) }) else (ret, s)

def close (env : Env) (fd : Int) (s : State) : Int × State :=
  let (ret, s) := syscall1 env SYS_CLOSE fd s
  if ret < 0 then (-1, { s with errno := toInt32 (-ret) }) else (0, s)

def lseek (env : Env) (fd offset whence : Int) (s : State) : Int × State :=
  let (ret, s) := syscall3 env SYS_LSEEK fd (toInt32 offset) whence s
  if ret < 0 then (-1, { s with errno := toInt32 (-ret) }) else (ret, s)

def chdir (env : Env) (path : Nat) (s : State) : Int × State :=
  let (ret, s) := syscall1 env SYS_CHDIR (toInt32 path) s
  if ret < 0 then (-1, { s with errno := toInt32 (-ret) }) else (0, s)

/-- The function `getcwd(char *buf, unsigned int size)`; the pointer it returns is a `Nat`,
`NULL` being `0`. -/
def getcwd (env : Env) (buf size : Nat) (s : State) : Nat × State :=
  let (ret, s) := syscall2 env SYS_GETCWD (toInt32 buf) (toInt32 size) s
  if ret < 0 then (0, { s with errno := toInt32 (-ret) }) else (buf, s)

def unlink (env : Env) (pathname : Nat) (s : State) : Int × State :=
  let (ret, s) := syscall3 env SYS_UNLINKAT AT_FDCWD (toInt32 pathname) 0 s
  if ret < 0 then (-1, { s with errno := toInt32 (-ret) }) else (0, s)

def fstat (env : Env) (fd : Int) (buf : Nat) (s : State) : Int × State :=
  let (ret, s) := syscall2 env SYS_FSTAT fd (toInt32 buf) s
  if ret < 0 then (-1, { s with errno := toInt32 (-ret) }) else (0, s)

def stat (env : Env) (pathname buf : Nat) (s : State) : Int × State :=
  let (ret, s) := syscall4 env SYS_FSTATAT AT_FDCWD (toInt32 pathname) (toInt32 buf) 0 s
  if ret < 0 then (-1, { s with errno := toInt32 (-ret) }) else (0, s)

def rename (env : Env) (oldpath newpath : Nat) (s : State) : Int × State :=
  let (ret, s) :=
    syscall4 env SYS_RENAMEAT AT_FDCWD (toInt32 oldpath) AT_FDCWD (toInt32 newpath) s
  if ret < 0 then (-1, { s with errno := toInt32 (-ret) }) else (0, s)

def link (env : Env) (oldpath newpath : Nat) (s : State) : Int × State :=
  let (ret, s) :=
    syscall5 env SYS_LINKAT AT_FDCWD (toInt32 oldpath) AT_FDCWD (toInt32 newpath) 0 s
  if ret < 0 then (-1, { s with errno := toInt32 (-ret) }) else (0, s)

def access (env : Env) (pathname : Nat) (mode : Int) (s : State) : Int × State :=
  let (ret, s) := syscall3 env SYS_FACCESSAT AT_FDCWD (toInt32 pathname) mode s
  if ret < 0 then (-1, { s with errno := toInt32 (-ret) }) else (0, s)

/-- The value that the next `ecall` leaves in `a0`, read as a `long`. -/
def nextA0 (env : Env) (s : State) : Int := toInt32 (env.hostRet s.ecalls)

/-- An environment whose host leaves `r` in `a0` at every `ecall`. -/
def envRet (r : Int) : Env := { dev := fun _ _ => 0, hostRet := fun _ => r, hostMem := fun _ m => m }

/-- The error convention of a wrapper called in state `s`, where `r` is the value the
`ecall` left in `a0` and `ok` the value to return on success: a negative `r` gives `-1` with
`errno = -r`, any other `r` gives `ok` with `errno` as it was. -/
def ErrnoContract (res : Int × State) (s : State) (r ok : Int) : Prop :=
  (r < 0 → res.1 = -1 ∧ res.2.errno = -r) ∧ (0 ≤ r → res.1 = ok ∧ res.2.errno = s.errno)

/-- An environment whose registers all read `1`: the RX status register always reports a
byte available, and every byte received is `1`. -/
def envReady : Env := { dev := fun _ _ => 1, hostRet := fun _ => 0, hostMem := fun _ m => m }

/-! ## `_gettimeofday` and `gettimeofday` (`syscalls.c` lines 282-284, 540-550) -/

/-- The two fields of `struct timeval` that the firmware writes.  The structure is declared
in the C library header `<sys/time.h>`, not in the sources: `tv_sec` is a `time_t`, 64 bits
wide in picolibc, so the `unsigned int` read from the clock is assigned unchanged, and
`tv_usec` is a `long`, which holds every quotient of a 32-bit value by 1000. -/
structure Timeval where
  tv_sec : Int
  tv_usec : Int
  deriving DecidableEq, Repr

/-- The function `_gettimeofday(struct timeval *tv, void *tz)`: the object `*tv` is passed
and returned by value, `none` standing for `tv == NULL`.  The division is the C unsigned
division of `(*CLOCK_NSEC) / 1000`. -/
def _gettimeofday (env : Env) (tv : Option Timeval) (_tz : Nat) (s : State) :
    Int × Option Timeval × State :=
  match tv with
  | some t =>
    let (sec, s) := vload32 env CLOCK_TIME s
    let t := { t with tv_sec := (sec : Int) }
    let (nsec, s) := vload32 env CLOCK_NSEC s
    let t := { t with tv_usec := ((nsec / 1000 : Nat) : Int) }
    (0, some t, s)
  | none => (0, none, s)

/-- The function `gettimeofday(struct timeval *tv, void *tz)`. -/
def gettimeofday (env : Env) (tv : Option Timeval) (tz : Nat) (s : State) :
    Int × Option Timeval × State :=
  _gettimeofday env tv tz s

/-- An environment whose clock registers read `1700000000` seconds and `999999999`
nanoseconds. -/
def envClock : Env :=
  { dev := fun a _ => if a = 0x10000008 then 1700000000 else 999999999,
    hostRet := fun _ => 0, hostMem := fun _ m => m }

/-! ## `runtime.c` -/

/-- The macro `UART_TX_ADDR` of `runtime.c`. -/
def UART_TX_ADDR : Nat := 0x10000000

/-- The function `uart_putc(char c)`: one volatile `char` store to `UART_TX_ADDR`. -/
def uart_putc (c : Nat) (s : State) : State :=
  vstore8 UART_TX_ADDR c s

/-- The function `uart_puts(const char *s)`: the list holds the bytes from `*s` on, the
terminating NUL being implicit at its end; the loop stops at the first NUL. -/
def uart_puts : List Nat → State → State
  | [], s => s
  | c :: cs, s => if c = 0 then s else uart_puts cs (uart_putc c s)

/-- The function `uart_putln(const char *s)`. -/
def uart_putln (str : List Nat) (s : State) : State :=
  uart_putc 10 (uart_puts str s)

/-- The loop `for (int i = 28; i >= 0; i -= 4) uart_putc(hex[(value >> i) & 0xF]);`: the
first argument is the number of iterations left, `i / 4 + 1`. -/
def puthex_loop (value : Nat) : Nat → State → State
  | 0, s => s
  | n + 1, s =>
    puthex_loop value n
      (uart_putc ((cstr "0123456789ABCDEF").getD ((value >>> (4 * n)) &&& 0xF) 0) s)

/-- The function `uart_puthex(unsigned int value)`. -/
def uart_puthex (value : Nat) (s : State) : State :=
  puthex_loop value 8 (uart_puts (cstr "0x") s)

/-- The loop `while (value > 0) { buf[i++] = '0' + (value % 10); value /= 10; }` of
`uart_putdec`: it returns `buf[0..i)`.  The first argument bounds the number of iterations;
`value.toNat` is enough because `value / 10 < value`. -/
def putdec_digits : Nat → Int → List Nat → List Nat
  | 0, _, buf => buf
  | fuel + 1, value, buf =>
    if value > 0 then
      putdec_digits fuel (value.tdiv 10) (buf ++ [((48 + value.tmod 10) % 256).toNat])
    else buf

/-- The loop `while (i > 0) uart_putc(buf[--i]);`, given `buf[0..i)` reversed. -/
def putdec_print : List Nat → State → State
  | [], s => s
  | d :: ds, s => putdec_print ds (uart_putc d s)

/-- The function `uart_putdec(int value)`. -/
def uart_putdec (value : Int) (s : State) : State :=
  let (value, s) := if value < 0 then (toInt32 (-value), uart_putc 45 s) else (value, s)
  if value = 0 then uart_putc 48 s
  else putdec_print (putdec_digits value.toNat value []).reverse s

/-! ## `hello.c` -/

/-- The function `main` of `hello.c`. -/
def Hello.main (s : State) : Int × State :=
  let s := uart_putln (cstr "Hello, World from RV32IM!") s
  let s := uart_puts (cstr "This is a C program running on PyRV32.") s
  let s := uart_putc 10 s
  let a : Int := 42
  let b : Int := 13
  let sum : Int := toInt32 (a + b)
  let s := uart_puts (cstr "Testing arithmetic: ") s
  let s := uart_putdec a s
  let s := uart_puts (cstr " + ") s
  let s := uart_putdec b s
  let s := uart_puts (cstr " = ") s
  let s := uart_putdec sum s
  let s := uart_putc 10 s
  let s := uart_puts (cstr "Hex value: ") s
  let s := uart_puthex 0xDEADBEEF s
  let s := uart_putc 10 s
  let s := uart_putln (cstr "Program complete!") s
  (0, s)

/-- The text that the spec lists for `hello.c`, as bytes. -/
def helloText : List Nat :=
  cstr ("Hello, World from RV32IM!\nThis is a C program running on PyRV32.\n" ++
    "Testing arithmetic: 42 + 13 = 55\nHex value: 0xDEADBEEF\nProgram complete!\n")

/-- The bytes stored to `addr` by the 8-bit stores of a trace, in order. -/
def storesTo (addr : Nat) : List Event → List Nat
  | [] => []
  | Event.store8 a v :: es => if a = addr then v :: storesTo addr es else storesTo addr es
  | _ :: es => storesTo addr es

/-- A state transformer that only appends events, the same ones from every state. -/
def Emits (f : State → State) : Prop :=
  ∀ s, f s = { s with trace := s.trace ++ (f s0).trace }

/-! ## `fibonacci.c` -/

/-- The recursion of `fib`: the first argument bounds the depth of the recursion; `n.toNat`
is enough because each call decreases `n`.  The sum is a 32-bit `int` addition. -/
def fib_rec : Nat → Int → Int
  | 0, n => n
  | fuel + 1, n =>
    if n ≤ 1 then n
    else toInt32 (fib_rec fuel (n - 1) + fib_rec fuel (n - 2))

/-- The function `fib(int n)`. -/
def fib (n : Int) : Int := fib_rec n.toNat n

/-- The loop `for (int i = 2; i <= n; i++) { int temp = a + b; a = b; b = temp; }`: the
first argument is the number of iterations left, `n + 1 - i` (for `n < INT_MAX`; with
`n = INT_MAX` the test `i <= n` cannot fail).  It returns `b`. -/
def fib_iter_loop : Nat → Int → Int → Int
  | 0, _, b => b
  | k + 1, a, b => fib_iter_loop k b (toInt32 (a + b))

/-- The function `fib_iter(int n)`. -/
def fib_iter (n : Int) : Int :=
  if n ≤ 1 then n
  else fib_iter_loop (n - 1).toNat 0 1

/-- The loop `for (int i = 0; i < 15; i++)` of `main`: the first argument is the number of
iterations left, `15 - i`. -/
def Fibonacci.main_loop : Nat → Int → State → State
  | 0, _, s => s
  | k + 1, i, s =>
    let s := uart_puts (cstr "fib(") s
    let s := uart_putdec i s
    let s := uart_puts (cstr ") = ") s
    let s := uart_putdec (fib_iter i) s
    let s := uart_putc 10 s
    Fibonacci.main_loop k (i + 1) s

/-- The string literal of the branch `rec_result == iter_result`: a line feed, the UTF-8
encoding `E2 9C 93` of the check mark, and " Results match!". -/
def Fibonacci.matchText : List Nat := [10, 0xE2, 0x9C, 0x93] ++ cstr " Results match!"

/-- The string literal of the other branch: a line feed, the UTF-8 encoding `E2 9C 97` of
the ballot cross, and " Results don't match!". -/
def Fibonacci.mismatchText : List Nat := [10, 0xE2, 0x9C, 0x97] ++ cstr " Results don't match!"

/-- The function `main` of `fibonacci.c`. -/
def Fibonacci.main (s : State) : Int × State :=
  let s := uart_putln (cstr "Fibonacci Calculator") s
  let s := uart_putln (cstr "====================") s
  let s := uart_putc 10 s
  let s := uart_putln (cstr "First 15 Fibonacci numbers:") s
  let s := Fibonacci.main_loop 15 0 s
  let s := uart_putc 10 s
  let s := uart_putln (cstr "Testing recursive vs iterative:") s
  let n : Int := 10
  let rec_result := fib n
  let iter_result := fib_iter n
  let s := uart_puts (cstr "Recursive fib(") s
  let s := uart_putdec n s
  let s := uart_puts (cstr ") = ") s
  let s := uart_putdec rec_result s
  let s := uart_putc 10 s
  let s := uart_puts (cstr "Iterative fib(") s
  let s := uart_putdec n s
  let s := uart_puts (cstr ") = ") s
  let s := uart_putdec iter_result s
  let s := uart_putc 10 s
  let s :=
    if rec_result = iter_result then uart_putln Fibonacci.matchText s
    else uart_putln Fibonacci.mismatchText s
  let s := uart_putln (cstr "\nDone!") s
  (0, s)

/-- The output that the spec lists for `fibonacci.c`, as bytes: the banner, one line
`fib(i) = F(i)` for `i = 0, ..., 14`, the comparison of the two implementations at 10, the
"Results match!" line and "Done!". -/
def Fibonacci.text : List Nat :=
  cstr ("Fibonacci Calculator\n====================\n\nFirst 15 Fibonacci numbers:\n" ++
    "fib(0) = 0\nfib(1) = 1\nfib(2) = 1\nfib(3) = 2\nfib(4) = 3\nfib(5) = 5\nfib(6) = 8\n" ++
    "fib(7) = 13\nfib(8) = 21\nfib(9) = 34\nfib(10) = 55\nfib(11) = 89\nfib(12) = 144\n" ++
    "fib(13) = 233\nfib(14) = 377\n\nTesting recursive vs iterative:\n" ++
    "Recursive fib(10) = 55\nIterative fib(10) = 55\n") ++
  Fibonacci.matchText ++ [10] ++ cstr "\nDone!\n"

/-- The Fibonacci numbers of the claims: `F(0) = 0`, `F(1) = 1`, `F(k) = F(k-1) + F(k-2)`. -/
def fibNumber : Nat → Nat
  | 0 => 0
  | 1 => 1
  | k + 2 => fibNumber (k + 1) + fibNumber k

/-! ## `bad_uart_offset.c` -/

/-- The function `main` of `bad_uart_offset.c`, run without faults: the stores through
`uart_tx` and `bad_uart` are 8-bit volatile stores of `'O'`, `'K'`, `'\n'` and `'X'`. -/
def BadUartOffset.main (s : State) : Int × State :=
  let s := uart_putln (cstr "Testing UART boundary...") s
  let uart_tx : Nat := 0x10000000
  let s := vstore8 uart_tx 79 s
  let s := vstore8 uart_tx 75 s
  let s := vstore8 uart_tx 10 s
  let bad_uart : Nat := 0x10000001
  let s := vstore8 bad_uart 88 s
  let s := uart_putln (cstr "ERROR: Should not reach here!") s
  (0, s)

/-- Modelled from the spec: the bus belongs to the emulator, which is not among the
sources.  Its MMIO register map accepts an 8-bit store only at `0x10000000` and
`0x10001000`, an 8-bit load only at `0x10001004` and `0x10001008`, a 32-bit load only at
`0x10000004`, `0x10000008` and `0x1000000C`; every other MMIO access faults.  `ecall` and
`ebreak` are not bus accesses. -/
def busAccepts : Event → Bool
  | Event.store8 a _ => a = 0x10000000 || a = 0x10001000
  | Event.load8 a _ => a = 0x10001004 || a = 0x10001008
  | Event.load32 a _ => a = 0x10000004 || a = 0x10000008 || a = 0x1000000C
  | Event.ecall _ _ => true
  | Event.ebreak _ => true

/-- Modelled from the spec: a faulting access aborts the run before it takes effect.  Of
the events a program would produce, the bus lets through those before the first access it
does not accept; the result is that accepted part and the faulting access, if any. -/
def untilFault : List Event → List Event × Option Event
  | [] => ([], none)
  | e :: es =>
    if busAccepts e then (e :: (untilFault es).1, (untilFault es).2) else ([], some e)

/-! ## Decimal and hexadecimal text, as the claims describe it -/

/-- Appending events to the trace. -/
def emit (es : List Event) (s : State) : State :=
  { s with trace := s.trace ++ es }

/-- The number that a string of decimal digits denotes, most significant digit first. -/
def decValue (ds : List Nat) : Nat := ds.foldl (fun acc d => 10 * acc + d) 0

/-- The digit string `ds` is the canonical decimal representation of `n`: it is not empty,
its members are decimal digits, it denotes `n`, and it has no leading zero unless it is the
single digit `0`. -/
def IsDecimalOf (ds : List Nat) (n : Nat) : Prop :=
  ds ≠ [] ∧ (∀ d ∈ ds, d < 10) ∧ (ds.head? = some 0 → ds = [0]) ∧ decValue ds = n

instance (ds : List Nat) (n : Nat) : Decidable (IsDecimalOf ds n) := by
  unfold IsDecimalOf
  infer_instance

/-- The bytes of a signed decimal text with digits `ds`: a `'-'` exactly when `v < 0`, then
one ASCII digit per member of `ds`. -/
def signedText (v : Int) (ds : List Nat) : List Nat :=
  (if v < 0 then [45] else []) ++ ds.map (fun d => 48 + d)

/-- The ASCII code of the uppercase hexadecimal digit `d`. -/
def hexChar (d : Nat) : Nat := if d < 10 then 48 + d else 55 + d

/-- The eight hexadecimal digits of `value`, most significant first, zero-padded: digit `k`
is `floor(value / 16^(7-k)) mod 16`. -/
def hexDigits (value : Nat) : List Nat :=
  (List.range 8).map (fun k => value / 16 ^ (7 - k) % 16)

/-! ## `_fstat` (`syscalls.c` lines 376-385) -/

/-- The macro `S_IFCHR` of the C library header `<sys/stat.h>`, which is not among the
sources: the file type "character device", octal `0020000`. -/
def S_IFCHR : Nat := 0o020000

/-- The two fields of `struct stat` that `_fstat` writes.  The structure is declared in
`<sys/stat.h>`. -/
structure Stat where
  st_mode : Nat
  st_blksize : Int
  deriving DecidableEq, Repr

/-- The function `_fstat(int fd, struct stat *st)`: the object `*st` is passed and returned
by value. -/
def _fstat (fd : Int) (st : Stat) (s : State) : Int × Stat × State :=
  if fd ≥ 0 ∧ fd ≤ 2 then
    (0, { st with st_mode := S_IFCHR, st_blksize := 0 }, s)
  else
    (-1, st, { s with errno := EBADF })

/-! ## `getpwuid` (`syscalls.c` lines 92-100, 748-762) -/

/-- The `struct passwd` of `syscalls.c`; strings are the bytes of their literals. -/
structure Passwd where
  pw_name : List Nat
  pw_passwd : List Nat
  pw_uid : Nat
  pw_gid : Nat
  pw_gecos : List Nat
  pw_dir : List Nat
  pw_shell : List Nat
  deriving DecidableEq, Repr

/-- The static object `dummy_passwd`. -/
def dummy_passwd : Passwd :=
  { pw_name := cstr "player",
    pw_passwd := cstr "x",
    pw_uid := 0,
    pw_gid := 0,
    pw_gecos := cstr "NetHack Player",
    pw_dir := cstr "/",
    pw_shell := cstr "/bin/sh" }

/-- The function `getpwuid(uid_t uid)`: it returns `&dummy_passwd`, here the object pointed
to, `none` standing for `NULL`. -/
def getpwuid (_uid : Nat) : Option Passwd :=
  some dummy_passwd

/-! ## `malloc` and `free` (`stdlib.h`) -/

/-- The function `malloc(unsigned int size)` on the static `char heap[8192]` placed at the
address `heap`: it takes the current `heap_ptr` and returns the pointer result and the new
`heap_ptr`.  `(size + 3) & ~3` is 32-bit unsigned arithmetic, `heap_ptr += size` is 32-bit
pointer arithmetic, and the comparison of pointers is unsigned. -/
def malloc (heap : Nat) (size : Nat) (heap_ptr : Nat) : Nat × Nat :=
  let ptr := heap_ptr
  let size := ((size + 3) % 4294967296) &&& 0xFFFFFFFC
  let heap_ptr := (heap_ptr + size) % 4294967296
  if heap_ptr > heap + 8192 then (0, heap_ptr) else (ptr, heap_ptr)

/-- The function `free(void *ptr)`: it does nothing, `heap_ptr` stays as it is. -/
def free (_ptr : Nat) (heap_ptr : Nat) : Nat :=
  heap_ptr

/-! ## `strcmp` (`string.h`) -/

/-- The function `strcmp(const char *s1, const char *s2)` on a memory of bytes: the first
argument bounds the number of iterations of the `while` loop, and the result is `none` when
it runs out.  The characters are compared as bytes, and the value returned is the `int`
difference of `*(unsigned char *)s1` and `*(unsigned char *)s2`. -/
def strcmp (mem : Nat → Nat) : Nat → Nat → Nat → Option Int
  | 0, _, _ => none
  | fuel + 1, s1, s2 =>
    if mem s1 % 256 ≠ 0 ∧ mem s1 % 256 = mem s2 % 256 then
      strcmp mem fuel (s1 + 1) (s2 + 1)
    else
      some (((mem s1 % 256 : Nat) : Int) - ((mem s2 % 256 : Nat) : Int))

/-- The memory `mem` holds at address `p` the NUL-terminated string whose characters are
the bytes `l`: none of them is `0`, and the byte after them is the terminating NUL. -/
def IsCString (mem : Nat → Nat) (p : Nat) (l : List Nat) : Prop :=
  (∀ i, i < l.length → mem (p + i) % 256 = l.getD i 0) ∧
  (∀ c ∈ l, 0 < c ∧ c < 256) ∧
  mem (p + l.length) % 256 = 0

instance (mem : Nat → Nat) (p : Nat) (l : List Nat) : Decidable (IsCString mem p l) := by
  unfold IsCString
  infer_instance

/-- Lexicographic order of byte strings, bytes compared as unsigned numbers: a proper
initial part precedes the whole, and otherwise the first differing byte decides. -/
def lexLt : List Nat → List Nat → Bool
  | [], [] => false
  | [], _ :: _ => true
  | _ :: _, [] => false
  | a :: as, b :: bs => decide (a < b) || (a == b && lexLt as bs)

/-- A memory that holds "abc" at `0x80000100` and "abd" at `0x80000200`. -/
def memAbc : Nat → Nat := fun a =>
  if a = 0x80000100 then 97 else if a = 0x80000101 then 98 else if a = 0x80000102 then 99
  else if a = 0x80000200 then 97 else if a = 0x80000201 then 98 else if a = 0x80000202 then 100
  else 0

/-! ## `open` with its variadic arguments, and `creat` (`syscalls.c` lines 585-593, 667-669) -/

/-- The function `open(const char *name, int flags, ...)` with the variadic arguments of
the call made explicit: the body contains no `va_start`, so it never reads them. -/
def open_va (env : Env) (name : Nat) (flags : Int) (_va : List Int) (s : State) : Int × State :=
  open_ env name flags s

/-- The function `creat(const char *pathname, mode_t mode)`.  The macros `O_CREAT`,
`O_WRONLY` and `O_TRUNC` come from the C library header `<fcntl.h>`, which is not among the
sources: they are parameters.  `mode` is passed to `open` as its variadic argument. -/
def creat (env : Env) (O_CREAT O_WRONLY O_TRUNC : Nat) (pathname mode : Nat) (s : State) :
    Int × State :=
  open_va env pathname ((O_CREAT ||| O_WRONLY ||| O_TRUNC : Nat) : Int) [(mode : Int)] s

/-! ## Sequences of `malloc` and `free` calls -/

/-- The size that `malloc` adds to `heap_ptr`: `(size + 3) & ~3` in 32-bit unsigned
arithmetic. -/
def malloc_rounded (size : Nat) : Nat :=
  ((size + 3) % 4294967296) &&& 0xFFFFFFFC

/-- A call of the allocator. -/
inductive HeapOp where
  | malloc (size : Nat)
  | free (ptr : Nat)
  deriving DecidableEq, Repr

/-- A sequence of allocator calls from a given `heap_ptr`: the results of its `malloc`
calls, in order, and the final `heap_ptr`. -/
def heapRun (heap : Nat) : List HeapOp → Nat → List Nat × Nat
  | [], heap_ptr => ([], heap_ptr)
  | HeapOp.malloc size :: ops, heap_ptr =>
    ((malloc heap size heap_ptr).1 :: (heapRun heap ops (malloc heap size heap_ptr).2).1,
     (heapRun heap ops (malloc heap size heap_ptr).2).2)
  | HeapOp.free ptr :: ops, heap_ptr => heapRun heap ops (free ptr heap_ptr)

/-- The rounded sizes of a sequence of calls, accumulated from `heap_ptr`, never reach
`2^32`: no `heap_ptr += size` wraps the 32-bit address space. -/
def noWrap : List HeapOp → Nat → Bool
  | [], _ => true
  | HeapOp.malloc size :: ops, heap_ptr =>
    decide (heap_ptr + malloc_rounded size < 4294967296) &&
      noWrap ops (heap_ptr + malloc_rounded size)
  | HeapOp.free _ :: ops, heap_ptr => noWrap ops heap_ptr

/-! ## `sleep` (`syscalls.c` lines 733-742) -/

/-- The loop `while (*timer < target) {}`: it gives `none` when the fuel runs out before a
timer read reaches `target`. -/
def sleep_wait (env : Env) (target : Nat) : Nat → State → Option State
  | 0, _ => none
  | fuel + 1, s =>
    let (t, s) := vload32 env 0x10000004 s
    if t < target then sleep_wait env target fuel s else some s

/-- The function `sleep(unsigned int seconds)`: `seconds * 1000` and the sum are 32-bit
unsigned arithmetic.  The first argument is the fuel of the wait loop. -/
def sleep (env : Env) (fuel : Nat) (seconds : Nat) (s : State) : Option (Nat × State) :=
  let (start, s) := vload32 env 0x10000004 s
  let target := (start + (seconds * 1000) % 4294967296) % 4294967296
  match sleep_wait env target fuel s with
  | none => none
  | some s => some (0, s)

/-- An environment whose registers read `5000 + 400 * k` at their load number `k`: a
millisecond timer that advances by 400 ms between two reads. -/
def envTimer : Env :=
  { dev := fun _ k => 5000 + 400 * k, hostRet := fun _ => 0, hostMem := fun _ m => m }

/-! ## Console functions of `interpreter_test.c` (lines 6-67) -/

/-- The function `console_putc(char c)`: one volatile `char` store to `CONSOLE_UART_TX`. -/
def console_putc (c : Nat) (s : State) : State :=
  vstore8 0x10001000 c s

/-- The function `console_puts(const char *s)`: the list holds the bytes from `*s` on, the
terminating NUL being implicit at its end. -/
def console_puts : List Nat → State → State
  | [], s => s
  | c :: cs, s => if c = 0 then s else console_puts cs (console_putc c s)

/-- The function `console_has_char()`: `*uart_status != 0` as an `int`. -/
def console_has_char (env : Env) (s : State) : Int × State :=
  let (v, s) := vload8 env 0x10001008 s
  (if v ≠ 0 then 1 else 0, s)

/-- The function `console_getc()`: the loop `while (!console_has_char());` and then the
read of the data register.  The first argument bounds the number of iterations of the loop;
the result is `none` when it runs out. -/
def console_getc (env : Env) : Nat → State → Option (Nat × State)
  | 0, _ => none
  | fuel + 1, s =>
    let (h, s) := console_has_char env s
    if h = 0 then console_getc env fuel s
    else
      let (c, s) := vload8 env 0x10001004 s
      some (c, s)

/-! ## Reads of the RX data register, in a trace -/

/-- The event is a read of the RX status register `0x10001008` that reported data
available, that is a value other than `0`. -/
def isAvailStatus : Event → Bool
  | Event.load8 a v => a == 0x10001008 && v != 0
  | _ => false

/-- The event is a read of the RX data register `0x10001004`. -/
def isRxData : Event → Bool
  | Event.load8 a _ => a == 0x10001004
  | _ => false

/-- The check of `rxGuarded` on a trace given latest event first: every read of the RX data
register has, as the event just before it, a status read that reported data available. -/
def rxGuardedRev : List Event → Bool
  | [] => true
  | e :: before =>
    (!isRxData e || (match before with
      | p :: _ => isAvailStatus p
      | [] => false)) && rxGuardedRev before

/-- Every read of the RX data register in the trace is immediately preceded by a read of
the RX status register that reported data available. -/
def rxGuarded (tr : List Event) : Bool := rxGuardedRev tr.reverse

/-- The latest event of the trace is a status read that reported data available. -/
def endsAvail (tr : List Event) : Bool :=
  match tr.reverse with
  | p :: _ => isAvailStatus p
  | [] => false

/-! ## `strcpy` and `strlen` (`string.h`) -/

/-- The loop `while (*s++) len++;` of `strlen`, with `int len`: the first argument bounds
the number of iterations, and the result is `none` when it runs out. -/
def strlen_loop (mem : Nat → Nat) : Nat → Nat → Int → Option Int
  | 0, _, _ => none
  | fuel + 1, s, len =>
    if mem s % 256 ≠ 0 then strlen_loop mem fuel (s + 1) (toInt32 (len + 1)) else some len

/-- The function `strlen(const char *s)`, which returns an `int`. -/
def strlen (mem : Nat → Nat) (fuel : Nat) (s : Nat) : Option Int :=
  strlen_loop mem fuel s 0

/-- The loop `while ((*dest++ = *src++));` of `strcpy`: each iteration stores the byte
read and goes on if it is not `0`.  The first argument bounds the number of iterations. -/
def strcpy_loop : Nat → (Nat → Nat) → Nat → Nat → Option (Nat → Nat)
  | 0, _, _, _ => none
  | fuel + 1, mem, dest, src =>
    if mem src % 256 ≠ 0 then
      strcpy_loop fuel (fun a => if a = dest then mem src % 256 else mem a) (dest + 1) (src + 1)
    else
      some (fun a => if a = dest then mem src % 256 else mem a)

/-- The function `strcpy(char *dest, const char *src)`: its result is the pointer returned,
`ret = dest`, and the memory afterwards. -/
def strcpy (mem : Nat → Nat) (fuel : Nat) (dest src : Nat) : Option (Nat × (Nat → Nat)) :=
  match strcpy_loop fuel mem dest src with
  | none => none
  | some mem => some (dest, mem)

/-- A memory that holds "ab" at `0x80000101`, and `0` elsewhere. -/
def memAb : Nat → Nat := fun a =>
  if a = 0x80000101 then 97 else if a = 0x80000102 then 98 else 0

/-- A memory whose bytes below `2^31` are all `1`: it holds at address `0` a
NUL-terminated string of `2^31` characters. -/
def memOnes : Nat → Nat := fun a => if a < 2147483648 then 1 else 0

/-! ## `parse_num` (`interpreter_test.c` lines 79-95) -/

/-- The loop `while (*s >= '0' && *s <= '9') { val = val * 10 + (*s - '0'); s++; }` with
`int val`: the first argument bounds the number of iterations. -/
def parse_num_loop (mem : Nat → Nat) : Nat → Nat → Int → Option Int
  | 0, _, _ => none
  | fuel + 1, s, val =>
    if mem s % 256 ≥ 48 ∧ mem s % 256 ≤ 57 then
      parse_num_loop mem fuel (s + 1) (toInt32 (val * 10 + (((mem s % 256 : Nat) : Int) - 48)))
    else some val

/-- The function `parse_num(const char *s)`. -/
def parse_num (mem : Nat → Nat) (fuel : Nat) (s : Nat) : Option Int :=
  match parse_num_loop mem fuel (if mem s % 256 = 45 then s + 1 else s) 0 with
  | none => none
  | some val => some (if mem s % 256 = 45 then toInt32 (-val) else val)

/-- The bytes of a decimal numeral: a `'-'` when `neg`, one ASCII digit per member of `ds`,
and then the `tail`. -/
def numeralText (neg : Bool) (ds tail : List Nat) : List Nat :=
  (if neg then [45] else []) ++ (ds.map (fun d => 48 + d) ++ tail)

/-- A memory that holds "-42x" at `0x80000300`, and `0` elsewhere. -/
def memNum : Nat → Nat := fun a =>
  if a = 0x80000300 then 45 else if a = 0x80000301 then 52 else if a = 0x80000302 then 50
  else if a = 0x80000303 then 120 else 0

/-! ## `read_line` (`interpreter_test.c` lines 97-123) -/

/-- The loop `while (i < max_len - 1) { ... }` of `read_line`.  `wait` is the fuel of each
`console_getc` call and the first recursive argument bounds the number of iterations; the
result is `none` when either runs out.  Besides the final `i` and state, the result
carries the values that `i` had at the start of the iterations executed, in order: this
list is not in the source, it serves to state that `i` stays in range throughout. -/
def read_line_loop (env : Env) (wait : Nat) (buf : Nat) (max_len : Int) :
    Nat → Int → List Int → State → Option (Int × List Int × State)
  | 0, _, _, _ => none
  | fuel + 1, i, hist, s =>
    if i < toInt32 (max_len - 1) then
      match console_getc env wait s with
      | none => none
      | some (c, s) =>
        let s := console_putc c s
        if c = 13 ∨ c = 10 then
          some (i, hist ++ [i], console_puts [13, 10] s)
        else if c = 8 ∨ c = 127 then
          if i > 0 then
            read_line_loop env wait buf max_len fuel (i - 1) (hist ++ [i])
              (console_puts [32, 8] s)
          else
            read_line_loop env wait buf max_len fuel i (hist ++ [i]) s
        else
          read_line_loop env wait buf max_len fuel (i + 1) (hist ++ [i])
            (ramStore (buf + i.toNat) c s)
    else some (i, hist, s)

/-- The function `read_line(char *buf, int max_len)`: the loop from `i = 0`, then
`buf[i] = '\0'`.  The result is the final `i`, the values `i` had at the start of each
iteration, and the state. -/
def read_line (env : Env) (wait fuel : Nat) (buf : Nat) (max_len : Int) (s : State) :
    Option (Int × List Int × State) :=
  match read_line_loop env wait buf max_len fuel 0 [] s with
  | none => none
  | some (i, hist, s) => some (i, hist, ramStore (buf + i.toNat) 0 s)

/-- The character is none of CR, LF, backspace and DEL. -/
def isPlainChar (c : Nat) : Bool := c != 13 && c != 10 && c != 8 && c != 127

/-- An environment whose RX status reads `1` and whose data register delivers "hi", a
backspace, "!" and CR, then zeros. -/
def envLine : Env :=
  { dev := fun a k =>
      if a = 0x10001008 then 1
      else if a = 0x10001004 then [104, 105, 8, 33, 13].getD k 0
      else 0,
    hostRet := fun _ => 0, hostMem := fun _ m => m }

/-! ## `tokenize` (`interpreter_test.c` lines 125-146) -/

/-- The loop `while (*p == ' ' || *p == '\t') p++;`: the first argument bounds the number
of iterations. -/
def tokenize_skip (mem : Nat → Nat) : Nat → Nat → Option Nat
  | 0, _ => none
  | fuel + 1, p =>
    if mem p % 256 = 32 ∨ mem p % 256 = 9 then tokenize_skip mem fuel (p + 1) else some p

/-- The loop `while (*p && *p != ' ' && *p != '\t') p++;`: the first argument bounds the
number of iterations. -/
def tokenize_scan (mem : Nat → Nat) : Nat → Nat → Option Nat
  | 0, _ => none
  | fuel + 1, p =>
    if mem p % 256 ≠ 0 ∧ mem p % 256 ≠ 32 ∧ mem p % 256 ≠ 9 then tokenize_scan mem fuel (p + 1)
    else some p

/-- The outer loop of `tokenize`.  `tokens` holds the slots `tokens[0..*count)` written so
far, so that `*count` is its length and `tokens[(*count)++] = p` appends `p`; the array
`tokens[]` and the `int *count` are objects distinct from the line buffer, which `mem`
holds.  `inner` is the fuel of each inner loop, and the first recursive argument bounds
the number of iterations of the outer loop. -/
def tokenize_loop (max_tokens : Int) (inner : Nat) :
    Nat → (Nat → Nat) → Nat → List Nat → Option ((Nat → Nat) × List Nat)
  | 0, _, _, _ => none
  | fuel + 1, mem, p, tokens =>
    if mem p % 256 ≠ 0 ∧ (tokens.length : Int) < max_tokens then
      match tokenize_skip mem inner p with
      | none => none
      | some p =>
        if mem p % 256 = 0 then some (mem, tokens)
        else
          match tokenize_scan mem inner p with
          | none => none
          | some q =>
            if mem q % 256 ≠ 0 then
              tokenize_loop max_tokens inner fuel (fun a => if a = q then 0 else mem a) (q + 1)
                (tokens ++ [p])
            else
              tokenize_loop max_tokens inner fuel mem q (tokens ++ [p])
    else some (mem, tokens)

/-- The function `tokenize(char *line, char **tokens, int *count, int max_tokens)`: its
result is the memory afterwards and the slots `tokens[0..*count)`. -/
def tokenize (mem : Nat → Nat) (inner fuel : Nat) (line : Nat) (max_tokens : Int) :
    Option ((Nat → Nat) × List Nat) :=
  tokenize_loop max_tokens inner fuel mem line []

/-- Space or tab. -/
def isSep (c : Nat) : Bool := c == 32 || c == 9

/-- The offsets at which a maximal run of characters other than space and tab starts: those
of the characters that are not separators and are first or follow a separator.  `prevSep`
tells whether the character before the list is a separator (or missing) and `pos` is the
offset of the head of the list. -/
def runStartsAux (prevSep : Bool) (pos : Nat) : List Nat → List Nat
  | [] => []
  | c :: cs =>
    (if prevSep && !isSep c then [pos] else []) ++ runStartsAux (isSep c) (pos + 1) cs

/-- The offsets of the starts of the maximal runs of non-separators of a line. -/
def runStarts (l : List Nat) : List Nat := runStartsAux true 0 l

/-- The run of non-separators that starts at offset `i` of the line. -/
def runAt (l : List Nat) (i : Nat) : List Nat := (l.drop i).takeWhile (fun c => !isSep c)

/-- A memory that holds " ab  c" at `0x80000400`, and `0` elsewhere. -/
def memLine : Nat → Nat := fun a =>
  if a = 0x80000400 then 32 else if a = 0x80000401 then 97 else if a = 0x80000402 then 98
  else if a = 0x80000403 then 32 else if a = 0x80000404 then 32 else if a = 0x80000405 then 99
  else 0

/-! # Theorems -/

/-! ## C1: the exit status reaches `a0` -/

/-- The digit loop of `_exit` leaves `status = 0` when it starts from a value `>= 0`. -/
theorem exit_digits_status (fuel : Nat) :
    ∀ (status : Int) (digits : List Nat), 0 ≤ status → status.toNat ≤ fuel →
      (exit_digits fuel status digits).1 = 0 := by
  induction fuel with
  | zero =>
    intro status digits h0 hf
    have : status = 0 := by omega
    simp [exit_digits, this]
  | succ n ih =>
    intro status digits h0 hf
    unfold exit_digits
    split
    · have hd : status.tdiv 10 = status / 10 := Int.tdiv_eq_ediv h0 (by norm_num)
      apply ih
      · rw [hd]; omega
      · rw [hd]; omega
    · omega

theorem exit_trace_last (status : Int) (s : State) :
    (_exit status s).trace.getLast? = some (Event.ebreak (exit_final_status status)) := by
  unfold _exit exit_final_status
  by_cases h1 : status < 0
  · by_cases h2 : toInt32 (-status) = 0 <;> simp [h1, h2]
  · by_cases h2 : status = 0 <;> simp [h1, h2]

theorem exit_final_status_cases (status : Int)
    (hlo : -2147483648 ≤ status) (hhi : status ≤ 2147483647) :
    exit_final_status status = 0 ∨ exit_final_status status = -2147483648 := by
  unfold exit_final_status
  by_cases h1 : status < 0
  · simp only [h1, if_true]
    by_cases hmin : status = -2147483648
    · right
      subst hmin
      decide
    · left
      have hneg : toInt32 (-status) = -status := by unfold toInt32; omega
      rw [hneg]
      split
      · assumption
      · exact exit_digits_status _ _ _ (by omega) le_rfl
  · left
    simp only [h1, if_false]
    split
    · assumption
    · exact exit_digits_status _ _ _ (by omega) le_rfl

/-- C1 (what the code does): for every `int status`, `_exit(status)` ends with an `ebreak`
whose `a0` holds the value left in the variable `status` by the printing code, which is `0`
(or `INT_MIN`), so the exit code derived from `a0` is `0` whatever status was passed. -/
theorem exit_a0_exit_code_zero (status : Int) (s : State)
    (hlo : -2147483648 ≤ status) (hhi : status ≤ 2147483647) :
    ∃ a0, (_exit status s).trace.getLast? = some (Event.ebreak a0) ∧ exitCode a0 = 0 := by
  refine ⟨exit_final_status status, exit_trace_last status s, ?_⟩
  rcases exit_final_status_cases status hlo hhi with h | h <;> rw [h] <;> decide

/-- C1 at the failing input: `_exit(1)` executes `ebreak` with an `a0` whose exit code is
`0`, although the exit code of the status passed is `1`. -/
theorem exit_a0_exit_code_zero_witness :
    (∃ a0, (_exit 1 s0).trace.getLast? = some (Event.ebreak a0) ∧ exitCode a0 = 0)
      ∧ exitCode 1 = 1 :=
  ⟨exit_a0_exit_code_zero 1 s0 (by decide) (by decide), by decide⟩

/-! ## C2: `write` on fd 1 and fd 2 -/

theorem toInt32_of_lt (n : Nat) (h : n ≤ 2147483647) : toInt32 (n : Int) = (n : Int) := by
  unfold toInt32
  omega

/-- The UART loop of `_write` stores `ptr[i], ptr[i+1], ...` in order and does nothing else. -/
theorem write_loop_eq (addr ptr : Nat) (n : Nat) :
    ∀ (i : Nat) (s : State), write_loop addr ptr n i s =
      { s with trace := s.trace ++
          (List.range n).map (fun j => Event.store8 addr (s.mem (ptr + (i + j)) % 256)) } := by
  induction n with
  | zero => intro i s; simp [write_loop]
  | succ n ih =>
    intro i s
    rw [write_loop, ih, List.range_succ_eq_map]
    simp [vstore8, List.map_map, Function.comp_def, Nat.add_assoc, Nat.add_comm 1]

/-- C2 (amended): for fd 1 and fd 2 and every `len <= 2^31 - 1`, `write(fd, buf, len)` returns
`len`, and all it does is to store `buf[0], ..., buf[len-1]`, in order and one 8-bit store
each, to `0x10001000` (fd 1) or `0x10000000` (fd 2): no `ecall`, no other event, no change of
memory or `errno`. -/
theorem write_uart_stores_all (env : Env) (fd : Int) (buf len : Nat) (s : State)
    (hfd : fd = 1 ∨ fd = 2) (hlen : len ≤ 2147483647) :
    write env fd buf len s =
      ((len : Int),
       { s with trace := s.trace ++ (List.range len).map (fun i =>
           Event.store8 (if fd = 1 then 0x10001000 else 0x10000000) (s.mem (buf + i) % 256)) }) := by
  unfold write
  rw [if_pos hfd, toInt32_of_lt len hlen]
  rcases hfd with h | h <;> subst h <;>
    simp [_write, write_loop_eq, CONSOLE_UART_TX, DEBUG_UART_TX]

theorem write_uart_stores_all_witness :
    write env0 1 0x80000000 3 s0 =
      (((3 : Nat) : Int),
       { s0 with trace := s0.trace ++ (List.range 3).map (fun i =>
           Event.store8 (if (1 : Int) = 1 then 0x10001000 else 0x10000000)
             (s0.mem (0x80000000 + i) % 256)) }) :=
  write_uart_stores_all env0 1 0x80000000 3 s0 (by decide) (by decide)

/-- C2 as stated fails for `len = 2^31`: converted to the `int len` of `_write` the length
is negative, so `write(1, buf, len)` stores no byte at all and returns `-2^31`, not `len`. -/
theorem write_uart_len_counterexample :
    (write env0 1 0x80000000 2147483648 s0).1 = -2147483648 ∧
    (write env0 1 0x80000000 2147483648 s0).2.trace = [] := by
  decide

/-! ## C3: `read` on fd 0 -/

/-- The loop of `_read` returns a value between its current index and `len`. -/
theorem read_loop_bounds (env : Env) (ptr : Nat) (len : Int) (n : Nat) :
    ∀ (i : Nat) (s : State), ((i + n : Nat) : Int) = len →
      (i : Int) ≤ (read_loop env ptr len n i s).1 ∧ (read_loop env ptr len n i s).1 ≤ len := by
  induction n with
  | zero =>
    intro i s h
    simp only [read_loop]
    omega
  | succ n ih =>
    intro i s h
    simp only [read_loop]
    split
    · split <;> constructor <;> simp only [] <;> omega
    · split
      · constructor <;> simp only [] <;> omega
      · have := ih (i + 1)
          (ramStore (ptr + i) (vload8 env CONSOLE_UART_RX (vload8 env CONSOLE_UART_RX_STATUS s).2).1
            (vload8 env CONSOLE_UART_RX (vload8 env CONSOLE_UART_RX_STATUS s).2).2) (by omega)
        omega

/-- C3 (amended): for `1 <= len <= 2^31 - 1`, `read(0, buf, len)` does not wait: it returns
`r` with `0 <= r <= len`, and `r = 0` exactly when the first read of the RX status register
gives `0` or the first byte read from the RX data register is `0xFF`. -/
theorem read_stdin_result (env : Env) (buf len : Nat) (s : State)
    (h1 : 1 ≤ len) (hlen : len ≤ 2147483647) :
    0 ≤ (read env 0 buf len s).1 ∧ (read env 0 buf len s).1 ≤ (len : Int) ∧
    ((read env 0 buf len s).1 = 0 ↔
      (env.dev 0x10001008 (s.cnt 0x10001008) % 256 = 0 ∨
       env.dev 0x10001004 (s.cnt 0x10001004) % 256 = 0xFF)) := by
  obtain ⟨n, rfl⟩ : ∃ n, len = n + 1 := ⟨len - 1, by omega⟩
  have hb := fun s' => read_loop_bounds env buf ((n + 1 : Nat) : Int) n 1 s' (by omega)
  have e1 : read env 0 buf (n + 1) s = read_loop env buf ((n + 1 : Nat) : Int) (n + 1) 0 s := by
    unfold read _read
    rw [if_pos rfl, if_pos rfl, toInt32_of_lt (n + 1) hlen]
    rfl
  rw [e1, read_loop]
  have hst : (vload8 env CONSOLE_UART_RX_STATUS s).1
      = env.dev 0x10001008 (s.cnt 0x10001008) % 256 := rfl
  have hdt : (vload8 env CONSOLE_UART_RX (vload8 env CONSOLE_UART_RX_STATUS s).2).1
      = env.dev 0x10001004 (s.cnt 0x10001004) % 256 := by
    simp [vload8, CONSOLE_UART_RX, CONSOLE_UART_RX_STATUS]
  simp only [hst, hdt]
  by_cases hs : env.dev 0x10001008 (s.cnt 0x10001008) % 256 = 0
  · simp [hs]
    omega
  · by_cases hd : env.dev 0x10001004 (s.cnt 0x10001004) % 256 = 0xFF
    · simp [hs, hd]
      omega
    · have := hb (ramStore (buf + 0) (env.dev 0x10001004 (s.cnt 0x10001004) % 256)
        (vload8 env CONSOLE_UART_RX (vload8 env CONSOLE_UART_RX_STATUS s).2).2)
      simp only [hs, hd, if_false, or_self, iff_false, Nat.zero_add] at this ⊢
      omega

theorem read_stdin_result_witness :
    0 ≤ (read env0 0 0x80000000 4 s0).1 ∧ (read env0 0 0x80000000 4 s0).1 ≤ ((4 : Nat) : Int) ∧
    ((read env0 0 0x80000000 4 s0).1 = 0 ↔
      (env0.dev 0x10001008 (s0.cnt 0x10001008) % 256 = 0 ∨
       env0.dev 0x10001004 (s0.cnt 0x10001004) % 256 = 0xFF)) :=
  read_stdin_result env0 0x80000000 4 s0 (by decide) (by decide)

/-- C3 as stated fails when the RX status register reads `0` at the call:
`read(0, buf, 1)` returns `0` at once, after one status read and no read of the data
register. -/
theorem read_stdin_empty_counterexample :
    (read env0 0 0x80000000 1 s0).1 = 0 ∧
    (read env0 0 0x80000000 1 s0).2.trace = [Event.load8 0x10001008 0] := by
  decide

/-! ## C4: the errno convention of the wrappers -/

theorem toInt32_neg_of_gt (r : Int) (h : -2147483648 < r) (h0 : r < 0) :
    toInt32 (-r) = -r := by
  unfold toInt32
  omega

theorem errnoContract_of_eq (s s1 : State) (r ok : Int) (h : -2147483648 < r)
    (he : s1.errno = s.errno) :
    ErrnoContract (if r < 0 then (-1, { s1 with errno := toInt32 (-r) }) else (ok, s1)) s r ok := by
  constructor
  · intro h0
    rw [if_pos h0]
    exact ⟨rfl, toInt32_neg_of_gt r h h0⟩
  · intro h0
    rw [if_neg (by omega)]
    exact ⟨rfl, he⟩

/-- C4 (amended): for each of `open`, `close`, `lseek`, `chdir`, `unlink`, `fstat`, `stat`,
`rename`, `link` and `access`, if the `ecall` leaves `r` in `a0` with `-2^31 < r < 0` the
wrapper returns `-1` and sets `errno` to `-r`; if it leaves `r >= 0` the wrapper returns `r`
(`open`, `lseek`) or `0` (the others) and leaves `errno` as it was. -/
theorem wrappers_errno_contract (env : Env) (s : State) (p q : Nat) (a b c : Int)
    (h : -2147483648 < nextA0 env s) :
    ErrnoContract (open_ env p a s) s (nextA0 env s) (nextA0 env s) ∧
    ErrnoContract (close env a s) s (nextA0 env s) 0 ∧
    ErrnoContract (lseek env a b c s) s (nextA0 env s) (nextA0 env s) ∧
    ErrnoContract (chdir env p s) s (nextA0 env s) 0 ∧
    ErrnoContract (unlink env p s) s (nextA0 env s) 0 ∧
    ErrnoContract (fstat env a p s) s (nextA0 env s) 0 ∧
    ErrnoContract (stat env p q s) s (nextA0 env s) 0 ∧
    ErrnoContract (rename env p q s) s (nextA0 env s) 0 ∧
    ErrnoContract (link env p q s) s (nextA0 env s) 0 ∧
    ErrnoContract (access env p a s) s (nextA0 env s) 0 := by
  refine ⟨?_, ?_, ?_, ?_, ?_, ?_, ?_, ?_, ?_, ?_⟩ <;>
    exact errnoContract_of_eq s _ _ _ h rfl

theorem wrappers_errno_contract_witness :
    ErrnoContract (open_ (envRet (-2)) 0x80000100 0 s0) s0 (nextA0 (envRet (-2)) s0)
      (nextA0 (envRet (-2)) s0) ∧
    ErrnoContract (close (envRet (-2)) 0 s0) s0 (nextA0 (envRet (-2)) s0) 0 ∧
    ErrnoContract (lseek (envRet (-2)) 0 0 0 s0) s0 (nextA0 (envRet (-2)) s0)
      (nextA0 (envRet (-2)) s0) ∧
    ErrnoContract (chdir (envRet (-2)) 0x80000100 s0) s0 (nextA0 (envRet (-2)) s0) 0 ∧
    ErrnoContract (unlink (envRet (-2)) 0x80000100 s0) s0 (nextA0 (envRet (-2)) s0) 0 ∧
    ErrnoContract (fstat (envRet (-2)) 0 0x80000100 s0) s0 (nextA0 (envRet (-2)) s0) 0 ∧
    ErrnoContract (stat (envRet (-2)) 0x80000100 0x80000200 s0) s0 (nextA0 (envRet (-2)) s0) 0 ∧
    ErrnoContract (rename (envRet (-2)) 0x80000100 0x80000200 s0) s0
      (nextA0 (envRet (-2)) s0) 0 ∧
    ErrnoContract (link (envRet (-2)) 0x80000100 0x80000200 s0) s0 (nextA0 (envRet (-2)) s0) 0 ∧
    ErrnoContract (access (envRet (-2)) 0x80000100 0 s0) s0 (nextA0 (envRet (-2)) s0) 0 :=
  wrappers_errno_contract (envRet (-2)) s0 0x80000100 0x80000200 0 0 0 (by decide)

/-- C4 as stated fails when the `ecall` leaves `r = -2^31` in `a0`: `close` returns `-1`
but `errno` becomes `-2^31`, which is not `-r = 2^31`. -/
theorem wrappers_errno_counterexample :
    nextA0 (envRet (-2147483648)) s0 = -2147483648 ∧
    (close (envRet (-2147483648)) 3 s0).1 = -1 ∧
    (close (envRet (-2147483648)) 3 s0).2.errno = -2147483648 ∧
    ¬ ErrnoContract (close (envRet (-2147483648)) 3 s0) s0 (nextA0 (envRet (-2147483648)) s0) 0 := by
  refine ⟨by decide, by decide, by decide, ?_⟩
  intro hc
  have h := (hc.1 (by decide)).2
  revert h
  decide

/-! ## C5: `getcwd` with a buffer in guest RAM -/

/-- C5 (what the code does): when the buffer lies in guest RAM (`0x80000000 <= buf < 2^32`)
and the `getcwd` ecall leaves `buf` in `a0`, the wrapper reads `a0` as a negative `long`:
it returns `NULL` instead of `buf` and overwrites `errno` with `toInt32 (2^32 - buf)`. -/
theorem getcwd_ram_buffer_null (env : Env) (buf size : Nat) (s : State)
    (hlo : 0x80000000 ≤ buf) (hhi : buf < 4294967296)
    (hret : env.hostRet s.ecalls = (buf : Int)) :
    (getcwd env buf size s).1 = 0 ∧
    (getcwd env buf size s).2.errno = toInt32 (4294967296 - (buf : Int)) := by
  have hr : toInt32 (buf : Int) = (buf : Int) - 4294967296 := by unfold toInt32; omega
  have hneg : (buf : Int) - 4294967296 < 0 := by omega
  have hn : -((buf : Int) - 4294967296) = 4294967296 - (buf : Int) := by omega
  simp only [getcwd, syscall2, ecall, hret, hr, if_pos hneg, hn]
  exact ⟨trivial, trivial⟩

/-- C5 at the failing input: with `buf = 0x80001000` left in `a0` by a successful ecall and
`errno = 0` before the call, `getcwd` returns `NULL` and sets `errno` to `0x7FFFF000`. -/
theorem getcwd_ram_buffer_null_witness :
    (getcwd (envRet 0x80001000) 0x80001000 256 s0).1 = 0 ∧
    (getcwd (envRet 0x80001000) 0x80001000 256 s0).2.errno
      = toInt32 (4294967296 - ((0x80001000 : Nat) : Int)) :=
  getcwd_ram_buffer_null (envRet 0x80001000) 0x80001000 256 s0 (by decide) (by decide) rfl

/-- The error half of C5 holds: when the ecall leaves `-ERANGE` in `a0`, `getcwd` returns
`NULL` with `errno = ERANGE`. -/
theorem getcwd_erange (env : Env) (buf size : Nat) (s : State)
    (hret : env.hostRet s.ecalls = -ERANGE) :
    (getcwd env buf size s).1 = 0 ∧ (getcwd env buf size s).2.errno = ERANGE := by
  have hr : toInt32 (-ERANGE) = -34 := by decide
  have hneg : (-34 : Int) < 0 := by decide
  have he : toInt32 (- -34) = ERANGE := by decide
  simp only [getcwd, syscall2, ecall, hret, hr, if_pos hneg, he]
  exact ⟨trivial, trivial⟩

/-! ## C6: syscall numbers and arguments of the path-based wrappers -/

/-- C6: each path-based wrapper adds exactly one event to the trace, an `ecall` with the
Linux RV32 syscall number in `a7` and `AT_FDCWD` in every directory-fd argument:
`open` 56 `(AT_FDCWD, path, flags, 0644)`, `unlink` 35 `(AT_FDCWD, path, 0)`,
`stat` 79 `(AT_FDCWD, path, buf, 0)`, `rename` 38 `(AT_FDCWD, old, AT_FDCWD, new)`,
`link` 37 `(AT_FDCWD, old, AT_FDCWD, new, 0)`, `access` 48 `(AT_FDCWD, path, mode)`;
`chdir`, which has no directory fd, issues 49 `(path)`. -/
theorem path_wrappers_ecall (env : Env) (s : State) (path old new buf : Nat) (flags mode : Int) :
    (open_ env path flags s).2.trace
      = s.trace ++ [Event.ecall 56 [AT_FDCWD, toInt32 path, flags, 0o644]] ∧
    (unlink env path s).2.trace
      = s.trace ++ [Event.ecall 35 [AT_FDCWD, toInt32 path, 0]] ∧
    (stat env path buf s).2.trace
      = s.trace ++ [Event.ecall 79 [AT_FDCWD, toInt32 path, toInt32 buf, 0]] ∧
    (rename env old new s).2.trace
      = s.trace ++ [Event.ecall 38 [AT_FDCWD, toInt32 old, AT_FDCWD, toInt32 new]] ∧
    (link env old new s).2.trace
      = s.trace ++ [Event.ecall 37 [AT_FDCWD, toInt32 old, AT_FDCWD, toInt32 new, 0]] ∧
    (access env path mode s).2.trace
      = s.trace ++ [Event.ecall 48 [AT_FDCWD, toInt32 path, mode]] ∧
    (chdir env path s).2.trace
      = s.trace ++ [Event.ecall 49 [toInt32 path]] := by
  refine ⟨?_, ?_, ?_, ?_, ?_, ?_, ?_⟩
  · unfold open_ syscall4 ecall; simp only []; split <;> rfl
  · unfold unlink syscall3 ecall; simp only []; split <;> rfl
  · unfold stat syscall4 ecall; simp only []; split <;> rfl
  · unfold rename syscall4 ecall; simp only []; split <;> rfl
  · unfold link syscall5 ecall; simp only []; split <;> rfl
  · unfold access syscall3 ecall; simp only []; split <;> rfl
  · unfold chdir syscall1 ecall; simp only []; split <;> rfl

/-! ## C7: `stdin_read` -/

/-- The wait loop of `stdin_read` ends at the first status read with bit 0 set, provided
the fuel exceeds the number of status reads with bit 0 clear that come before it. -/
theorem stdin_wait_spec (env : Env) (k : Nat) :
    ∀ (fuel : Nat) (s : State), k < fuel →
      (∀ j, j < k → env.dev 0x10001008 (s.cnt 0x10001008 + j) % 256 &&& 1 = 0) →
      env.dev 0x10001008 (s.cnt 0x10001008 + k) % 256 &&& 1 ≠ 0 →
      ∃ s', stdin_wait env fuel s = some s' ∧ s'.mem = s.mem ∧
        s'.cnt 0x10001008 = s.cnt 0x10001008 + k + 1 ∧
        s'.cnt 0x10001004 = s.cnt 0x10001004 := by
  induction k with
  | zero =>
    intro fuel s hf _ hk
    obtain ⟨f, rfl⟩ : ∃ f, fuel = f + 1 := ⟨fuel - 1, by omega⟩
    refine ⟨(vload8 env CONSOLE_UART_RX_STATUS s).2, ?_, rfl, ?_, ?_⟩
    · have hk' : ¬ ((vload8 env CONSOLE_UART_RX_STATUS s).1 &&& 1 = 0) := by
        simpa [vload8, CONSOLE_UART_RX_STATUS] using hk
      simp only [stdin_wait, hk', if_false]
    · simp [vload8, CONSOLE_UART_RX_STATUS]
    · simp [vload8, CONSOLE_UART_RX_STATUS]
  | succ k ih =>
    intro fuel s hf hlt hk
    obtain ⟨f, rfl⟩ : ∃ f, fuel = f + 1 := ⟨fuel - 1, by omega⟩
    have h0 : (vload8 env CONSOLE_UART_RX_STATUS s).1 &&& 1 = 0 := by
      simpa [vload8, CONSOLE_UART_RX_STATUS] using hlt 0 (by omega)
    have hc : (vload8 env CONSOLE_UART_RX_STATUS s).2.cnt 0x10001008 = s.cnt 0x10001008 + 1 := by
      simp [vload8, CONSOLE_UART_RX_STATUS]
    have hd : (vload8 env CONSOLE_UART_RX_STATUS s).2.cnt 0x10001004 = s.cnt 0x10001004 := by
      simp [vload8, CONSOLE_UART_RX_STATUS]
    obtain ⟨s', h1, h2, h3, h4⟩ := ih f (vload8 env CONSOLE_UART_RX_STATUS s).2 (by omega)
      (by
        intro j hj
        rw [hc]
        have := hlt (j + 1) (by omega)
        rwa [show s.cnt 0x10001008 + 1 + j = s.cnt 0x10001008 + (j + 1) by omega])
      (by
        rw [hc]
        rwa [show s.cnt 0x10001008 + 1 + k = s.cnt 0x10001008 + (k + 1) by omega])
    refine ⟨s', ?_, h2, ?_, ?_⟩
    · simp only [stdin_wait, h0, if_true]
      exact h1
    · rw [h3, hc]; omega
    · rw [h4, hd]

/-- What the drain loop of `stdin_read` does from index `i` on: it returns `r` with
`i <= r <= count` after `r - i` reads of the data register, stored in order at
`ptr[i..r)`, and it stops short of `count` only on a status read with bit 0 clear. -/
theorem stdin_loop_spec (env : Env) (ptr count : Nat) (n : Nat) :
    ∀ (i : Nat) (s : State), i + n = count →
      i ≤ (stdin_loop env ptr count n i s).1 ∧
      (stdin_loop env ptr count n i s).1 ≤ count ∧
      (stdin_loop env ptr count n i s).2.cnt 0x10001004
        = s.cnt 0x10001004 + ((stdin_loop env ptr count n i s).1 - i) ∧
      (stdin_loop env ptr count n i s).2.cnt 0x10001008
        = s.cnt 0x10001008 + ((stdin_loop env ptr count n i s).1 - i)
          + (if (stdin_loop env ptr count n i s).1 < count then 1 else 0) ∧
      (∀ j, i ≤ j → j < (stdin_loop env ptr count n i s).1 →
        (stdin_loop env ptr count n i s).2.mem (ptr + j)
          = env.dev 0x10001004 (s.cnt 0x10001004 + (j - i)) % 256) ∧
      (∀ a, (a < ptr + i ∨ ptr + (stdin_loop env ptr count n i s).1 ≤ a) →
        (stdin_loop env ptr count n i s).2.mem a = s.mem a) ∧
      ((stdin_loop env ptr count n i s).1 < count →
        env.dev 0x10001008 (s.cnt 0x10001008 + ((stdin_loop env ptr count n i s).1 - i)) % 256
          &&& 1 = 0) := by
  induction n with
  | zero =>
    intro i s h
    simp only [stdin_loop]
    have hi : count - i = 0 := by omega
    refine ⟨by omega, le_rfl, by omega, by simp [hi], ?_, fun _ _ => trivial,
      fun hlt => absurd hlt (by omega)⟩
    intro j h1 h2
    omega
  | succ n ih =>
    intro i s h
    rw [stdin_loop]
    by_cases hst : (vload8 env CONSOLE_UART_RX_STATUS s).1 &&& 1 = 0
    · simp only [hst, if_true]
      have hlt : i < count := by omega
      refine ⟨le_rfl, by omega, ?_, ?_, ?_, fun _ _ => rfl, fun _ => ?_⟩
      · simp [vload8, CONSOLE_UART_RX_STATUS]
      · simp [vload8, CONSOLE_UART_RX_STATUS, hlt]
      · intro j h1 h2; omega
      · simpa [vload8, CONSOLE_UART_RX_STATUS] using hst
    · simp only [hst, if_false]
      generalize hs3 : ramStore (ptr + i)
        (vload8 env CONSOLE_UART_RX (vload8 env CONSOLE_UART_RX_STATUS s).2).1
        (vload8 env CONSOLE_UART_RX (vload8 env CONSOLE_UART_RX_STATUS s).2).2 = s3
      have hrx : s3.cnt 0x10001004 = s.cnt 0x10001004 + 1 := by
        subst hs3; simp [ramStore, vload8, CONSOLE_UART_RX, CONSOLE_UART_RX_STATUS]
      have hsc : s3.cnt 0x10001008 = s.cnt 0x10001008 + 1 := by
        subst hs3; simp [ramStore, vload8, CONSOLE_UART_RX, CONSOLE_UART_RX_STATUS]
      have hmem : ∀ a, s3.mem a
          = if a = ptr + i then env.dev 0x10001004 (s.cnt 0x10001004) % 256 else s.mem a := by
        intro a
        subst hs3
        simp [ramStore, vload8, CONSOLE_UART_RX, CONSOLE_UART_RX_STATUS]
      obtain ⟨g1, g2, g3, g4, g5, g6, g7⟩ := ih (i + 1) s3 (by omega)
      refine ⟨by omega, g2, by rw [g3, hrx]; omega, by rw [g4, hsc]; omega, ?_, ?_, ?_⟩
      · intro j h1 h2
        by_cases hj : j = i
        · subst hj
          rw [g6 (ptr + j) (Or.inl (by omega)), hmem, if_pos rfl, Nat.sub_self, Nat.add_zero]
        · rw [g5 j (by omega) h2, hrx]
          congr 2
          omega
      · intro a ha
        rw [g6 a (by omega), hmem, if_neg (by omega)]
      · intro hlt
        have := g7 hlt
        rw [hsc] at this
        rwa [show s.cnt 0x10001008 + ((stdin_loop env ptr count n (i + 1) s3).1 - i)
          = s.cnt 0x10001008 + 1 + ((stdin_loop env ptr count n (i + 1) s3).1 - (i + 1)) by omega]

/-- The function `stdin_read` for `count >= 1`, before the conversion of its result to
`ssize_t` is resolved: `k` is the number of status reads with bit 0 clear that precede the
first one with bit 0 set. -/
theorem stdin_read_core (env : Env) (fd : Int) (buf count : Nat) (s : State) (k fuel : Nat)
    (h1 : 1 ≤ count) (hf : k < fuel)
    (hclear : ∀ j, j < k → env.dev 0x10001008 (s.cnt 0x10001008 + j) % 256 &&& 1 = 0)
    (hset : env.dev 0x10001008 (s.cnt 0x10001008 + k) % 256 &&& 1 ≠ 0) :
    ∃ (r : Nat) (s' : State),
      stdin_read env fuel fd buf count s = some (toInt32 (r : Int), s') ∧
      1 ≤ r ∧ r ≤ count ∧
      s'.cnt 0x10001004 = s.cnt 0x10001004 + r ∧
      s'.cnt 0x10001008 = s.cnt 0x10001008 + k + r + (if r < count then 1 else 0) ∧
      (∀ i, i < r → s'.mem (buf + i) = env.dev 0x10001004 (s.cnt 0x10001004 + i) % 256) ∧
      (∀ a, (a < buf ∨ buf + r ≤ a) → s'.mem a = s.mem a) ∧
      (r < count → env.dev 0x10001008 (s.cnt 0x10001008 + k + r) % 256 &&& 1 = 0) := by
  obtain ⟨s1, w1, w2, w3, w4⟩ := stdin_wait_spec env k fuel s hf hclear hset
  generalize hs3 : ramStore (buf + 0) (vload8 env CONSOLE_UART_RX s1).1
    (vload8 env CONSOLE_UART_RX s1).2 = s3
  have hrx : s3.cnt 0x10001004 = s.cnt 0x10001004 + 1 := by
    subst hs3; simp [ramStore, vload8, CONSOLE_UART_RX, w4]
  have hsc : s3.cnt 0x10001008 = s.cnt 0x10001008 + k + 1 := by
    subst hs3; simp [ramStore, vload8, CONSOLE_UART_RX, w3]
  have hmem : ∀ a, s3.mem a
      = if a = buf then env.dev 0x10001004 (s.cnt 0x10001004) % 256 else s.mem a := by
    intro a
    subst hs3
    simp [ramStore, vload8, CONSOLE_UART_RX, w2, w4]
  obtain ⟨g1, g2, g3, g4, g5, g6, g7⟩ := stdin_loop_spec env buf count (count - 1) 1 s3 (by omega)
  refine ⟨(stdin_loop env buf count (count - 1) 1 s3).1,
    (stdin_loop env buf count (count - 1) 1 s3).2, ?_, g1, g2, ?_, ?_, ?_, ?_, ?_⟩
  · have hc : ¬ count = 0 := by omega
    simp only [stdin_read, hc, if_false, w1, hs3]
  · rw [g3, hrx]; omega
  · rw [g4, hsc]; omega
  · intro i hi
    by_cases h0 : i = 0
    · subst h0
      rw [g6 (buf + 0) (Or.inl (by omega)), hmem, if_pos (Nat.add_zero buf), Nat.add_zero]
    · rw [g5 i (by omega) hi, hrx]
      congr 2
      omega
  · intro a ha
    rw [g6 a (by omega), hmem, if_neg (by omega)]
  · intro hlt
    have := g7 hlt
    rw [hsc] at this
    rwa [show s.cnt 0x10001008 + k + (stdin_loop env buf count (count - 1) 1 s3).1
      = s.cnt 0x10001008 + k + 1 + ((stdin_loop env buf count (count - 1) 1 s3).1 - 1) by omega]

/-- C7: for `count = 0`, `stdin_read` returns `0` and leaves the state, trace included, as
it was.  For `count >= 1`, if the RX status register shows bit 0 clear `k` times and then
set, `stdin_read` returns (any fuel above `k` suffices) a value `r` with `1 <= r <= count`,
after exactly `r` reads of the RX data register whose bytes are stored in order in
`buf[0..r)` and nowhere else; and `r < count` only if the status read that precedes byte
`r` had bit 0 clear.  The bound `count <= 2^31 - 1` holds at every call: `stdin_read` is
`static`, it is only installed as the read function of the buffered `stdin`, whose buffer
is `stdin_buf[BUFSIZ]`, and a buffer of `count` bytes has to lie in RAM. -/
theorem stdin_read_spec (env : Env) (fd : Int) (buf : Nat) (s : State) :
    (∀ fuel, stdin_read env fuel fd buf 0 s = some (0, s)) ∧
    (∀ count k fuel, 1 ≤ count → count ≤ 2147483647 → k < fuel →
      (∀ j, j < k → env.dev 0x10001008 (s.cnt 0x10001008 + j) % 256 &&& 1 = 0) →
      env.dev 0x10001008 (s.cnt 0x10001008 + k) % 256 &&& 1 ≠ 0 →
      ∃ (r : Nat) (s' : State),
        stdin_read env fuel fd buf count s = some ((r : Int), s') ∧
        1 ≤ r ∧ r ≤ count ∧
        s'.cnt 0x10001004 = s.cnt 0x10001004 + r ∧
        s'.cnt 0x10001008 = s.cnt 0x10001008 + k + r + (if r < count then 1 else 0) ∧
        (∀ i, i < r → s'.mem (buf + i) = env.dev 0x10001004 (s.cnt 0x10001004 + i) % 256) ∧
        (∀ a, (a < buf ∨ buf + r ≤ a) → s'.mem a = s.mem a) ∧
        (r < count → env.dev 0x10001008 (s.cnt 0x10001008 + k + r) % 256 &&& 1 = 0)) := by
  constructor
  · intro fuel
    simp [stdin_read]
  · intro count k fuel h1 hmax hf hclear hset
    obtain ⟨r, s', e, p1, p2, p3⟩ := stdin_read_core env fd buf count s k fuel h1 hf hclear hset
    refine ⟨r, s', ?_, p1, p2, p3⟩
    rw [e, toInt32_of_lt r (by omega)]

theorem stdin_read_spec_witness :
    ∃ (r : Nat) (s' : State),
      stdin_read envReady 1 0 0x80000000 2 s0 = some ((r : Int), s') ∧
      1 ≤ r ∧ r ≤ 2 ∧
      s'.cnt 0x10001004 = s0.cnt 0x10001004 + r ∧
      s'.cnt 0x10001008 = s0.cnt 0x10001008 + 0 + r + (if r < 2 then 1 else 0) ∧
      (∀ i, i < r →
        s'.mem (0x80000000 + i) = envReady.dev 0x10001004 (s0.cnt 0x10001004 + i) % 256) ∧
      (∀ a, (a < 0x80000000 ∨ 0x80000000 + r ≤ a) → s'.mem a = s0.mem a) ∧
      (r < 2 → envReady.dev 0x10001008 (s0.cnt 0x10001008 + 0 + r) % 256 &&& 1 = 0) :=
  (stdin_read_spec envReady 0 0x80000000 s0).2 2 0 1 (by decide) (by decide) (by decide)
    (fun j hj => absurd hj (Nat.not_lt_zero j)) (by decide)

/-! ## C8: `gettimeofday` -/

/-- C8: for a non-NULL `tv`, `gettimeofday(tv, tz)` returns `0` after one 32-bit read of
`CLOCK_TIME` (`0x10000008`), whose value becomes `tv_sec`, and one of `CLOCK_NSEC`
(`0x1000000C`), whose value `n` gives `tv_usec = floor(n / 1000)`; hence `n <= 999999999`
gives `0 <= tv_usec <= 999999`.  For a NULL `tv` it returns `0` and leaves the state, trace
included, as it was: no register is read. -/
theorem gettimeofday_spec (env : Env) (t : Timeval) (tz : Nat) (s : State) :
    (gettimeofday env (some t) tz s).1 = 0 ∧
    (gettimeofday env (some t) tz s).2.1 = some
      { tv_sec := ((env.dev 0x10000008 (s.cnt 0x10000008) % 4294967296 : Nat) : Int),
        tv_usec := ((env.dev 0x1000000C (s.cnt 0x1000000C) % 4294967296 / 1000 : Nat) : Int) } ∧
    (gettimeofday env (some t) tz s).2.2.trace = s.trace ++
      [Event.load32 0x10000008 (env.dev 0x10000008 (s.cnt 0x10000008) % 4294967296),
       Event.load32 0x1000000C (env.dev 0x1000000C (s.cnt 0x1000000C) % 4294967296)] ∧
    (∀ n : Nat, n ≤ 999999999 → env.dev 0x1000000C (s.cnt 0x1000000C) % 4294967296 = n →
      ∀ t', (gettimeofday env (some t) tz s).2.1 = some t' →
        t'.tv_usec = ((n / 1000 : Nat) : Int) ∧ 0 ≤ t'.tv_usec ∧ t'.tv_usec ≤ 999999) ∧
    gettimeofday env none tz s = (0, none, s) := by
  have hv : (gettimeofday env (some t) tz s).2.1 = some
      { tv_sec := ((env.dev 0x10000008 (s.cnt 0x10000008) % 4294967296 : Nat) : Int),
        tv_usec := ((env.dev 0x1000000C (s.cnt 0x1000000C) % 4294967296 / 1000 : Nat) : Int) } := by
    simp [gettimeofday, _gettimeofday, vload32, CLOCK_TIME, CLOCK_NSEC]
  refine ⟨rfl, hv, ?_, ?_, rfl⟩
  · simp [gettimeofday, _gettimeofday, vload32, CLOCK_TIME, CLOCK_NSEC]
  · intro n hn hdev t' ht'
    rw [hv, hdev] at ht'
    cases ht'
    dsimp only
    omega

theorem gettimeofday_spec_witness :
    ∀ t', (gettimeofday envClock (some ⟨0, 0⟩) 0 s0).2.1 = some t' →
      t'.tv_usec = ((999999999 / 1000 : Nat) : Int) ∧ 0 ≤ t'.tv_usec ∧ t'.tv_usec ≤ 999999 :=
  (gettimeofday_spec envClock ⟨0, 0⟩ 0 s0).2.2.2.1 999999999 (by decide) (by decide)

/-! ## C9 and C10: the output of `hello.c` -/

theorem emits_id : Emits (fun s => s) := by
  intro s
  simp [s0]

theorem emits_comp {f g : State → State} (hf : Emits f) (hg : Emits g) :
    Emits (fun s => g (f s)) := by
  intro s
  have e1 : g (f s) = { f s with trace := (f s).trace ++ (g s0).trace } := hg (f s)
  have e2 : g (f s0) = { f s0 with trace := (f s0).trace ++ (g s0).trace } := hg (f s0)
  have e3 : f s = { s with trace := s.trace ++ (f s0).trace } := hf s
  simp only [e1, e2]
  rw [e3]
  simp [List.append_assoc]

theorem emits_putc (c : Nat) : Emits (uart_putc c) := by
  intro s
  simp [uart_putc, vstore8, s0]

theorem emits_puts (cs : List Nat) : Emits (uart_puts cs) := by
  induction cs with
  | nil => exact emits_id
  | cons c cs ih =>
    by_cases hc : c = 0
    · have : uart_puts (c :: cs) = fun s => s := by
        funext s; simp [uart_puts, hc]
      rw [this]; exact emits_id
    · have : uart_puts (c :: cs) = fun s => uart_puts cs (uart_putc c s) := by
        funext s; simp [uart_puts, hc]
      rw [this]
      have h := emits_comp (emits_putc c) ih
      exact h

theorem emits_putln (cs : List Nat) : Emits (uart_putln cs) := by
  have h := emits_comp (emits_puts cs) (emits_putc 10)
  exact h

theorem emits_puthex_loop (value n : Nat) : Emits (puthex_loop value n) := by
  induction n with
  | zero => exact emits_id
  | succ n ih =>
    have h := emits_comp
      (emits_putc ((cstr "0123456789ABCDEF").getD ((value >>> (4 * n)) &&& 0xF) 0)) ih
    exact h

theorem emits_puthex (value : Nat) : Emits (uart_puthex value) := by
  have h := emits_comp (emits_puts (cstr "0x")) (emits_puthex_loop value 8)
  exact h

theorem emits_putdec_print (ds : List Nat) : Emits (putdec_print ds) := by
  induction ds with
  | nil => exact emits_id
  | cons d ds ih =>
    have h := emits_comp (emits_putc d) ih
    exact h

theorem emits_putdec (value : Int) : Emits (uart_putdec value) := by
  by_cases h1 : value < 0
  · by_cases h2 : toInt32 (-value) = 0
    · have : uart_putdec value = fun s => uart_putc 48 (uart_putc 45 s) := by
        funext s; simp [uart_putdec, h1, h2]
      rw [this]
      have h := emits_comp (emits_putc 45) (emits_putc 48)
      exact h
    · have : uart_putdec value = fun s =>
          putdec_print (putdec_digits (toInt32 (-value)).toNat (toInt32 (-value)) []).reverse
            (uart_putc 45 s) := by
        funext s; simp [uart_putdec, h1, h2]
      rw [this]
      have h := emits_comp (emits_putc 45)
        (emits_putdec_print (putdec_digits (toInt32 (-value)).toNat (toInt32 (-value)) []).reverse)
      exact h
  · by_cases h2 : value = 0
    · have : uart_putdec value = fun s => uart_putc 48 s := by
        funext s; simp [uart_putdec, h2]
      rw [this]; exact emits_putc 48
    · have : uart_putdec value = fun s =>
          putdec_print (putdec_digits value.toNat value []).reverse s := by
        funext s; simp [uart_putdec, h1, h2]
      rw [this]; exact emits_putdec_print _

theorem emits_hello_main : Emits (fun s => (Hello.main s).2) := by
  have h := emits_comp (emits_comp (emits_comp (emits_comp (emits_comp (emits_comp (emits_comp
    (emits_comp (emits_comp (emits_comp (emits_comp (emits_comp (emits_comp
      (emits_putln (cstr "Hello, World from RV32IM!"))
      (emits_puts (cstr "This is a C program running on PyRV32.")))
      (emits_putc 10))
      (emits_puts (cstr "Testing arithmetic: ")))
      (emits_putdec 42))
      (emits_puts (cstr " + ")))
      (emits_putdec 13))
      (emits_puts (cstr " = ")))
      (emits_putdec (toInt32 (42 + 13))))
      (emits_putc 10))
      (emits_puts (cstr "Hex value: ")))
      (emits_puthex 0xDEADBEEF))
      (emits_putc 10))
      (emits_putln (cstr "Program complete!"))
  exact h

set_option maxRecDepth 100000 in
theorem hello_main_trace_s0 :
    (Hello.main s0).2.trace = helloText.map (fun c => Event.store8 UART_TX_ADDR c) := by
  decide

/-- C9: from every state, `main` of `hello.c` returns `0`, and all it does is to pass to
`uart_putc`, in order, the bytes of "Hello, World from RV32IM!\nThis is a C program running
on PyRV32.\nTesting arithmetic: 42 + 13 = 55\nHex value: 0xDEADBEEF\nProgram complete!\n",
each of which `uart_putc` stores to `UART_TX_ADDR`. -/
theorem hello_main_output (s : State) :
    Hello.main s =
      (0, { s with trace := s.trace ++ helloText.map (fun c => Event.store8 UART_TX_ADDR c) }) := by
  have h := emits_hello_main s
  rw [hello_main_trace_s0] at h
  exact Prod.ext rfl h

set_option maxRecDepth 100000 in
/-- C10 (amended): every byte `hello.c` prints is stored to the Debug UART TX register
`0x10000000`: the events that `main` adds to the trace are as many as the bytes of the
text, the bytes stored to `0x10000000` are the text, and nothing is stored to the Console
UART TX register `0x10001000`. -/
theorem hello_main_debug_uart (s : State) :
    ((Hello.main s).2.trace.drop s.trace.length).length = helloText.length ∧
    storesTo 0x10000000 ((Hello.main s).2.trace.drop s.trace.length) = helloText ∧
    storesTo 0x10001000 ((Hello.main s).2.trace.drop s.trace.length) = [] := by
  have h := emits_hello_main s
  rw [hello_main_trace_s0] at h
  simp only [h, List.drop_left]
  refine ⟨by simp, ?_, ?_⟩ <;> decide

set_option maxRecDepth 100000 in
/-- C10 as stated fails: run from the empty trace, `main` of `hello.c` stores nothing to
the Console UART TX register `0x10001000`; its first byte, `H`, goes to `0x10000000`. -/
theorem hello_main_console_counterexample :
    storesTo 0x10001000 (Hello.main s0).2.trace = [] ∧
    (Hello.main s0).2.trace.head? = some (Event.store8 0x10000000 72) := by
  decide

/-! ## C11: the output of `fibonacci.c` -/

theorem emits_ite (c : Prop) [Decidable c] {f g : State → State} (hf : Emits f) (hg : Emits g) :
    Emits (fun s => if c then f s else g s) := by
  by_cases h : c
  · simpa [h] using hf
  · simpa [h] using hg

theorem emits_fibonacci_main_loop (k : Nat) : ∀ i : Int, Emits (Fibonacci.main_loop k i) := by
  induction k with
  | zero => intro i; exact emits_id
  | succ k ih =>
    intro i
    have h := emits_comp (emits_comp (emits_comp (emits_comp (emits_comp
      (emits_puts (cstr "fib("))
      (emits_putdec i))
      (emits_puts (cstr ") = ")))
      (emits_putdec (fib_iter i)))
      (emits_putc 10))
      (ih (i + 1))
    exact h

theorem emits_fibonacci_main : Emits (fun s => (Fibonacci.main s).2) := by
  have h := emits_comp (emits_comp (emits_comp (emits_comp (emits_comp (emits_comp (emits_comp
    (emits_comp (emits_comp (emits_comp (emits_comp (emits_comp (emits_comp (emits_comp
    (emits_comp (emits_comp (emits_comp (emits_comp
      (emits_putln (cstr "Fibonacci Calculator"))
      (emits_putln (cstr "====================")))
      (emits_putc 10))
      (emits_putln (cstr "First 15 Fibonacci numbers:")))
      (emits_fibonacci_main_loop 15 0))
      (emits_putc 10))
      (emits_putln (cstr "Testing recursive vs iterative:")))
      (emits_puts (cstr "Recursive fib(")))
      (emits_putdec 10))
      (emits_puts (cstr ") = ")))
      (emits_putdec (fib 10)))
      (emits_putc 10))
      (emits_puts (cstr "Iterative fib(")))
      (emits_putdec 10))
      (emits_puts (cstr ") = ")))
      (emits_putdec (fib_iter 10)))
      (emits_putc 10))
      (emits_ite (fib 10 = fib_iter 10) (emits_putln Fibonacci.matchText)
        (emits_putln Fibonacci.mismatchText)))
      (emits_putln (cstr "\nDone!"))
  exact h

set_option maxRecDepth 1000000 in
theorem fibonacci_main_trace_s0 :
    (Fibonacci.main s0).2.trace = Fibonacci.text.map (fun c => Event.store8 UART_TX_ADDR c) := by
  decide

/-- C11: from every state, `main` of `fibonacci.c` returns `0`, and all it does is to pass
to `uart_putc`, in order, the bytes of its banner, of one line `fib(i) = F(i)` for
`i = 0, 1, ..., 14` with `F(i)` = 0, 1, 1, 2, 3, 5, 8, 13, 21, 34, 55, 89, 144, 233, 377, of
the two results at 10, of the "Results match!" line (not the mismatch line) and of "Done!";
the comparison that selects the branch is `fib(10) = fib_iter(10) = 55`. -/
theorem fibonacci_main_output (s : State) :
    Fibonacci.main s =
      (0, { s with trace := s.trace ++ Fibonacci.text.map (fun c => Event.store8 UART_TX_ADDR c) }) ∧
    (List.range 15).map (fun i => fib_iter (i : Int))
      = [0, 1, 1, 2, 3, 5, 8, 13, 21, 34, 55, 89, 144, 233, 377] ∧
    fib 10 = 55 ∧ fib_iter 10 = 55 := by
  have h := emits_fibonacci_main s
  rw [fibonacci_main_trace_s0] at h
  exact ⟨Prod.ext rfl h, by decide, by decide, by decide⟩

/-! ## C16: `fib` and `fib_iter` -/

theorem fibNumber_le_succ (k : Nat) : fibNumber k ≤ fibNumber (k + 1) := by
  cases k with
  | zero => decide
  | succ k => simp [fibNumber]

theorem fibNumber_mono {j k : Nat} (h : j ≤ k) : fibNumber j ≤ fibNumber k := by
  induction h with
  | refl => exact le_rfl
  | step _ ih => exact le_trans ih (fibNumber_le_succ _)

theorem fibNumber_lt (k : Nat) (h : k ≤ 46) : fibNumber k < 2147483648 := by
  have h46 : fibNumber 46 = 1836311903 := by decide
  have := fibNumber_mono h
  omega

theorem toInt32_of_nat_lt (n : Nat) (h : n < 2147483648) : toInt32 (n : Int) = (n : Int) := by
  unfold toInt32
  omega

theorem fib_rec_eq (fuel : Nat) :
    ∀ n : Nat, n ≤ fuel → n ≤ 46 → fib_rec fuel (n : Int) = (fibNumber n : Int) := by
  induction fuel with
  | zero =>
    intro n h _
    have : n = 0 := by omega
    subst this
    rfl
  | succ fuel ih =>
    intro n h h46
    match n, h, h46 with
    | 0, _, _ => simp [fib_rec, fibNumber]
    | 1, _, _ => simp [fib_rec, fibNumber]
    | m + 2, h, h46 =>
      have e1 : ((m + 2 : Nat) : Int) - 1 = ((m + 1 : Nat) : Int) := by omega
      have e2 : ((m + 2 : Nat) : Int) - 2 = ((m : Nat) : Int) := by omega
      have hn : ¬ ((m + 2 : Nat) : Int) ≤ 1 := by omega
      have hlt := fibNumber_lt (m + 2) h46
      rw [fib_rec, if_neg hn, e1, e2, ih (m + 1) (by omega) (by omega),
        ih m (by omega) (by omega)]
      have : ((fibNumber (m + 1) : Int) + (fibNumber m : Int)) = ((fibNumber (m + 2) : Nat) : Int) := by
        simp [fibNumber]
      rw [this, toInt32_of_nat_lt _ hlt]

theorem fib_iter_loop_eq (k : Nat) :
    ∀ j : Nat, j + 1 + k ≤ 46 →
      fib_iter_loop k (fibNumber j : Int) (fibNumber (j + 1) : Int) = (fibNumber (j + 1 + k) : Int) := by
  induction k with
  | zero => intro j _; rfl
  | succ k ih =>
    intro j h
    have hlt := fibNumber_lt (j + 2) (by omega)
    have : ((fibNumber j : Int) + (fibNumber (j + 1) : Int)) = ((fibNumber (j + 2) : Nat) : Int) := by
      simp [fibNumber]; omega
    rw [fib_iter_loop, this, toInt32_of_nat_lt _ hlt, ih (j + 1) (by omega)]
    congr 2
    omega

/-- C16: for every `int n <= 46`, the recursive `fib(n)` and the iterative `fib_iter(n)`
return the same value: `n` itself when `n <= 1` (negative `n` included), and the `n`-th
Fibonacci number `F(n)` otherwise. -/
theorem fib_eq_fib_iter (n : Int) (h : n ≤ 46) :
    fib n = fib_iter n ∧ (n ≤ 1 → fib n = n) ∧ (2 ≤ n → fib n = (fibNumber n.toNat : Int)) := by
  by_cases h1 : n ≤ 1
  · have hf : fib n = n := by
      by_cases h0 : n ≤ 0
      · have : n.toNat = 0 := by omega
        simp [fib, this, fib_rec]
      · have : n = 1 := by omega
        subst this
        rfl
    refine ⟨?_, fun _ => hf, fun h2 => absurd h2 (by omega)⟩
    rw [hf, fib_iter, if_pos h1]
  · obtain ⟨m, rfl⟩ : ∃ m : Nat, n = ((m + 2 : Nat) : Int) := ⟨(n - 2).toNat, by omega⟩
    have hm : m + 2 ≤ 46 := by omega
    have hf : fib ((m + 2 : Nat) : Int) = (fibNumber (m + 2) : Int) := by
      rw [fib, Int.toNat_ofNat]
      exact fib_rec_eq (m + 2) (m + 2) le_rfl hm
    have hi : fib_iter ((m + 2 : Nat) : Int) = (fibNumber (m + 2) : Int) := by
      have e : (((m + 2 : Nat) : Int) - 1).toNat = m + 1 := by omega
      rw [fib_iter, if_neg h1, e]
      have h0 := fib_iter_loop_eq (m + 1) 0 (by omega)
      have e2 : 0 + 1 + (m + 1) = m + 2 := by omega
      rw [e2] at h0
      exact h0
    refine ⟨by rw [hf, hi], fun h2 => absurd h2 h1, fun _ => ?_⟩
    rw [hf, Int.toNat_ofNat]

theorem fib_eq_fib_iter_witness :
    fib 10 = fib_iter 10 ∧ ((10 : Int) ≤ 1 → fib 10 = 10) ∧
      ((2 : Int) ≤ 10 → fib 10 = (fibNumber (10 : Int).toNat : Int)) :=
  fib_eq_fib_iter 10 (by decide)

/-! ## C12: `bad_uart_offset.c` on a bus that checks the register map -/

theorem emits_vstore8 (addr val : Nat) : Emits (vstore8 addr val) := by
  intro s
  simp [vstore8, s0]

theorem emits_bad_uart_offset_main : Emits (fun s => (BadUartOffset.main s).2) := by
  have h := emits_comp (emits_comp (emits_comp (emits_comp (emits_comp
      (emits_putln (cstr "Testing UART boundary..."))
      (emits_vstore8 0x10000000 79))
      (emits_vstore8 0x10000000 75))
      (emits_vstore8 0x10000000 10))
      (emits_vstore8 0x10000001 88))
      (emits_putln (cstr "ERROR: Should not reach here!"))
  exact h

set_option maxRecDepth 100000 in
/-- C12: from every state, on a bus that accepts 8-bit stores only at the registers of the
MMIO map, the accesses of `main` of `bad_uart_offset.c` that go through are the stores of
the bytes of "Testing UART boundary...\n" and then of `'O'`, `'K'`, LF, all to
`0x10000000`; the next access is the 8-bit store of `'X'` to `0x10000001`, which faults, so
no byte of "ERROR: Should not reach here!" is stored before it. -/
theorem bad_uart_offset_fault (s : State) :
    untilFault ((BadUartOffset.main s).2.trace.drop s.trace.length) =
      ((cstr "Testing UART boundary...\n" ++ [79, 75, 10]).map (fun c => Event.store8 0x10000000 c),
       some (Event.store8 0x10000001 88)) := by
  have h := emits_bad_uart_offset_main s
  simp only [h, List.drop_left]
  decide

/-! ## Decimal printing: lemmas shared by `_exit` and `uart_putdec` -/

theorem emit_emit (a b : List Event) (s : State) : emit b (emit a s) = emit (a ++ b) s := by
  simp [emit, List.append_assoc]

theorem emit_nil (s : State) : emit [] s = s := by
  simp [emit]

theorem vstore8_eq_emit (addr val : Nat) (s : State) :
    vstore8 addr val s = emit [Event.store8 addr (val % 256)] s := rfl

/-- The digit loops compute the base-10 digits of a non-negative value, least significant
first, as ASCII. -/
theorem putdec_digits_eq (fuel : Nat) :
    ∀ (n : Nat) (buf : List Nat), n ≤ fuel →
      putdec_digits fuel (n : Int) buf = buf ++ (Nat.digits 10 n).map (fun d => 48 + d) := by
  induction fuel with
  | zero =>
    intro n buf h
    have : n = 0 := by omega
    subst this
    simp [putdec_digits]
  | succ fuel ih =>
    intro n buf h
    by_cases hn : n = 0
    · subst hn
      simp [putdec_digits]
    · have hpos : (n : Int) > 0 := by omega
      have hd : (n : Int).tdiv 10 = ((n / 10 : Nat) : Int) := by
        rw [Int.tdiv_eq_ediv (by omega) (by norm_num)]; omega
      have hm : ((48 + (n : Int).tmod 10) % 256).toNat = 48 + n % 10 := by
        rw [Int.tmod_eq_emod (by omega) (by norm_num)]; omega
      rw [putdec_digits, if_pos hpos, hd, hm, ih (n / 10) _ (by omega),
        Nat.digits_def' (by norm_num) (Nat.pos_of_ne_zero hn)]
      simp

theorem exit_digits_snd (fuel : Nat) :
    ∀ (v : Int) (buf : List Nat), (exit_digits fuel v buf).2 = putdec_digits fuel v buf := by
  induction fuel with
  | zero => intro v buf; rfl
  | succ fuel ih =>
    intro v buf
    rw [exit_digits, putdec_digits]
    split
    · exact ih _ _
    · rfl

theorem decValue_reverse (l : List Nat) : decValue l.reverse = Nat.ofDigits 10 l := by
  induction l with
  | nil => rfl
  | cons d t ih =>
    have : decValue (t.reverse ++ [d]) = 10 * decValue t.reverse + d := by
      simp [decValue, List.foldl_append]
    rw [List.reverse_cons, this, ih, Nat.ofDigits_cons]
    simp [Nat.add_comm]

/-- The reversed base-10 digits of a positive number are its canonical decimal
representation. -/
theorem isDecimalOf_digits (n : Nat) (hn : n ≠ 0) : IsDecimalOf (Nat.digits 10 n).reverse n := by
  have hne : Nat.digits 10 n ≠ [] := Nat.digits_ne_nil_iff_ne_zero.mpr hn
  refine ⟨by simpa using hne, ?_, ?_, ?_⟩
  · intro d hd
    exact Nat.digits_lt_base (by norm_num) (List.mem_reverse.mp hd)
  · intro h
    rw [List.head?_reverse, List.getLast?_eq_getLast _ hne] at h
    exact absurd (Option.some.inj h) (Nat.getLast_digit_ne_zero 10 hn)
  · rw [decValue_reverse, Nat.ofDigits_digits]

theorem digits_length_le_ten (n : Nat) (h : n < 2147483648) : (Nat.digits 10 n).length ≤ 10 := by
  by_cases hn : n = 0
  · subst hn; simp
  · by_contra hlen
    have h1 := Nat.base_pow_length_digits_le 10 n (by norm_num) hn
    have h2 : 10 ^ 11 ≤ 10 ^ (Nat.digits 10 n).length :=
      Nat.pow_le_pow_right (by norm_num) (by omega)
    have h3 : (10 : Nat) ^ 11 = 100000000000 := by norm_num
    omega

/-! ## C14: `uart_putdec` -/

theorem putdec_print_eq (ds : List Nat) :
    ∀ s : State, putdec_print ds s
      = emit (ds.map (fun d => Event.store8 UART_TX_ADDR (d % 256))) s := by
  induction ds with
  | nil => intro s; simp [putdec_print, emit]
  | cons d ds ih =>
    intro s
    rw [putdec_print, ih, uart_putc, vstore8_eq_emit, emit_emit]
    rfl

theorem ascii_digits_map (n : Nat) (addr : Nat) :
    ((Nat.digits 10 n).map (fun d => 48 + d)).reverse.map (fun d => Event.store8 addr (d % 256))
      = ((Nat.digits 10 n).reverse.map (fun d => 48 + d)).map (fun c => Event.store8 addr c) := by
  rw [← List.map_reverse, List.map_map, List.map_map]
  apply List.map_congr_left
  intro d hd
  have : d < 10 := Nat.digits_lt_base (by norm_num) (List.mem_reverse.mp hd)
  simp only [Function.comp]
  congr 1
  omega

/-- What `uart_putdec` does after the sign, for a positive value. -/
theorem putdec_positive (n : Nat) (s : State) :
    putdec_print (putdec_digits n (n : Int) []).reverse s
      = emit (((Nat.digits 10 n).reverse.map (fun d => 48 + d)).map
          (fun c => Event.store8 UART_TX_ADDR c)) s := by
  rw [putdec_digits_eq n n [] le_rfl, List.nil_append, putdec_print_eq, ascii_digits_map]

/-- The digit buffer of the decimal printers receives at most 10 bytes, whatever 32-bit
value is printed. -/
theorem putdec_buffer_le_ten (value : Int)
    (hlo : -2147483648 ≤ value) (hhi : value ≤ 2147483647) :
    (putdec_digits (if value < 0 then toInt32 (-value) else value).toNat
      (if value < 0 then toInt32 (-value) else value) []).length ≤ 10 := by
  by_cases hmin : value = -2147483648
  · subst hmin
    decide
  · obtain ⟨n, hn, hnlt⟩ : ∃ n : Nat,
        (n : Int) = (if value < 0 then toInt32 (-value) else value) ∧ n < 2147483648 := by
      by_cases hneg : value < 0
      · refine ⟨value.natAbs, ?_, by omega⟩
        rw [if_pos hneg]; unfold toInt32; omega
      · exact ⟨value.natAbs, by rw [if_neg hneg]; omega, by omega⟩
    rw [← hn, Int.toNat_ofNat, putdec_digits_eq n n [] le_rfl]
    simpa using digits_length_le_ten n hnlt

/-- C14 (what the code does): for every 32-bit `int value` other than `INT_MIN`,
`uart_putdec(value)` emits the canonical decimal representation of `value`: a leading `'-'`
exactly when `value < 0`, then the digits of `|value|`, most significant first, without
leading zeros (the single byte `'0'` for zero); the digit buffer receives at most 10 bytes,
at the indices `0..9`.  For `value = INT_MIN` the negation overflows, the digit loop is not
entered and the only byte emitted is `'-'`. -/
theorem uart_putdec_output (value : Int) (s : State)
    (hlo : -2147483648 ≤ value) (hhi : value ≤ 2147483647) :
    (value ≠ -2147483648 →
      ∃ ds, IsDecimalOf ds value.natAbs ∧ ds.length ≤ 10 ∧
        uart_putdec value s
          = emit ((signedText value ds).map (fun c => Event.store8 UART_TX_ADDR c)) s) ∧
    (value = -2147483648 → uart_putdec value s = emit [Event.store8 UART_TX_ADDR 45] s) ∧
    (putdec_digits (if value < 0 then toInt32 (-value) else value).toNat
      (if value < 0 then toInt32 (-value) else value) []).length ≤ 10 := by
  refine ⟨?_, ?_, ?_⟩
  · intro hmin
    by_cases h0 : value = 0
    · subst h0
      exact ⟨[0], by decide, by decide, rfl⟩
    · obtain ⟨n, hn⟩ : ∃ n : Nat, (n : Int) = (if value < 0 then -value else value) :=
        ⟨value.natAbs, by split <;> omega⟩
      have hnat : value.natAbs = n := by split at hn <;> omega
      have hn0 : n ≠ 0 := by split at hn <;> omega
      have hnlt : n < 2147483648 := by split at hn <;> omega
      refine ⟨(Nat.digits 10 n).reverse, hnat ▸ isDecimalOf_digits n hn0, ?_, ?_⟩
      · rw [List.length_reverse]; exact digits_length_le_ten n hnlt
      · by_cases hneg : value < 0
        · have hv : toInt32 (-value) = (n : Int) := by
            rw [if_pos hneg] at hn
            unfold toInt32; omega
          have hnz : ¬ (n : Int) = 0 := by omega
          simp only [uart_putdec, hneg, if_true, hv, hnz, if_false, Int.toNat_ofNat,
            putdec_positive, uart_putc, vstore8_eq_emit, emit_emit, signedText]
          rfl
        · have hv : value = (n : Int) := by
            rw [if_neg hneg] at hn; omega
          subst hv
          simp only [uart_putdec, hneg, if_false, h0, Int.toNat_ofNat,
            putdec_positive, signedText, List.nil_append]
  · intro hmin
    subst hmin
    rfl
  · exact putdec_buffer_le_ten value hlo hhi

/-- C14 at the failing input: `uart_putdec(INT_MIN)` emits the single byte `'-'`. -/
theorem uart_putdec_output_witness :
    uart_putdec (-2147483648) s0 = emit [Event.store8 UART_TX_ADDR 45] s0 :=
  (uart_putdec_output (-2147483648) s0 (by decide) (by decide)).2.1 rfl

/-! ## C13: the message of `_exit` -/

theorem emits_exit_msg (cs : List Nat) : Emits (exit_msg cs) := by
  induction cs with
  | nil => exact emits_id
  | cons c cs ih =>
    by_cases hc : c = 0
    · have : exit_msg (c :: cs) = fun s => s := by
        funext s; simp [exit_msg, hc]
      rw [this]; exact emits_id
    · have : exit_msg (c :: cs) = fun s => exit_msg cs (vstore8 DEBUG_UART_TX c s) := by
        funext s; simp [exit_msg, hc]
      rw [this]
      have h := emits_comp (emits_vstore8 DEBUG_UART_TX c) ih
      exact h

set_option maxRecDepth 100000 in
theorem exit_msg_eq (s : State) :
    exit_msg (cstr "\n[Program exited with status ") s
      = emit ((cstr "\n[Program exited with status ").map
          (fun c => Event.store8 DEBUG_UART_TX c)) s := by
  have h := emits_exit_msg (cstr "\n[Program exited with status ") s
  have e : (exit_msg (cstr "\n[Program exited with status ") s0).trace
      = (cstr "\n[Program exited with status ").map (fun c => Event.store8 DEBUG_UART_TX c) := by
    decide
  rw [e] at h
  exact h

theorem exit_print_eq (ds : List Nat) :
    ∀ s : State, exit_print ds s
      = emit (ds.map (fun d => Event.store8 DEBUG_UART_TX (d % 256))) s := by
  induction ds with
  | nil => intro s; simp [exit_print, emit]
  | cons d ds ih =>
    intro s
    rw [exit_print, ih, vstore8_eq_emit, emit_emit]
    rfl

/-- The function `_exit` with its tuple patterns resolved. -/
theorem exit_unfold (status : Int) (s : State) :
    _exit status s =
      emit [Event.ebreak (exit_final_status status)]
        (vstore8 DEBUG_UART_TX 10 (vstore8 DEBUG_UART_TX 93
          (if (if status < 0 then toInt32 (-status) else status) = 0 then
            vstore8 DEBUG_UART_TX 48
              (if status < 0 then
                vstore8 DEBUG_UART_TX 45 (exit_msg (cstr "\n[Program exited with status ") s)
              else exit_msg (cstr "\n[Program exited with status ") s)
          else
            exit_print
              (exit_digits (if status < 0 then toInt32 (-status) else status).toNat
                (if status < 0 then toInt32 (-status) else status) []).2.reverse
              (if status < 0 then
                vstore8 DEBUG_UART_TX 45 (exit_msg (cstr "\n[Program exited with status ") s)
              else exit_msg (cstr "\n[Program exited with status ") s)))) := by
  unfold _exit exit_final_status
  by_cases h1 : status < 0
  · by_cases h2 : toInt32 (-status) = 0 <;> simp [h1, h2, emit]
  · by_cases h2 : status = 0 <;> simp [h1, h2, emit]

/-- What `_exit` prints after the sign, for a positive value. -/
theorem exit_positive (n : Nat) (s : State) :
    exit_print (exit_digits n (n : Int) []).2.reverse s
      = emit (((Nat.digits 10 n).reverse.map (fun d => 48 + d)).map
          (fun c => Event.store8 DEBUG_UART_TX c)) s := by
  rw [exit_digits_snd, putdec_digits_eq n n [] le_rfl, List.nil_append, exit_print_eq,
    ascii_digits_map]

set_option maxRecDepth 100000 in
/-- C13 (what the code does): for every `int status` other than `INT_MIN`, all that
`_exit(status)` does before its `ebreak` is to store to the Debug UART (`0x10000000`) the
bytes of "\n[Program exited with status ", then the signed decimal representation of
`status` (a `'-'` for negative values, then the digits of `|status|` without leading
zeros), then "]\n"; the digit buffer receives at most 10 bytes, so it is never indexed
out of bounds.  For `status = INT_MIN` the negation overflows, no digit is produced and the
text is "\n[Program exited with status -]\n". -/
theorem exit_message (status : Int) (s : State)
    (hlo : -2147483648 ≤ status) (hhi : status ≤ 2147483647) :
    (status ≠ -2147483648 →
      ∃ ds, IsDecimalOf ds status.natAbs ∧ ds.length ≤ 10 ∧
        _exit status s = emit
          ((cstr "\n[Program exited with status " ++ signedText status ds ++ cstr "]\n").map
              (fun c => Event.store8 DEBUG_UART_TX c)
            ++ [Event.ebreak (exit_final_status status)]) s) ∧
    (status = -2147483648 →
      _exit status s = emit
        ((cstr "\n[Program exited with status -]\n").map (fun c => Event.store8 DEBUG_UART_TX c)
          ++ [Event.ebreak (-2147483648)]) s) ∧
    (exit_digits (if status < 0 then toInt32 (-status) else status).toNat
      (if status < 0 then toInt32 (-status) else status) []).2.length ≤ 10 := by
  have htail : (cstr "]\n").map (fun c => Event.store8 DEBUG_UART_TX c)
      = [Event.store8 DEBUG_UART_TX 93, Event.store8 DEBUG_UART_TX 10] := by decide
  refine ⟨?_, ?_, ?_⟩
  · intro hmin
    by_cases h0 : status = 0
    · subst h0
      refine ⟨[0], by decide, by decide, ?_⟩
      rw [exit_unfold, exit_msg_eq]
      simp [vstore8_eq_emit, emit_emit, signedText, htail, List.append_assoc]
    · obtain ⟨n, hn⟩ : ∃ n : Nat, (n : Int) = (if status < 0 then -status else status) :=
        ⟨status.natAbs, by split <;> omega⟩
      have hnat : status.natAbs = n := by split at hn <;> omega
      have hn0 : n ≠ 0 := by split at hn <;> omega
      have hnlt : n < 2147483648 := by split at hn <;> omega
      refine ⟨(Nat.digits 10 n).reverse, hnat ▸ isDecimalOf_digits n hn0, ?_, ?_⟩
      · rw [List.length_reverse]; exact digits_length_le_ten n hnlt
      · rw [exit_unfold, exit_msg_eq]
        by_cases hneg : status < 0
        · have hv : toInt32 (-status) = (n : Int) := by
            rw [if_pos hneg] at hn
            unfold toInt32; omega
          have hnz : ¬ (n : Int) = 0 := by omega
          simp only [hneg, if_true, hv, hnz, if_false, Int.toNat_ofNat, exit_positive,
            vstore8_eq_emit, emit_emit, signedText, List.map_append, htail]
          simp [List.append_assoc]
        · have hv : status = (n : Int) := by
            rw [if_neg hneg] at hn; omega
          subst hv
          simp only [hneg, if_false, h0, Int.toNat_ofNat, exit_positive,
            vstore8_eq_emit, emit_emit, signedText, List.map_append, htail]
          simp [List.append_assoc]
  · intro hmin
    subst hmin
    rw [exit_unfold, exit_msg_eq]
    have e1 : ((-2147483648 : Int) < 0) = True := by decide
    have e2 : toInt32 (- -2147483648) = -2147483648 := by decide
    have e3 : ((-2147483648 : Int) = 0) = False := by decide
    have e4 : exit_final_status (-2147483648) = -2147483648 := by decide
    have e5 : (exit_digits (-2147483648 : Int).toNat (-2147483648) []).2.reverse = [] := by
      decide
    have e6 : (cstr "\n[Program exited with status -]\n").map
          (fun c => Event.store8 DEBUG_UART_TX c)
        = (cstr "\n[Program exited with status ").map (fun c => Event.store8 DEBUG_UART_TX c)
          ++ [Event.store8 DEBUG_UART_TX 45, Event.store8 DEBUG_UART_TX 93,
              Event.store8 DEBUG_UART_TX 10] := by decide
    simp only [e1, e2, e3, e4, e5, e6, if_true, if_false, exit_print, vstore8_eq_emit, emit_emit]
    simp [List.append_assoc]
  · rw [exit_digits_snd]
    exact putdec_buffer_le_ten status hlo hhi

/-- C13 at the failing input: `_exit(INT_MIN)` prints "\n[Program exited with status -]\n". -/
theorem exit_message_witness :
    _exit (-2147483648) s0 = emit
      ((cstr "\n[Program exited with status -]\n").map (fun c => Event.store8 DEBUG_UART_TX c)
        ++ [Event.ebreak (-2147483648)]) s0 :=
  (exit_message (-2147483648) s0 (by decide) (by decide)).2.1 rfl

/-! ## C15: `uart_puthex` -/

theorem hex_table_lookup : ∀ d, d < 16 →
    (cstr "0123456789ABCDEF").getD d 0 = hexChar d ∧ hexChar d % 256 = hexChar d := by
  decide

theorem hex_index_eq (value n : Nat) :
    (value >>> (4 * n)) &&& 0xF = value / 16 ^ n % 16 := by
  have h := Nat.and_pow_two_sub_one_eq_mod (value >>> (4 * n)) 4
  have e : (2 : Nat) ^ (4 * n) = 16 ^ n := by rw [pow_mul]; norm_num
  rw [Nat.shiftRight_eq_div_pow, e] at h ⊢
  simpa using h

theorem puthex_loop_eq (value : Nat) (n : Nat) :
    ∀ s : State, puthex_loop value n s
      = emit (((List.range n).reverse.map (fun j => hexChar (value / 16 ^ j % 16))).map
          (fun c => Event.store8 UART_TX_ADDR c)) s := by
  induction n with
  | zero => intro s; simp [puthex_loop, emit]
  | succ n ih =>
    intro s
    have hlt : value / 16 ^ n % 16 < 16 := Nat.mod_lt _ (by norm_num)
    obtain ⟨h1, h2⟩ := hex_table_lookup _ hlt
    rw [puthex_loop, ih, uart_putc, vstore8_eq_emit, emit_emit, hex_index_eq, h1, h2,
      List.range_succ, List.reverse_append]
    rfl

/-- C15: for every `value`, `uart_puthex(value)` emits exactly ten bytes: `'0'`, `'x'`, then
the uppercase hexadecimal digits `floor(value / 16^(7-k)) mod 16` for `k = 0, ..., 7`, most
significant nibble first and zero-padded; every index into the digit table is in `0..15`;
and for a 32-bit `value` those eight digits denote `value`. -/
theorem uart_puthex_output (value : Nat) (s : State) :
    uart_puthex value s
      = emit (([48, 120] ++ (hexDigits value).map hexChar).map
          (fun c => Event.store8 UART_TX_ADDR c)) s ∧
    ([48, 120] ++ (hexDigits value).map hexChar).length = 10 ∧
    (∀ n, (value >>> (4 * n)) &&& 0xF < 16) ∧
    (∀ d ∈ hexDigits value, d < 16) ∧
    (value < 4294967296 → (hexDigits value).foldl (fun acc d => 16 * acc + d) 0 = value) := by
  refine ⟨?_, by simp [hexDigits], ?_, ?_, ?_⟩
  · have e : uart_puts (cstr "0x") s
        = emit [Event.store8 UART_TX_ADDR 48, Event.store8 UART_TX_ADDR 120] s := by
      have h := emits_puts (cstr "0x") s
      have e0 : (uart_puts (cstr "0x") s0).trace
          = [Event.store8 UART_TX_ADDR 48, Event.store8 UART_TX_ADDR 120] := by decide
      rw [e0] at h
      exact h
    rw [uart_puthex, e, puthex_loop_eq, emit_emit]
    rfl
  · intro n
    rw [hex_index_eq]
    exact Nat.mod_lt _ (by norm_num)
  · intro d hd
    simp only [hexDigits, List.mem_map] at hd
    obtain ⟨k, _, rfl⟩ := hd
    exact Nat.mod_lt _ (by norm_num)
  · intro h
    simp only [hexDigits, List.range_succ, List.range_zero, List.nil_append, List.map_append,
      List.map_cons, List.map_nil, List.cons_append, List.foldl_cons, List.foldl_nil]
    norm_num
    omega

set_option maxRecDepth 100000 in
/-- The examples of C15: `0xDEADBEEF` prints as "0xDEADBEEF" and `0` as "0x00000000". -/
theorem uart_puthex_examples :
    (uart_puthex 0xDEADBEEF s0).trace
      = (cstr "0xDEADBEEF").map (fun c => Event.store8 UART_TX_ADDR c) ∧
    (uart_puthex 0 s0).trace = (cstr "0x00000000").map (fun c => Event.store8 UART_TX_ADDR c) := by
  decide

/-- C15 at a concrete value: the eight digits printed for `0xDEADBEEF` denote it. -/
theorem uart_puthex_output_witness :
    (hexDigits 0xDEADBEEF).foldl (fun acc d => 16 * acc + d) 0 = 0xDEADBEEF :=
  (uart_puthex_output 0xDEADBEEF s0).2.2.2.2 (by decide)

/-! ## C17: `_fstat` -/

/-- C17 (amended): for every `fd` with `0 <= fd <= 2`, `_fstat(fd, st)` returns `0`, sets
`st->st_mode` to `S_IFCHR` and leaves `errno` alone; for every other `fd`, negative ones
included, it returns `-1` with `errno = EBADF` and leaves `*st` unmodified. -/
theorem fstat_stub_result (fd : Int) (st : Stat) (s : State) :
    (0 ≤ fd ∧ fd ≤ 2 →
      (_fstat fd st s).1 = 0 ∧ (_fstat fd st s).2.1.st_mode = S_IFCHR ∧
      (_fstat fd st s).2.2.errno = s.errno) ∧
    (fd < 0 ∨ 2 < fd →
      (_fstat fd st s).1 = -1 ∧ (_fstat fd st s).2.1 = st ∧
      (_fstat fd st s).2.2.errno = EBADF) := by
  constructor
  · intro h
    have hc : fd ≥ 0 ∧ fd ≤ 2 := ⟨h.1, h.2⟩
    simp [_fstat, hc]
  · intro h
    have hc : ¬ (fd ≥ 0 ∧ fd ≤ 2) := by omega
    simp [_fstat, hc]

theorem fstat_stub_result_witness :
    ((_fstat 1 ⟨0, 512⟩ s0).1 = 0 ∧ (_fstat 1 ⟨0, 512⟩ s0).2.1.st_mode = S_IFCHR ∧
      (_fstat 1 ⟨0, 512⟩ s0).2.2.errno = s0.errno) ∧
    ((_fstat 3 ⟨0, 512⟩ s0).1 = -1 ∧ (_fstat 3 ⟨0, 512⟩ s0).2.1 = ⟨0, 512⟩ ∧
      (_fstat 3 ⟨0, 512⟩ s0).2.2.errno = EBADF) :=
  ⟨(fstat_stub_result 1 ⟨0, 512⟩ s0).1 (by decide),
   (fstat_stub_result 3 ⟨0, 512⟩ s0).2 (by decide)⟩

/-- C17 as stated fails for a negative `fd`: `_fstat(-1, st)` returns `-1` with
`errno = EBADF` and does not set `st_mode`, although `-1 <= 2`. -/
theorem fstat_stub_negative_counterexample :
    (-1 : Int) ≤ 2 ∧ (_fstat (-1) ⟨0, 512⟩ s0).1 = -1 ∧
    (_fstat (-1) ⟨0, 512⟩ s0).2.1.st_mode ≠ S_IFCHR ∧
    (_fstat (-1) ⟨0, 512⟩ s0).2.2.errno = EBADF := by
  decide

/-! ## C18: `getpwuid` -/

/-- C18 (amended): for every `uid`, `getpwuid(uid)` returns the same non-NULL entry,
`dummy_passwd`, whose `pw_uid` is `0`; it matches the requested `uid` exactly when
`uid = 0`. -/
theorem getpwuid_dummy_entry (uid : Nat) :
    ∃ pw, getpwuid uid = some pw ∧ pw = dummy_passwd ∧ pw.pw_uid = 0 ∧
      (pw.pw_uid = uid ↔ uid = 0) := by
  refine ⟨dummy_passwd, rfl, rfl, rfl, ?_⟩
  constructor
  · intro h; exact h.symm
  · intro h; exact h.symm

/-- C18 as stated fails for `uid = 1000`: the entry returned has `pw_uid = 0`. -/
theorem getpwuid_uid_counterexample :
    ∃ pw, getpwuid 1000 = some pw ∧ pw.pw_uid ≠ 1000 :=
  ⟨dummy_passwd, rfl, by decide⟩

/-! ## C19: `malloc` -/

/-- The rounding `(size + 3) & ~3` is the next multiple of 4 when `size + 3` does not wrap. -/
theorem and_align_mask (x : Nat) (h : x < 4294967296) : x &&& 0xFFFFFFFC = x / 4 * 4 := by
  apply Nat.eq_of_testBit_eq
  intro i
  rw [Nat.testBit_and]
  have e : x / 4 * 4 = (x >>> 2) <<< 2 := by
    rw [Nat.shiftRight_eq_div_pow, Nat.shiftLeft_eq]
  rw [e, Nat.testBit_shiftLeft, Nat.testBit_shiftRight]
  by_cases hi : i < 2
  · have m0 : Nat.testBit 0xFFFFFFFC 0 = false := by decide
    have m1 : Nat.testBit 0xFFFFFFFC 1 = false := by decide
    have : i = 0 ∨ i = 1 := by omega
    rcases this with rfl | rfl <;> simp [m0, m1]
  · by_cases h32 : i < 32
    · have hm : Nat.testBit 0xFFFFFFFC i = true := by
        interval_cases i <;> decide
      have : 2 + (i - 2) = i := by omega
      simp [hm, this]; omega
    · have hx : x.testBit i = false := by
        apply Nat.testBit_lt_two_pow
        calc x < 2 ^ 32 := h
          _ ≤ 2 ^ i := Nat.pow_le_pow_right (by norm_num) (by omega)
      have : 2 + (i - 2) = i := by omega
      simp [hx, this]

/-- One call of `malloc` whose arithmetic does not wrap, from a `heap_ptr` inside the heap:
a request that fits returns the old `heap_ptr` and advances it by the size rounded up to a
multiple of 4, so the block `[p, p + size)` lies in the heap below the new `heap_ptr`; a
request that does not fit returns `0`. -/
theorem malloc_step_no_wrap (heap size heap_ptr : Nat)
    (hlo : heap ≤ heap_ptr) (hhi : heap_ptr ≤ heap + 8192)
    (hw : heap + 8192 + size + 3 < 4294967296) :
    (heap_ptr + (size + 3) / 4 * 4 ≤ heap + 8192 →
      malloc heap size heap_ptr = (heap_ptr, heap_ptr + (size + 3) / 4 * 4) ∧
      heap_ptr + size ≤ heap_ptr + (size + 3) / 4 * 4) ∧
    (heap + 8192 < heap_ptr + (size + 3) / 4 * 4 → (malloc heap size heap_ptr).1 = 0) := by
  have e1 : (size + 3) % 4294967296 = size + 3 := Nat.mod_eq_of_lt (by omega)
  have e2 : (size + 3) &&& 0xFFFFFFFC = (size + 3) / 4 * 4 := and_align_mask _ (by omega)
  have e3 : (heap_ptr + (size + 3) / 4 * 4) % 4294967296 = heap_ptr + (size + 3) / 4 * 4 :=
    Nat.mod_eq_of_lt (by omega)
  constructor
  · intro hfit
    have hc : ¬ heap_ptr + (size + 3) / 4 * 4 > heap + 8192 := by omega
    simp only [malloc, e1, e2, e3, if_neg hc, true_and]
    omega
  · intro hno
    have hc : heap_ptr + (size + 3) / 4 * 4 > heap + 8192 := by omega
    simp only [malloc, e1, e2, e3, if_pos hc]

/-- C19 (what the code does): from every `heap_ptr` inside the heap, a request of
`0xFFFFFFFF` bytes succeeds.  The rounding `(size + 3) & ~3` wraps to `0`, `heap_ptr` does
not move, the check passes and `malloc` returns the non-null `p = heap_ptr` although
`p + size` is far beyond `heap + 8192`. -/
theorem malloc_huge_request_succeeds (heap heap_ptr : Nat)
    (h0 : 0 < heap) (hlo : heap ≤ heap_ptr) (hhi : heap_ptr ≤ heap + 8192)
    (htop : heap + 8192 < 4294967296) :
    malloc heap 0xFFFFFFFF heap_ptr = (heap_ptr, heap_ptr) ∧ heap_ptr ≠ 0 ∧
    ¬ (heap_ptr + 0xFFFFFFFF ≤ heap + 8192) := by
  have e1 : ((0xFFFFFFFF + 3) % 4294967296) &&& 0xFFFFFFFC = 0 := by decide
  have e3 : (heap_ptr + 0) % 4294967296 = heap_ptr := Nat.mod_eq_of_lt (by omega)
  have hc : ¬ heap_ptr > heap + 8192 := by omega
  refine ⟨?_, by omega, by omega⟩
  simp only [malloc, e1, e3, if_neg hc]

/-- C19 at the failing input: with the heap at `0x80010000`, the first call
`malloc(0xFFFFFFFF)` returns `0x80010000`. -/
theorem malloc_huge_request_succeeds_witness :
    malloc 0x80010000 0xFFFFFFFF 0x80010000 = (0x80010000, 0x80010000) ∧ 0x80010000 ≠ 0 ∧
    ¬ (0x80010000 + 0xFFFFFFFF ≤ 0x80010000 + 8192) :=
  malloc_huge_request_succeeds 0x80010000 0x80010000 (by decide) (by decide) (by decide)
    (by decide)

/-! ## C20: `strcmp` -/

theorem isCString_tail (mem : Nat → Nat) (p a : Nat) (l : List Nat)
    (h : IsCString mem p (a :: l)) : IsCString mem (p + 1) l := by
  obtain ⟨h1, h2, h3⟩ := h
  refine ⟨?_, fun c hc => h2 c (List.mem_cons_of_mem a hc), ?_⟩
  · intro i hi
    have := h1 (i + 1) (by simp; omega)
    rw [show p + 1 + i = p + (i + 1) by omega, this]
    rfl
  · rw [show p + 1 + l.length = p + (a :: l).length by simp; omega]
    exact h3

theorem isCString_head (mem : Nat → Nat) (p a : Nat) (l : List Nat)
    (h : IsCString mem p (a :: l)) : mem p % 256 = a ∧ 0 < a ∧ a < 256 := by
  obtain ⟨h1, h2, _⟩ := h
  have := h1 0 (by simp)
  exact ⟨by simpa using this, h2 a (List.mem_cons_self a l)⟩

theorem isCString_nil (mem : Nat → Nat) (p : Nat) (h : IsCString mem p []) :
    mem p % 256 = 0 := by
  simpa using h.2.2

/-- What `strcmp` returns on two NUL-terminated strings, with the index `k` of the first
position at which they differ (their common length when they are equal). -/
theorem strcmp_core (mem : Nat → Nat) (l1 : List Nat) :
    ∀ (l2 : List Nat) (s1 s2 fuel : Nat), IsCString mem s1 l1 → IsCString mem s2 l2 →
      l1.length < fuel →
      ∃ r k, strcmp mem fuel s1 s2 = some r ∧
        (r = 0 ↔ l1 = l2) ∧ (r < 0 ↔ lexLt l1 l2 = true) ∧
        k ≤ l1.length ∧ k ≤ l2.length ∧ (∀ i, i < k → l1.getD i 0 = l2.getD i 0) ∧
        (l1 ≠ l2 → l1.getD k 0 ≠ l2.getD k 0) ∧
        r = (l1.getD k 0 : Int) - (l2.getD k 0 : Int) := by
  induction l1 with
  | nil =>
    intro l2 s1 s2 fuel h1 h2 hf
    obtain ⟨f, rfl⟩ : ∃ f, fuel = f + 1 := ⟨fuel - 1, by simp at hf; omega⟩
    have e1 := isCString_nil mem s1 h1
    cases l2 with
    | nil =>
      have e2 := isCString_nil mem s2 h2
      refine ⟨0, 0, ?_, by simp, by simp [lexLt], le_rfl, le_rfl, ?_, by simp, by simp⟩
      · simp [strcmp, e1, e2]
      · intro i hi; omega
    | cons b bs =>
      obtain ⟨e2, hb0, _⟩ := isCString_head mem s2 b bs h2
      refine ⟨-(b : Int), 0, ?_, ?_, ?_, le_rfl, Nat.zero_le _, ?_, ?_, by simp⟩
      · simp [strcmp, e1, e2]
      · constructor
        · intro h; omega
        · intro h; cases h
      · simp [lexLt]; omega
      · intro i hi; omega
      · intro _; simp; omega
  | cons a as ih =>
    intro l2 s1 s2 fuel h1 h2 hf
    obtain ⟨f, rfl⟩ : ∃ f, fuel = f + 1 := ⟨fuel - 1, by simp at hf; omega⟩
    obtain ⟨e1, ha0, _⟩ := isCString_head mem s1 a as h1
    cases l2 with
    | nil =>
      have e2 := isCString_nil mem s2 h2
      refine ⟨(a : Int), 0, ?_, ?_, ?_, Nat.zero_le _, le_rfl, ?_, ?_, by simp⟩
      · have hne : ¬ (a ≠ 0 ∧ a = 0) := by omega
        simp [strcmp, e1, e2, hne]
      · constructor
        · intro h; omega
        · intro h; cases h
      · simp [lexLt]
      · intro i hi; omega
      · intro _; simp; omega
    | cons b bs =>
      obtain ⟨e2, hb0, _⟩ := isCString_head mem s2 b bs h2
      by_cases hab : a = b
      · subst hab
        obtain ⟨r, k, g1, g2, g3, g4, g5, g6, g7, g8⟩ :=
          ih bs (s1 + 1) (s2 + 1) f (isCString_tail mem s1 a as h1)
            (isCString_tail mem s2 a bs h2) (by simp at hf; omega)
        refine ⟨r, k + 1, ?_, ?_, ?_, by simp; omega, by simp; omega, ?_, ?_, ?_⟩
        · have hc : a ≠ 0 ∧ a = a := ⟨by omega, rfl⟩
          simp only [strcmp, e1, e2, hc, and_self, if_true, ne_eq, not_false_eq_true]
          simpa [hc] using g1
        · rw [g2]; simp
        · rw [g3]; simp [lexLt]
        · intro i hi
          cases i with
          | zero => rfl
          | succ i => simpa using g6 i (by omega)
        · intro hne
          have : as ≠ bs := fun h => hne (by rw [h])
          simpa using g7 this
        · simpa using g8
      · refine ⟨(a : Int) - (b : Int), 0, ?_, ?_, ?_, Nat.zero_le _, Nat.zero_le _, ?_, ?_,
          by simp⟩
        · have hne : ¬ (a ≠ 0 ∧ a = b) := fun h => hab h.2
          simp [strcmp, e1, e2, hne]
        · constructor
          · intro h; omega
          · intro h; exact absurd (List.cons.inj h).1 hab
        · simp [lexLt, hab]
        · intro i hi; omega
        · intro _; simpa using hab

/-- C20: for NUL-terminated strings `s1` and `s2` with characters `l1` and `l2`, `strcmp(s1, s2)`
returns (any fuel above the length of `s1` suffices) a value `r` that is `0` if and only if
the strings are equal, negative if and only if `s1` precedes `s2` in the lexicographic
order of their bytes as unsigned chars, and positive otherwise; `r` is the difference of
the bytes at the first position `k` where the strings differ, the terminating NUL
included. -/
theorem strcmp_spec (mem : Nat → Nat) (s1 s2 : Nat) (l1 l2 : List Nat) (fuel : Nat)
    (h1 : IsCString mem s1 l1) (h2 : IsCString mem s2 l2) (hf : l1.length < fuel) :
    ∃ r, strcmp mem fuel s1 s2 = some r ∧
      (r = 0 ↔ l1 = l2) ∧ (r < 0 ↔ lexLt l1 l2 = true) ∧
      (0 < r ↔ (l1 ≠ l2 ∧ lexLt l1 l2 = false)) ∧
      ∃ k, k ≤ l1.length ∧ k ≤ l2.length ∧ (∀ i, i < k → l1.getD i 0 = l2.getD i 0) ∧
        (l1 ≠ l2 → l1.getD k 0 ≠ l2.getD k 0) ∧
        r = (l1.getD k 0 : Int) - (l2.getD k 0 : Int) := by
  obtain ⟨r, k, g1, g2, g3, g4, g5, g6, g7, g8⟩ := strcmp_core mem l1 l2 s1 s2 fuel h1 h2 hf
  refine ⟨r, g1, g2, g3, ?_, k, g4, g5, g6, g7, g8⟩
  constructor
  · intro hpos
    refine ⟨fun h => ?_, ?_⟩
    · have := g2.mpr h; omega
    · cases hl : lexLt l1 l2 with
      | false => rfl
      | true => have := g3.mpr hl; omega
  · intro ⟨hne, hl⟩
    have hr0 : r ≠ 0 := fun h => hne (g2.mp h)
    have hrn : ¬ r < 0 := fun h => by rw [g3.mp h] at hl; cases hl
    omega

theorem strcmp_spec_witness :
    ∃ r, strcmp memAbc 4 0x80000100 0x80000200 = some r ∧
      (r = 0 ↔ [97, 98, 99] = [97, 98, 100]) ∧ (r < 0 ↔ lexLt [97, 98, 99] [97, 98, 100] = true) ∧
      (0 < r ↔ ([97, 98, 99] ≠ [97, 98, 100] ∧ lexLt [97, 98, 99] [97, 98, 100] = false)) ∧
      ∃ k, k ≤ [97, 98, 99].length ∧ k ≤ [97, 98, 100].length ∧
        (∀ i, i < k → [97, 98, 99].getD i 0 = [97, 98, 100].getD i 0) ∧
        ([97, 98, 99] ≠ [97, 98, 100] → [97, 98, 99].getD k 0 ≠ [97, 98, 100].getD k 0) ∧
        r = (([97, 98, 99].getD k 0 : Nat) : Int) - (([97, 98, 100].getD k 0 : Nat) : Int) :=
  strcmp_spec memAbc 0x80000100 0x80000200 [97, 98, 99] [97, 98, 100] 4
    (by decide) (by decide) (by decide)

/-! ## C25: `open` ignores its mode, `creat` -/

/-- C25: `open` does not look at its variadic arguments and always passes `0644` as the
mode of the `openat` ecall; so for every path and every mode, `creat(path, mode)` issues
exactly `openat(AT_FDCWD, path, O_CREAT | O_WRONLY | O_TRUNC, 0644)` and returns what `open`
returns for that call. -/
theorem creat_mode_ignored (env : Env) (O_CREAT O_WRONLY O_TRUNC : Nat) (path mode : Nat)
    (flags : Int) (va : List Int) (s : State) :
    open_va env path flags va s = open_va env path flags [] s ∧
    (open_va env path flags va s).2.trace
      = s.trace ++ [Event.ecall 56 [AT_FDCWD, toInt32 path, flags, 0o644]] ∧
    creat env O_CREAT O_WRONLY O_TRUNC path mode s
      = open_va env path ((O_CREAT ||| O_WRONLY ||| O_TRUNC : Nat) : Int) [] s ∧
    (creat env O_CREAT O_WRONLY O_TRUNC path mode s).2.trace
      = s.trace ++ [Event.ecall 56
          [AT_FDCWD, toInt32 path, ((O_CREAT ||| O_WRONLY ||| O_TRUNC : Nat) : Int), 0o644]] := by
  have ht : ∀ f : Int, (open_ env path f s).2.trace
      = s.trace ++ [Event.ecall 56 [AT_FDCWD, toInt32 path, f, 0o644]] := by
    intro f
    unfold open_ syscall4 ecall
    simp only []
    split <;> rfl
  exact ⟨rfl, ht flags, rfl, ht _⟩

/-! ## C22 and C26: the bump allocator over sequences of calls -/

theorem malloc_rounded_mod (size : Nat) : malloc_rounded size % 4 = 0 := by
  unfold malloc_rounded
  rw [and_align_mask _ (Nat.mod_lt _ (by norm_num))]
  exact Nat.mul_mod_left _ _

theorem malloc_snd (heap size heap_ptr : Nat) :
    (malloc heap size heap_ptr).2 = (heap_ptr + malloc_rounded size) % 4294967296 := by
  unfold malloc malloc_rounded
  simp only []
  split <;> rfl

theorem malloc_fst (heap size heap_ptr : Nat) :
    (malloc heap size heap_ptr).1
      = if (heap_ptr + malloc_rounded size) % 4294967296 > heap + 8192 then 0 else heap_ptr := by
  unfold malloc malloc_rounded
  simp only []
  split <;> rfl

theorem heapRun_mod (heap : Nat) (ops : List HeapOp) :
    ∀ heap_ptr, heap_ptr % 4 = heap % 4 →
      (heapRun heap ops heap_ptr).2 % 4 = heap % 4 ∧
      ∀ p ∈ (heapRun heap ops heap_ptr).1, p ≠ 0 → p % 4 = heap % 4 := by
  induction ops with
  | nil => intro hp h; exact ⟨h, fun p hp' => by simp [heapRun] at hp'⟩
  | cons op ops ih =>
    intro hp h
    cases op with
    | malloc size =>
      have hr := malloc_rounded_mod size
      have h2 : (malloc heap size hp).2 % 4 = heap % 4 := by
        rw [malloc_snd]; omega
      obtain ⟨i1, i2⟩ := ih _ h2
      refine ⟨i1, ?_⟩
      intro p hp' hne
      simp only [heapRun, List.mem_cons] at hp'
      rcases hp' with rfl | hp'
      · rw [malloc_fst] at hne ⊢
        split
        · rename_i hc; simp [hc] at hne
        · exact h
      · exact i2 p hp' hne
    | free ptr => exact ih hp h

/-- C22: after any sequence of `malloc` and `free` calls from the initial `heap_ptr = heap`,
`heap_ptr - heap` is a multiple of 4, and every non-null pointer that `malloc` returned is
at an offset from `heap` that is a multiple of 4. -/
theorem heap_ptr_aligned (heap : Nat) (ops : List HeapOp) :
    (∃ k : Int, ((heapRun heap ops heap).2 : Int) - (heap : Int) = 4 * k) ∧
    ∀ p ∈ (heapRun heap ops heap).1, p ≠ 0 → ∃ k : Int, (p : Int) - (heap : Int) = 4 * k := by
  obtain ⟨h1, h2⟩ := heapRun_mod heap ops heap rfl
  refine ⟨⟨(((heapRun heap ops heap).2 : Int) - heap) / 4, by omega⟩, ?_⟩
  intro p hp hne
  have := h2 p hp hne
  exact ⟨((p : Int) - heap) / 4, by omega⟩

theorem heapRun_after_failure (heap : Nat) (ops : List HeapOp) :
    ∀ heap_ptr, heap + 8192 < heap_ptr → noWrap ops heap_ptr = true →
      (∀ p ∈ (heapRun heap ops heap_ptr).1, p = 0) ∧
      heap + 8192 < (heapRun heap ops heap_ptr).2 := by
  induction ops with
  | nil => intro hp h _; exact ⟨fun p hp' => by simp [heapRun] at hp', h⟩
  | cons op ops ih =>
    intro hp h hw
    cases op with
    | malloc size =>
      simp only [noWrap, Bool.and_eq_true, decide_eq_true_eq] at hw
      have e : (hp + malloc_rounded size) % 4294967296 = hp + malloc_rounded size :=
        Nat.mod_eq_of_lt hw.1
      have h2 : (malloc heap size hp).2 = hp + malloc_rounded size := by
        rw [malloc_snd, e]
      have h1 : (malloc heap size hp).1 = 0 := by
        rw [malloc_fst, e, if_pos (by omega)]
      obtain ⟨i1, i2⟩ := ih (hp + malloc_rounded size) (by omega) hw.2
      simp only [heapRun, h1, h2, List.mem_cons]
      refine ⟨?_, i2⟩
      intro p hp'
      rcases hp' with rfl | hp'
      · rfl
      · exact i1 p hp'
    | free ptr =>
      simp only [noWrap] at hw
      exact ih hp h hw

/-- C26: `free` never changes `heap_ptr`; a `malloc` call that returns `0` from a non-null
`heap_ptr` leaves `heap_ptr` beyond `heap + 8192`; and from a `heap_ptr` beyond
`heap + 8192`, every later `malloc` call of a sequence whose accumulated rounded sizes do
not wrap the 32-bit address space returns `0`, whatever its size, `heap_ptr` staying
beyond `heap + 8192`. -/
theorem malloc_failure_sticks (heap : Nat) :
    (∀ ptr heap_ptr, free ptr heap_ptr = heap_ptr) ∧
    (∀ size heap_ptr, 0 < heap_ptr → (malloc heap size heap_ptr).1 = 0 →
      heap + 8192 < (malloc heap size heap_ptr).2) ∧
    (∀ ops heap_ptr, heap + 8192 < heap_ptr → noWrap ops heap_ptr = true →
      (∀ p ∈ (heapRun heap ops heap_ptr).1, p = 0) ∧
      heap + 8192 < (heapRun heap ops heap_ptr).2) := by
  refine ⟨fun _ _ => rfl, ?_, fun ops hp h hw => heapRun_after_failure heap ops hp h hw⟩
  intro size hp h0 hz
  rw [malloc_fst] at hz
  rw [malloc_snd]
  split at hz
  · assumption
  · omega

/-- C26 at a concrete run: with the heap at `0x80010000`, after `malloc(8196)` has failed,
`malloc(0)`, `free` and `malloc(4)` leave two null results. -/
theorem malloc_failure_sticks_witness :
    (∀ p ∈ (heapRun 0x80010000 [HeapOp.malloc 0, HeapOp.free 0, HeapOp.malloc 4]
        (malloc 0x80010000 8196 0x80010000).2).1, p = 0) ∧
    0x80010000 + 8192 < (heapRun 0x80010000 [HeapOp.malloc 0, HeapOp.free 0, HeapOp.malloc 4]
        (malloc 0x80010000 8196 0x80010000).2).2 :=
  (malloc_failure_sticks 0x80010000).2.2 [HeapOp.malloc 0, HeapOp.free 0, HeapOp.malloc 4]
    (malloc 0x80010000 8196 0x80010000).2 (by decide) (by decide)

/-- C22 at a concrete run: with the heap at `0x80010000`, the second of `malloc(5)`,
`malloc(3)` returns `0x80010008`, at offset 8. -/
theorem heap_ptr_aligned_witness :
    ∃ k : Int, ((0x80010008 : Nat) : Int) - ((0x80010000 : Nat) : Int) = 4 * k :=
  (heap_ptr_aligned 0x80010000 [HeapOp.malloc 5, HeapOp.malloc 3]).2 0x80010008
    (by decide) (by decide)

/-! ## C27: `sleep` -/

theorem sleep_wait_spec (env : Env) (target : Nat) (k : Nat) :
    ∀ (fuel : Nat) (s : State), k < fuel →
      (∀ j, j < k → env.dev 0x10000004 (s.cnt 0x10000004 + j) % 4294967296 < target) →
      target ≤ env.dev 0x10000004 (s.cnt 0x10000004 + k) % 4294967296 →
      ∃ s', sleep_wait env target fuel s = some s' ∧ s'.mem = s.mem ∧ s'.errno = s.errno ∧
        s'.cnt 0x10000004 = s.cnt 0x10000004 + k + 1 := by
  induction k with
  | zero =>
    intro fuel s hf _ hk
    obtain ⟨f, rfl⟩ : ∃ f, fuel = f + 1 := ⟨fuel - 1, by omega⟩
    have hk' : ¬ (vload32 env 0x10000004 s).1 < target := by
      simpa [vload32] using hk
    refine ⟨(vload32 env 0x10000004 s).2, ?_, rfl, rfl, ?_⟩
    · simp only [sleep_wait, hk', if_false]
    · simp [vload32]
  | succ k ih =>
    intro fuel s hf hlt hk
    obtain ⟨f, rfl⟩ : ∃ f, fuel = f + 1 := ⟨fuel - 1, by omega⟩
    have h0 : (vload32 env 0x10000004 s).1 < target := by
      simpa [vload32] using hlt 0 (by omega)
    have hc : (vload32 env 0x10000004 s).2.cnt 0x10000004 = s.cnt 0x10000004 + 1 := by
      simp [vload32]
    obtain ⟨s', g1, g2, g3, g4⟩ := ih f (vload32 env 0x10000004 s).2 (by omega)
      (by
        intro j hj
        rw [hc]
        have := hlt (j + 1) (by omega)
        rwa [show s.cnt 0x10000004 + 1 + j = s.cnt 0x10000004 + (j + 1) by omega])
      (by
        rw [hc]
        rwa [show s.cnt 0x10000004 + 1 + k = s.cnt 0x10000004 + (k + 1) by omega])
    refine ⟨s', ?_, g2, g3, ?_⟩
    · simp only [sleep_wait, h0, if_true]
      exact g1
    · rw [g4, hc]; omega

/-- C27: `sleep(seconds)` reads the millisecond timer once on entry (`start`), then reads
it again until a value `t` is not below `target = (start + seconds * 1000) mod 2^32`
(unsigned 32-bit comparison): if the `k` reads after the first are below `target` and the
next one is not, `sleep` returns `0` (any fuel above `k` suffices) after exactly `k + 2`
timer reads, with memory and `errno` untouched; and if `start + seconds * 1000 < 2^32`, the
last value read is at least `seconds * 1000` ms after `start`. -/
theorem sleep_spec (env : Env) (seconds : Nat) (s : State) (k fuel : Nat)
    (hf : k < fuel)
    (hbelow : ∀ j, j < k →
      env.dev 0x10000004 (s.cnt 0x10000004 + 1 + j) % 4294967296
        < (env.dev 0x10000004 (s.cnt 0x10000004) % 4294967296 + seconds * 1000) % 4294967296)
    (hreach : (env.dev 0x10000004 (s.cnt 0x10000004) % 4294967296 + seconds * 1000) % 4294967296
      ≤ env.dev 0x10000004 (s.cnt 0x10000004 + 1 + k) % 4294967296) :
    ∃ s', sleep env fuel seconds s = some (0, s') ∧
      s'.mem = s.mem ∧ s'.errno = s.errno ∧
      s'.cnt 0x10000004 = s.cnt 0x10000004 + k + 2 ∧
      (env.dev 0x10000004 (s.cnt 0x10000004) % 4294967296 + seconds * 1000 < 4294967296 →
        env.dev 0x10000004 (s.cnt 0x10000004) % 4294967296 + seconds * 1000
          ≤ env.dev 0x10000004 (s.cnt 0x10000004 + 1 + k) % 4294967296) := by
  have hc : (vload32 env 0x10000004 s).2.cnt 0x10000004 = s.cnt 0x10000004 + 1 := by
    simp [vload32]
  have ht : ((vload32 env 0x10000004 s).1 + (seconds * 1000) % 4294967296) % 4294967296
      = (env.dev 0x10000004 (s.cnt 0x10000004) % 4294967296 + seconds * 1000) % 4294967296 := by
    simp only [vload32]
    omega
  obtain ⟨s', g1, g2, g3, g4⟩ := sleep_wait_spec env
    ((env.dev 0x10000004 (s.cnt 0x10000004) % 4294967296 + seconds * 1000) % 4294967296)
    k fuel (vload32 env 0x10000004 s).2 hf
    (by intro j hj; rw [hc]; exact hbelow j hj) (by rw [hc]; exact hreach)
  refine ⟨s', ?_, g2, g3, by rw [g4, hc]; omega, ?_⟩
  · simp only [sleep, ht, g1]
  · intro hno
    rw [Nat.mod_eq_of_lt hno] at hreach
    exact hreach

theorem sleep_spec_witness :
    ∃ s', sleep envTimer 3 1 s0 = some (0, s') ∧
      s'.mem = s0.mem ∧ s'.errno = s0.errno ∧
      s'.cnt 0x10000004 = s0.cnt 0x10000004 + 2 + 2 ∧
      (envTimer.dev 0x10000004 (s0.cnt 0x10000004) % 4294967296 + 1 * 1000 < 4294967296 →
        envTimer.dev 0x10000004 (s0.cnt 0x10000004) % 4294967296 + 1 * 1000
          ≤ envTimer.dev 0x10000004 (s0.cnt 0x10000004 + 1 + 2) % 4294967296) :=
  sleep_spec envTimer 1 s0 2 3 (by decide) (by decide) (by decide)

/-! ## C24: `_read` on fd 0 -/

/-- What the loop of `_read` does from index `i` on, `n` iterations being left: it returns
`r` with `i <= r <= i + n` after storing at `ptr[i..r)` the bytes dequeued, none of them
`0xFF` and each after a non-zero status read; and it ends in one of three ways. -/
theorem read_loop_spec (env : Env) (ptr : Nat) (len : Int) (n : Nat) :
    ∀ (i : Nat) (s : State),
      ∃ r : Nat, (read_loop env ptr len n i s).1 = (if r = i + n then len else (r : Int)) ∧
        i ≤ r ∧ r ≤ i + n ∧
        (∀ j, i ≤ j → j < r →
          (read_loop env ptr len n i s).2.mem (ptr + j)
            = env.dev 0x10001004 (s.cnt 0x10001004 + (j - i)) % 256 ∧
          env.dev 0x10001004 (s.cnt 0x10001004 + (j - i)) % 256 ≠ 0xFF ∧
          env.dev 0x10001008 (s.cnt 0x10001008 + (j - i)) % 256 ≠ 0) ∧
        (∀ a, (a < ptr + i ∨ ptr + r ≤ a) → (read_loop env ptr len n i s).2.mem a = s.mem a) ∧
        ((r = i + n ∧
            (read_loop env ptr len n i s).2.cnt 0x10001004 = s.cnt 0x10001004 + (r - i) ∧
            (read_loop env ptr len n i s).2.cnt 0x10001008 = s.cnt 0x10001008 + (r - i)) ∨
         (r < i + n ∧ env.dev 0x10001008 (s.cnt 0x10001008 + (r - i)) % 256 = 0 ∧
            (read_loop env ptr len n i s).2.cnt 0x10001004 = s.cnt 0x10001004 + (r - i) ∧
            (read_loop env ptr len n i s).2.cnt 0x10001008 = s.cnt 0x10001008 + (r - i) + 1) ∨
         (r < i + n ∧ env.dev 0x10001008 (s.cnt 0x10001008 + (r - i)) % 256 ≠ 0 ∧
            env.dev 0x10001004 (s.cnt 0x10001004 + (r - i)) % 256 = 0xFF ∧
            (read_loop env ptr len n i s).2.cnt 0x10001004 = s.cnt 0x10001004 + (r - i) + 1 ∧
            (read_loop env ptr len n i s).2.cnt 0x10001008 = s.cnt 0x10001008 + (r - i) + 1)) := by
  induction n with
  | zero =>
    intro i s
    refine ⟨i, by simp [read_loop], le_rfl, le_rfl, fun j h1 h2 => by omega, fun _ _ => rfl,
      Or.inl ⟨rfl, by simp [read_loop], by simp [read_loop]⟩⟩
  | succ n ih =>
    intro i s
    have hst : (vload8 env CONSOLE_UART_RX_STATUS s).1
        = env.dev 0x10001008 (s.cnt 0x10001008) % 256 := rfl
    have hdt : (vload8 env CONSOLE_UART_RX (vload8 env CONSOLE_UART_RX_STATUS s).2).1
        = env.dev 0x10001004 (s.cnt 0x10001004) % 256 := by
      simp [vload8, CONSOLE_UART_RX, CONSOLE_UART_RX_STATUS]
    rw [read_loop]
    by_cases h0 : (vload8 env CONSOLE_UART_RX_STATUS s).1 = 0
    · simp only [h0, if_true]
      have hne : ¬ i = i + (n + 1) := by omega
      refine ⟨i, ?_, le_rfl, by omega, fun j h1 h2 => by omega, ?_, Or.inr (Or.inl ⟨by omega, ?_, ?_, ?_⟩)⟩
      · rw [if_neg hne]
        by_cases hi : i = 0
        · subst hi; simp
        · simp [hi]
      · intro a _
        by_cases hi : i = 0 <;> simp [hi, vload8]
      · rw [Nat.sub_self, Nat.add_zero, ← hst]; exact h0
      · by_cases hi : i = 0 <;> simp [hi, vload8, CONSOLE_UART_RX_STATUS]
      · by_cases hi : i = 0 <;> simp [hi, vload8, CONSOLE_UART_RX_STATUS]
    · simp only [h0, if_false]
      by_cases hff : (vload8 env CONSOLE_UART_RX (vload8 env CONSOLE_UART_RX_STATUS s).2).1 = 0xFF
      · simp only [hff, if_true]
        have hne : ¬ i = i + (n + 1) := by omega
        refine ⟨i, by rw [if_neg hne], le_rfl, by omega, fun j h1 h2 => by omega, ?_,
          Or.inr (Or.inr ⟨by omega, ?_, ?_, ?_, ?_⟩)⟩
        · intro a _; simp [vload8]
        · rw [Nat.sub_self, Nat.add_zero, ← hst]; exact h0
        · rw [Nat.sub_self, Nat.add_zero, ← hdt]; exact hff
        · simp [vload8, CONSOLE_UART_RX, CONSOLE_UART_RX_STATUS]
        · simp [vload8, CONSOLE_UART_RX, CONSOLE_UART_RX_STATUS]
      · simp only [hff, if_false]
        generalize hs3 : ramStore (ptr + i)
          (vload8 env CONSOLE_UART_RX (vload8 env CONSOLE_UART_RX_STATUS s).2).1
          (vload8 env CONSOLE_UART_RX (vload8 env CONSOLE_UART_RX_STATUS s).2).2 = s3
        have hrx : s3.cnt 0x10001004 = s.cnt 0x10001004 + 1 := by
          subst hs3; simp [ramStore, vload8, CONSOLE_UART_RX, CONSOLE_UART_RX_STATUS]
        have hsc : s3.cnt 0x10001008 = s.cnt 0x10001008 + 1 := by
          subst hs3; simp [ramStore, vload8, CONSOLE_UART_RX, CONSOLE_UART_RX_STATUS]
        have hmem : ∀ a, s3.mem a
            = if a = ptr + i then env.dev 0x10001004 (s.cnt 0x10001004) % 256 else s.mem a := by
          intro a
          subst hs3
          simp [ramStore, vload8, CONSOLE_UART_RX, CONSOLE_UART_RX_STATUS]
        rw [hst] at h0
        rw [hdt] at hff
        obtain ⟨r, g1, g2, g3, g4, g5, g6⟩ := ih (i + 1) s3
        have e1 : ∀ x, x + 1 + (r - (i + 1)) = x + (r - i) := by intro x; omega
        refine ⟨r, ?_, by omega, by omega, ?_, ?_, ?_⟩
        · rw [g1]
          by_cases hr : r = i + 1 + n
          · rw [if_pos hr, if_pos (by omega)]
          · rw [if_neg hr, if_neg (by omega)]
        · intro j h1 h2
          by_cases hj : j = i
          · subst hj
            rw [g5 (ptr + j) (Or.inl (by omega)), hmem, if_pos rfl, Nat.sub_self, Nat.add_zero,
              Nat.add_zero]
            exact ⟨rfl, hff, h0⟩
          · have := g4 j (by omega) h2
            rw [hrx, hsc] at this
            rw [show s.cnt 0x10001004 + (j - i) = s.cnt 0x10001004 + 1 + (j - (i + 1)) by omega,
              show s.cnt 0x10001008 + (j - i) = s.cnt 0x10001008 + 1 + (j - (i + 1)) by omega]
            exact this
        · intro a ha
          rw [g5 a (by omega), hmem, if_neg (by omega)]
        · rw [hrx, hsc] at g6
          simp only [e1] at g6
          rcases g6 with ⟨a1, a2, a3⟩ | ⟨a1, a2, a3, a4⟩ | ⟨a1, a2, a3, a4, a5⟩
          · exact Or.inl ⟨by omega, a2, a3⟩
          · exact Or.inr (Or.inl ⟨by omega, a2, a3, a4⟩)
          · exact Or.inr (Or.inr ⟨by omega, a2, a3, a4, a5⟩)

/-- C24: for every `len >= 0`, `_read(0, ptr, len)` returns `r` with `0 <= r <= len` after
storing into `ptr[0..r)`, in order and nowhere else, the first `r` bytes it dequeued, none
of which is `0xFF`.  It ends in one of three ways: with `r = len` after `len` status reads
and `len` data reads; with `r < len` on a status read that returns `0`; or with `r < len`
on a dequeued byte equal to `0xFF`, which has been read from the data register (`r + 1`
data reads) but is neither stored nor counted. -/
theorem read_fd0_spec (env : Env) (ptr : Nat) (len : Int) (s : State) (hlen : 0 ≤ len) :
    ∃ r : Nat, (_read env 0 ptr len s).1 = (r : Int) ∧ (r : Int) ≤ len ∧
      (∀ j, j < r →
        (_read env 0 ptr len s).2.mem (ptr + j)
          = env.dev 0x10001004 (s.cnt 0x10001004 + j) % 256 ∧
        env.dev 0x10001004 (s.cnt 0x10001004 + j) % 256 ≠ 0xFF ∧
        env.dev 0x10001008 (s.cnt 0x10001008 + j) % 256 ≠ 0) ∧
      (∀ a, (a < ptr ∨ ptr + r ≤ a) → (_read env 0 ptr len s).2.mem a = s.mem a) ∧
      (((r : Int) = len ∧
          (_read env 0 ptr len s).2.cnt 0x10001004 = s.cnt 0x10001004 + r ∧
          (_read env 0 ptr len s).2.cnt 0x10001008 = s.cnt 0x10001008 + r) ∨
       ((r : Int) < len ∧ env.dev 0x10001008 (s.cnt 0x10001008 + r) % 256 = 0 ∧
          (_read env 0 ptr len s).2.cnt 0x10001004 = s.cnt 0x10001004 + r ∧
          (_read env 0 ptr len s).2.cnt 0x10001008 = s.cnt 0x10001008 + r + 1) ∨
       ((r : Int) < len ∧ env.dev 0x10001008 (s.cnt 0x10001008 + r) % 256 ≠ 0 ∧
          env.dev 0x10001004 (s.cnt 0x10001004 + r) % 256 = 0xFF ∧
          (_read env 0 ptr len s).2.cnt 0x10001004 = s.cnt 0x10001004 + r + 1 ∧
          (_read env 0 ptr len s).2.cnt 0x10001008 = s.cnt 0x10001008 + r + 1)) := by
  have e : _read env 0 ptr len s = read_loop env ptr len len.toNat 0 s := by
    simp [_read]
  obtain ⟨r, g1, _, g3, g4, g5, g6⟩ := read_loop_spec env ptr len len.toNat 0 s
  rw [e]
  refine ⟨r, ?_, by omega, ?_, ?_, ?_⟩
  · rw [g1]
    split
    · omega
    · rfl
  · intro j hj
    have := g4 j (Nat.zero_le j) hj
    simpa using this
  · intro a ha
    exact g5 a (by omega)
  · simp only [Nat.sub_zero] at g6
    rcases g6 with ⟨a1, a2, a3⟩ | ⟨a1, a2, a3, a4⟩ | ⟨a1, a2, a3, a4, a5⟩
    · exact Or.inl ⟨by omega, a2, a3⟩
    · exact Or.inr (Or.inl ⟨by omega, a2, a3, a4⟩)
    · exact Or.inr (Or.inr ⟨by omega, a2, a3, a4, a5⟩)

/-- With an RX status register that reads `1` and a data register that reads `0xFF`,
`_read(0, buf, 4)` returns `0` after one read of the data register: the byte is dequeued
and dropped. -/
theorem read_fd0_ff_dropped :
    (_read { dev := fun a _ => if a = 0x10001008 then 1 else 0xFF, hostRet := fun _ => 0,
             hostMem := fun _ m => m } 0 0x80000000 4 s0).1 = 0 ∧
    (_read { dev := fun a _ => if a = 0x10001008 then 1 else 0xFF, hostRet := fun _ => 0,
             hostMem := fun _ m => m } 0 0x80000000 4 s0).2.cnt 0x10001004 = 1 := by
  decide

theorem read_fd0_spec_witness :
    ∃ r : Nat, (_read envReady 0 0x80000000 4 s0).1 = (r : Int) ∧ (r : Int) ≤ 4 ∧
      (∀ j, j < r →
        (_read envReady 0 0x80000000 4 s0).2.mem (0x80000000 + j)
          = envReady.dev 0x10001004 (s0.cnt 0x10001004 + j) % 256 ∧
        envReady.dev 0x10001004 (s0.cnt 0x10001004 + j) % 256 ≠ 0xFF ∧
        envReady.dev 0x10001008 (s0.cnt 0x10001008 + j) % 256 ≠ 0) ∧
      (∀ a, (a < 0x80000000 ∨ 0x80000000 + r ≤ a) →
        (_read envReady 0 0x80000000 4 s0).2.mem a = s0.mem a) ∧
      (((r : Int) = 4 ∧
          (_read envReady 0 0x80000000 4 s0).2.cnt 0x10001004 = s0.cnt 0x10001004 + r ∧
          (_read envReady 0 0x80000000 4 s0).2.cnt 0x10001008 = s0.cnt 0x10001008 + r) ∨
       ((r : Int) < 4 ∧ envReady.dev 0x10001008 (s0.cnt 0x10001008 + r) % 256 = 0 ∧
          (_read envReady 0 0x80000000 4 s0).2.cnt 0x10001004 = s0.cnt 0x10001004 + r ∧
          (_read envReady 0 0x80000000 4 s0).2.cnt 0x10001008 = s0.cnt 0x10001008 + r + 1) ∨
       ((r : Int) < 4 ∧ envReady.dev 0x10001008 (s0.cnt 0x10001008 + r) % 256 ≠ 0 ∧
          envReady.dev 0x10001004 (s0.cnt 0x10001004 + r) % 256 = 0xFF ∧
          (_read envReady 0 0x80000000 4 s0).2.cnt 0x10001004 = s0.cnt 0x10001004 + r + 1 ∧
          (_read envReady 0 0x80000000 4 s0).2.cnt 0x10001008 = s0.cnt 0x10001008 + r + 1)) :=
  read_fd0_spec envReady 0x80000000 4 s0 (by decide)

/-! ## C23: the RX data register is read only after a status read that reported data -/

theorem rxGuarded_append_other (tr : List Event) (e : Event) (h : rxGuarded tr = true)
    (he : isRxData e = false) : rxGuarded (tr ++ [e]) = true := by
  unfold rxGuarded at h ⊢
  rw [List.reverse_append]
  simp [rxGuardedRev, he, h]

theorem rxGuarded_append_data (tr : List Event) (e : Event) (h : rxGuarded tr = true)
    (ha : endsAvail tr = true) : rxGuarded (tr ++ [e]) = true := by
  unfold rxGuarded at h ⊢
  unfold endsAvail at ha
  rw [List.reverse_append]
  cases hr : tr.reverse with
  | nil => rw [hr] at ha; simp at ha
  | cons p before =>
    rw [hr] at ha h
    simp only [] at ha
    show rxGuardedRev (e :: p :: before) = true
    rw [rxGuardedRev]
    simp [ha, h]

theorem endsAvail_append_status (tr : List Event) (v : Nat) (hv : v ≠ 0) :
    endsAvail (tr ++ [Event.load8 0x10001008 v]) = true := by
  unfold endsAvail
  rw [List.reverse_append]
  simp [isAvailStatus, hv]

theorem vload8_trace (env : Env) (addr : Nat) (s : State) :
    (vload8 env addr s).2.trace = s.trace ++ [Event.load8 addr (vload8 env addr s).1] := rfl

/-- A status read keeps the trace guarded, and leaves it ending in "data available" when
the value read is not `0`. -/
theorem status_read_guarded (env : Env) (s : State) (h : rxGuarded s.trace = true) :
    rxGuarded (vload8 env 0x10001008 s).2.trace = true ∧
    ((vload8 env 0x10001008 s).1 ≠ 0 → endsAvail (vload8 env 0x10001008 s).2.trace = true) := by
  rw [vload8_trace]
  exact ⟨rxGuarded_append_other _ _ h (by simp [isRxData]),
    fun hv => endsAvail_append_status _ _ hv⟩

/-- A data read right after a status read that reported data keeps the trace guarded. -/
theorem data_read_guarded (env : Env) (s : State) (h : rxGuarded s.trace = true)
    (ha : endsAvail s.trace = true) (val addr : Nat) :
    rxGuarded (ramStore addr val (vload8 env 0x10001004 s).2).trace = true ∧
    rxGuarded (vload8 env 0x10001004 s).2.trace = true := by
  have : (ramStore addr val (vload8 env 0x10001004 s).2).trace
      = (vload8 env 0x10001004 s).2.trace := rfl
  rw [this, vload8_trace]
  exact ⟨rxGuarded_append_data _ _ h ha, rxGuarded_append_data _ _ h ha⟩

theorem read_loop_guarded (env : Env) (ptr : Nat) (len : Int) (n : Nat) :
    ∀ (i : Nat) (s : State), rxGuarded s.trace = true →
      rxGuarded (read_loop env ptr len n i s).2.trace = true := by
  induction n with
  | zero => intro i s h; exact h
  | succ n ih =>
    intro i s h
    obtain ⟨g1, g2⟩ := status_read_guarded env s h
    rw [read_loop]
    by_cases h0 : (vload8 env CONSOLE_UART_RX_STATUS s).1 = 0
    · simp only [h0, if_true]
      by_cases hi : i = 0 <;> simp only [hi, if_true, if_false] <;> exact g1
    · simp only [h0, if_false]
      obtain ⟨d1, d2⟩ := data_read_guarded env (vload8 env 0x10001008 s).2 g1 (g2 h0)
        (vload8 env CONSOLE_UART_RX (vload8 env CONSOLE_UART_RX_STATUS s).2).1 (ptr + i)
      by_cases hff : (vload8 env CONSOLE_UART_RX (vload8 env CONSOLE_UART_RX_STATUS s).2).1 = 0xFF
      · simp only [hff, if_true]
        exact d2
      · simp only [hff, if_false]
        exact ih _ _ d1

theorem stdin_wait_guarded (env : Env) (fuel : Nat) :
    ∀ (s s' : State), stdin_wait env fuel s = some s' → rxGuarded s.trace = true →
      rxGuarded s'.trace = true ∧ endsAvail s'.trace = true := by
  induction fuel with
  | zero => intro s s' h; simp [stdin_wait] at h
  | succ fuel ih =>
    intro s s' h hg
    obtain ⟨g1, g2⟩ := status_read_guarded env s hg
    rw [stdin_wait] at h
    by_cases h0 : (vload8 env CONSOLE_UART_RX_STATUS s).1 &&& 0x01 = 0
    · simp only [h0, if_true] at h
      exact ih _ _ h g1
    · simp only [h0, if_false, Option.some.injEq] at h
      subst h
      refine ⟨g1, g2 ?_⟩
      intro hz
      apply h0
      show (vload8 env 0x10001008 s).1 &&& 0x01 = 0
      rw [hz]
      rfl

theorem stdin_loop_guarded (env : Env) (ptr count : Nat) (n : Nat) :
    ∀ (i : Nat) (s : State), rxGuarded s.trace = true →
      rxGuarded (stdin_loop env ptr count n i s).2.trace = true := by
  induction n with
  | zero => intro i s h; exact h
  | succ n ih =>
    intro i s h
    obtain ⟨g1, g2⟩ := status_read_guarded env s h
    rw [stdin_loop]
    by_cases h0 : (vload8 env CONSOLE_UART_RX_STATUS s).1 &&& 0x01 = 0
    · simp only [h0, if_true]
      exact g1
    · simp only [h0, if_false]
      have hne : (vload8 env 0x10001008 s).1 ≠ 0 := by
        intro hz
        apply h0
        show (vload8 env 0x10001008 s).1 &&& 0x01 = 0
        rw [hz]
        rfl
      obtain ⟨d1, _⟩ := data_read_guarded env (vload8 env 0x10001008 s).2 g1 (g2 hne)
        (vload8 env CONSOLE_UART_RX (vload8 env CONSOLE_UART_RX_STATUS s).2).1 (ptr + i)
      exact ih _ _ d1

theorem console_getc_guarded (env : Env) (fuel : Nat) :
    ∀ (s : State) (c : Nat) (s' : State), console_getc env fuel s = some (c, s') →
      rxGuarded s.trace = true → rxGuarded s'.trace = true := by
  induction fuel with
  | zero => intro s c s' h; simp [console_getc] at h
  | succ fuel ih =>
    intro s c s' h hg
    obtain ⟨g1, g2⟩ := status_read_guarded env s hg
    rw [console_getc] at h
    by_cases h0 : (vload8 env 0x10001008 s).1 = 0
    · simp only [console_has_char, h0, ne_eq, not_true_eq_false, if_false, if_true] at h
      exact ih _ _ _ h g1
    · simp only [console_has_char, h0, ne_eq, not_false_eq_true, if_true, one_ne_zero,
        if_false, Option.some.injEq, Prod.mk.injEq] at h
      obtain ⟨_, rfl⟩ := h
      exact (data_read_guarded env (vload8 env 0x10001008 s).2 g1 (g2 h0) 0 0).2

/-- C23: from a state whose trace is guarded (every read of the RX data register
`0x10001004` immediately preceded by a read of the RX status register `0x10001008` that
returned a non-zero value), `_read` leaves a guarded trace, and so do `stdin_read` and
`console_getc` whenever they return: none of the three reads the data register except
right after a status read that reported data available. -/
theorem rx_data_read_guarded (env : Env) (s : State) (hg : rxGuarded s.trace = true) :
    (∀ fd ptr len, rxGuarded (_read env fd ptr len s).2.trace = true) ∧
    (∀ fuel fd buf count r s', stdin_read env fuel fd buf count s = some (r, s') →
      rxGuarded s'.trace = true) ∧
    (∀ fuel c s', console_getc env fuel s = some (c, s') → rxGuarded s'.trace = true) := by
  refine ⟨?_, ?_, fun fuel c s' h => console_getc_guarded env fuel s c s' h hg⟩
  · intro fd ptr len
    unfold _read
    split
    · exact read_loop_guarded env ptr len _ 0 s hg
    · exact hg
  · intro fuel fd buf count r s' h
    unfold stdin_read at h
    by_cases hc : count = 0
    · simp only [hc, if_true, Option.some.injEq, Prod.mk.injEq] at h
      rw [← h.2]; exact hg
    · simp only [hc, if_false] at h
      cases hw : stdin_wait env fuel s with
      | none => rw [hw] at h; simp at h
      | some s1 =>
        rw [hw] at h
        simp only [Option.some.injEq, Prod.mk.injEq] at h
        obtain ⟨w1, w2⟩ := stdin_wait_guarded env fuel s s1 hw hg
        obtain ⟨d1, _⟩ := data_read_guarded env s1 w1 w2
          (vload8 env CONSOLE_UART_RX s1).1 (buf + 0)
        rw [← h.2]
        exact stdin_loop_guarded env buf count _ 1 _ d1

/-- C23 on concrete runs from the empty trace, with a device that always has data. -/
theorem rx_data_read_guarded_witness :
    (∀ fd ptr len, rxGuarded (_read envReady fd ptr len s0).2.trace = true) ∧
    (∀ fuel fd buf count r s', stdin_read envReady fuel fd buf count s0 = some (r, s') →
      rxGuarded s'.trace = true) ∧
    (∀ fuel c s', console_getc envReady fuel s0 = some (c, s') → rxGuarded s'.trace = true) :=
  rx_data_read_guarded envReady s0 (by decide)

/-! ## C21: `strlen` and `strcpy` -/

theorem toInt32_idem (x : Int) : toInt32 (toInt32 x) = toInt32 x := by
  unfold toInt32
  omega

theorem toInt32_succ (x k : Int) : toInt32 (toInt32 (x + 1) + k) = toInt32 (x + (k + 1)) := by
  unfold toInt32
  omega

/-- The loop of `strlen` adds the length of the string to `len`, in 32-bit arithmetic. -/
theorem strlen_loop_spec (mem : Nat → Nat) (l : List Nat) :
    ∀ (s fuel : Nat) (len : Int), IsCString mem s l → l.length < fuel → toInt32 len = len →
      strlen_loop mem fuel s len = some (toInt32 (len + (l.length : Int))) := by
  induction l with
  | nil =>
    intro s fuel len h hf hlen
    obtain ⟨f, rfl⟩ : ∃ f, fuel = f + 1 := ⟨fuel - 1, by simp at hf; omega⟩
    have e := isCString_nil mem s h
    simp [strlen_loop, e, hlen]
  | cons a as ih =>
    intro s fuel len h hf hlen
    obtain ⟨f, rfl⟩ : ∃ f, fuel = f + 1 := ⟨fuel - 1, by simp at hf; omega⟩
    obtain ⟨e, ha0, _⟩ := isCString_head mem s a as h
    have hne : mem s % 256 ≠ 0 := by omega
    rw [strlen_loop, if_pos hne,
      ih (s + 1) f _ (isCString_tail mem s a as h) (by simp at hf; omega) (toInt32_idem _),
      toInt32_succ]
    simp only [List.length_cons, Nat.cast_add, Nat.cast_one]

theorem isCString_congr (mem mem' : Nat → Nat) (p : Nat) (l : List Nat)
    (h : IsCString mem p l) (hm : ∀ a, p ≤ a → a ≤ p + l.length → mem' a = mem a) :
    IsCString mem' p l := by
  obtain ⟨h1, h2, h3⟩ := h
  refine ⟨?_, h2, ?_⟩
  · intro i hi
    rw [hm (p + i) (by omega) (by omega)]
    exact h1 i hi
  · rw [hm (p + l.length) (by omega) le_rfl]
    exact h3

/-- The loop of `strcpy` on a destination that does not overlap the source. -/
theorem strcpy_loop_spec (l : List Nat) :
    ∀ (mem : Nat → Nat) (dest src fuel : Nat), IsCString mem src l → l.length < fuel →
      (dest + l.length < src ∨ src + l.length < dest) →
      ∃ mem', strcpy_loop fuel mem dest src = some mem' ∧
        (∀ i, i < l.length → mem' (dest + i) = l.getD i 0) ∧
        mem' (dest + l.length) = 0 ∧
        (∀ a, (a < dest ∨ dest + l.length < a) → mem' a = mem a) := by
  induction l with
  | nil =>
    intro mem dest src fuel h hf _
    obtain ⟨f, rfl⟩ : ∃ f, fuel = f + 1 := ⟨fuel - 1, by simp at hf; omega⟩
    have e := isCString_nil mem src h
    refine ⟨fun a => if a = dest then mem src % 256 else mem a, ?_, ?_, ?_, ?_⟩
    · simp [strcpy_loop, e]
    · intro i hi; simp at hi
    · simp [e]
    · intro a ha
      simp only [List.length_nil, Nat.add_zero] at ha
      dsimp only
      rw [if_neg (by omega)]
  | cons c cs ih =>
    intro mem dest src fuel h hf hd
    obtain ⟨f, rfl⟩ : ∃ f, fuel = f + 1 := ⟨fuel - 1, by simp at hf; omega⟩
    obtain ⟨e, hc0, _⟩ := isCString_head mem src c cs h
    have hne : mem src % 256 ≠ 0 := by omega
    simp only [List.length_cons] at hd hf
    have ht : IsCString (fun a => if a = dest then mem src % 256 else mem a) (src + 1) cs := by
      apply isCString_congr mem _ (src + 1) cs (isCString_tail mem src c cs h)
      intro a h1 h2
      rw [if_neg (by omega)]
    obtain ⟨mem', g1, g2, g3, g4⟩ := ih _ (dest + 1) (src + 1) f ht (by omega) (by omega)
    refine ⟨mem', ?_, ?_, ?_, ?_⟩
    · rw [strcpy_loop, if_pos hne]
      exact g1
    · intro i hi
      cases i with
      | zero =>
        rw [Nat.add_zero, g4 dest (Or.inl (by omega)), if_pos rfl, e]
        rfl
      | succ i =>
        simp only [List.length_cons] at hi
        rw [show dest + (i + 1) = dest + 1 + i by omega, g2 i (by omega)]
        rfl
    · rw [show dest + (c :: cs).length = dest + 1 + cs.length by simp; omega]
      exact g3
    · intro a ha
      simp only [List.length_cons] at ha
      rw [g4 a (by omega), if_neg (by omega)]

/-- C21 (amended): for every NUL-terminated `src` of length `n <= 2^31 - 1` and every
`dest` whose `n + 1` bytes do not overlap those of `src`: `strlen(src) = n`;
`strcpy(dest, src)` returns `dest` after writing exactly `dest[0..n]` (the `n` characters
and the terminating NUL, nothing else), and afterwards `strcmp(dest, src) = 0` and
`strlen(dest) = n`.  Any fuel above `n` suffices for each loop. -/
theorem strcpy_strlen_spec (mem : Nat → Nat) (src dest : Nat) (l : List Nat) (fuel : Nat)
    (h : IsCString mem src l) (hn : l.length ≤ 2147483647) (hf : l.length < fuel)
    (hd : dest + l.length < src ∨ src + l.length < dest) :
    strlen mem fuel src = some (l.length : Int) ∧
    ∃ mem', strcpy mem fuel dest src = some (dest, mem') ∧
      (∀ i, i < l.length → mem' (dest + i) = l.getD i 0) ∧
      mem' (dest + l.length) = 0 ∧
      (∀ a, (a < dest ∨ dest + l.length < a) → mem' a = mem a) ∧
      strcmp mem' fuel dest src = some 0 ∧
      strlen mem' fuel dest = some (l.length : Int) := by
  have hlen : toInt32 ((0 : Int) + (l.length : Int)) = (l.length : Int) := by
    unfold toInt32; omega
  have hz : toInt32 0 = 0 := by decide
  obtain ⟨mem', g1, g2, g3, g4⟩ := strcpy_loop_spec l mem dest src fuel h hf hd
  have hsrc : IsCString mem' src l :=
    isCString_congr mem mem' src l h (fun a h1 h2 => g4 a (by omega))
  have hdest : IsCString mem' dest l := by
    refine ⟨?_, h.2.1, by rw [g3]⟩
    intro i hi
    rw [g2 i hi]
    have := h.2.1 (l.getD i 0) (by
      rw [List.getD_eq_getElem _ _ hi]
      exact List.getElem_mem _)
    omega
  refine ⟨?_, mem', ?_, g2, g3, g4, ?_, ?_⟩
  · rw [strlen, strlen_loop_spec mem l src fuel 0 h hf hz, hlen]
  · simp only [strcpy, g1]
  · obtain ⟨r, k, c1, c2, _⟩ := strcmp_core mem' l l dest src fuel hdest hsrc hf
    rw [c1, c2.mpr rfl]
  · rw [strlen, strlen_loop_spec mem' l dest fuel 0 hdest hf hz, hlen]

theorem strcpy_strlen_spec_witness :
    strlen memAb 3 0x80000101 = some (([97, 98] : List Nat).length : Int) ∧
    ∃ mem', strcpy memAb 3 0x80000200 0x80000101 = some (0x80000200, mem') ∧
      (∀ i, i < ([97, 98] : List Nat).length → mem' (0x80000200 + i) = [97, 98].getD i 0) ∧
      mem' (0x80000200 + ([97, 98] : List Nat).length) = 0 ∧
      (∀ a, (a < 0x80000200 ∨ 0x80000200 + ([97, 98] : List Nat).length < a) →
        mem' a = memAb a) ∧
      strcmp mem' 3 0x80000200 0x80000101 = some 0 ∧
      strlen mem' 3 0x80000200 = some (([97, 98] : List Nat).length : Int) :=
  strcpy_strlen_spec memAb 0x80000101 0x80000200 [97, 98] 3 (by decide) (by decide)
    (by decide) (by decide)

theorem isCString_ones (n : Nat) :
    IsCString (fun a => if a < n then 1 else 0) 0 (List.replicate n 1) := by
  refine ⟨?_, ?_, ?_⟩
  · intro i hi
    rw [List.length_replicate] at hi
    have e : (List.replicate n 1).getD i 0 = 1 := by
      rw [List.getD_eq_getElem _ _ (by rw [List.length_replicate]; exact hi)]
      simp
    rw [e]
    simp [hi]
  · intro c hc
    rw [List.eq_of_mem_replicate hc]
    omega
  · rw [List.length_replicate]
    simp

theorem strlen_ones (n : Nat) :
    strlen (fun a => if a < n then 1 else 0) (n + 1) 0 = some (toInt32 (n : Int)) := by
  have hz : toInt32 0 = 0 := by decide
  rw [strlen, strlen_loop_spec _ (List.replicate n 1) 0 (n + 1) 0 (isCString_ones n)
    (by rw [List.length_replicate]; omega) hz, List.length_replicate, Int.zero_add]

/-- C21 as stated fails in two ways.  With "ab" at `0x80000101` and `dest = 0x80000100`,
which overlaps it, `strcpy(dest, src)` overwrites the source and afterwards
`strcmp(dest, src) = -1`.  And for a string of `2^31` characters the `int` counter of
`strlen` wraps: `strlen` returns `-2^31`. -/
theorem strcpy_strlen_counterexample :
    IsCString memAb 0x80000101 [97, 98] ∧
    (∃ mem', strcpy memAb 4 0x80000100 0x80000101 = some (0x80000100, mem') ∧
      strcmp mem' 4 0x80000100 0x80000101 = some (-1)) ∧
    IsCString memOnes 0 (List.replicate 2147483648 1) ∧
    strlen memOnes 2147483649 0 = some (-2147483648) :=
  ⟨by decide, ⟨_, rfl, by decide⟩, isCString_ones 2147483648, strlen_ones 2147483648⟩

/-! ## C29: `parse_num` -/

theorem decFold_ge (ds : List Nat) : ∀ v : Nat, v ≤ ds.foldl (fun acc d => 10 * acc + d) v := by
  induction ds with
  | nil => intro v; exact le_rfl
  | cons d ds ih =>
    intro v
    have := ih (10 * v + d)
    simp only [List.foldl_cons]
    omega

/-- The digit loop of `parse_num` on a run of digits that ends the string or is followed
by a character that is not a digit. -/
theorem parse_num_loop_spec (mem : Nat → Nat) (tail : List Nat)
    (htail : ∀ c, tail.head? = some c → ¬ (48 ≤ c ∧ c ≤ 57)) (ds : List Nat) :
    ∀ (s fuel v : Nat), IsCString mem s (ds.map (fun d => 48 + d) ++ tail) →
      (∀ d ∈ ds, d < 10) → ds.length < fuel →
      ds.foldl (fun acc d => 10 * acc + d) v ≤ 2147483647 →
      parse_num_loop mem fuel s (v : Int)
        = some ((ds.foldl (fun acc d => 10 * acc + d) v : Nat) : Int) := by
  induction ds with
  | nil =>
    intro s fuel v h _ hf _
    obtain ⟨f, rfl⟩ : ∃ f, fuel = f + 1 := ⟨fuel - 1, by simp at hf; omega⟩
    have hnd : ¬ (mem s % 256 ≥ 48 ∧ mem s % 256 ≤ 57) := by
      cases tail with
      | nil =>
        have := isCString_nil mem s h
        omega
      | cons c t =>
        obtain ⟨e, _, _⟩ := isCString_head mem s c t h
        have := htail c rfl
        omega
    simp [parse_num_loop, hnd]
  | cons d ds ih =>
    intro s fuel v h hd hf hb
    obtain ⟨f, rfl⟩ : ∃ f, fuel = f + 1 := ⟨fuel - 1, by simp at hf; omega⟩
    have h' : IsCString mem s ((48 + d) :: (ds.map (fun d => 48 + d) ++ tail)) := h
    obtain ⟨e, _, _⟩ := isCString_head mem s _ _ h'
    have hd10 : d < 10 := hd d (List.mem_cons_self d ds)
    have hdig : mem s % 256 ≥ 48 ∧ mem s % 256 ≤ 57 := by omega
    simp only [List.foldl_cons] at hb ⊢
    have hge := decFold_ge ds (10 * v + d)
    have hv : toInt32 ((v : Int) * 10 + (((mem s % 256 : Nat) : Int) - 48))
        = ((10 * v + d : Nat) : Int) := by
      rw [e]
      unfold toInt32
      omega
    rw [parse_num_loop, if_pos hdig, hv]
    exact ih (s + 1) f (10 * v + d) (isCString_tail mem s _ _ h')
      (fun x hx => hd x (List.mem_cons_of_mem d hx)) (by simp at hf; omega) hb

/-- C29: for a NUL-terminated string made of an optional `'-'`, decimal digits `ds` that
denote a number `decValue ds <= 2^31 - 1`, and a tail that is empty or starts with a
character other than a digit (other than `'-'` too when the string has neither sign nor
digit), `parse_num` returns `decValue ds`, negated when the `'-'` is there (any fuel above
the number of digits suffices); in particular it returns `0` when there is no digit in
that position (empty string, "-", or any other first character such as `'+'`). -/
theorem parse_num_spec (mem : Nat → Nat) (s : Nat) (neg : Bool) (ds tail : List Nat) (fuel : Nat)
    (h : IsCString mem s (numeralText neg ds tail))
    (hd : ∀ d ∈ ds, d < 10)
    (htail : ∀ c, tail.head? = some c → ¬ (48 ≤ c ∧ c ≤ 57))
    (hminus : neg = false → ds = [] → tail.head? ≠ some 45)
    (hv : decValue ds ≤ 2147483647) (hf : ds.length < fuel) :
    parse_num mem fuel s
      = some (if neg then -((decValue ds : Nat) : Int) else ((decValue ds : Nat) : Int)) ∧
    (ds = [] → parse_num mem fuel s = some 0) := by
  have main : parse_num mem fuel s
      = some (if neg then -((decValue ds : Nat) : Int) else ((decValue ds : Nat) : Int)) := by
    cases neg with
    | true =>
      have h' : IsCString mem s (45 :: (ds.map (fun d => 48 + d) ++ tail)) := h
      obtain ⟨e, _, _⟩ := isCString_head mem s _ _ h'
      have hl := parse_num_loop_spec mem tail htail ds (s + 1) fuel 0
        (isCString_tail mem s _ _ h') hd hf hv
      have hn : toInt32 (-((decValue ds : Nat) : Int)) = -((decValue ds : Nat) : Int) := by
        unfold toInt32; omega
      rw [Nat.cast_zero] at hl
      simp only [parse_num, e, if_true]
      rw [hl]
      simp only [decValue, if_true] at hn ⊢
      rw [hn]
    | false =>
      have h' : IsCString mem s (ds.map (fun d => 48 + d) ++ tail) := h
      have e : mem s % 256 ≠ 45 := by
        cases ds with
        | nil =>
          cases tail with
          | nil =>
            have := isCString_nil mem s h'
            omega
          | cons c t =>
            obtain ⟨e, _, _⟩ := isCString_head mem s c t h'
            have := hminus rfl rfl
            intro hc
            apply this
            rw [← e, hc]
            rfl
        | cons d ds =>
          have h2 : IsCString mem s ((48 + d) :: (ds.map (fun d => 48 + d) ++ tail)) := h'
          obtain ⟨e, _, _⟩ := isCString_head mem s _ _ h2
          have := hd d (List.mem_cons_self d ds)
          omega
      have hl := parse_num_loop_spec mem tail htail ds s fuel 0 h' hd hf hv
      rw [Nat.cast_zero] at hl
      simp only [parse_num, e, if_false]
      rw [hl]
      simp [decValue]
  refine ⟨main, ?_⟩
  intro hnil
  subst hnil
  rw [main]
  cases neg <;> simp [decValue]

theorem parse_num_spec_witness :
    parse_num memNum 3 0x80000300
      = some (if true then -((decValue [4, 2] : Nat) : Int) else ((decValue [4, 2] : Nat) : Int)) ∧
    (([4, 2] : List Nat) = [] → parse_num memNum 3 0x80000300 = some 0) :=
  parse_num_spec memNum 0x80000300 true [4, 2] [120] 3 (by decide) (by decide) (by decide)
    (by decide) (by decide) (by decide)

/-! ## C30: `read_line` -/

/-- What `console_getc` returns, when it returns: the next byte of the data register; it
changes neither memory nor `errno`. -/
theorem console_getc_spec (env : Env) (fuel : Nat) :
    ∀ (s : State) (c : Nat) (s' : State), console_getc env fuel s = some (c, s') →
      c = env.dev 0x10001004 (s.cnt 0x10001004) % 256 ∧
      s'.cnt 0x10001004 = s.cnt 0x10001004 + 1 ∧ s'.mem = s.mem ∧ s'.errno = s.errno := by
  induction fuel with
  | zero => intro s c s' h; simp [console_getc] at h
  | succ fuel ih =>
    intro s c s' h
    rw [console_getc] at h
    by_cases h0 : (vload8 env 0x10001008 s).1 = 0
    · simp only [console_has_char, h0, ne_eq, not_true_eq_false, if_false, if_true] at h
      obtain ⟨g1, g2, g3, g4⟩ := ih _ _ _ h
      have e : (vload8 env 0x10001008 s).2.cnt 0x10001004 = s.cnt 0x10001004 := by
        simp [vload8]
      rw [e] at g1 g2
      exact ⟨g1, g2, g3, g4⟩
    · simp only [console_has_char, h0, ne_eq, not_false_eq_true, if_true, one_ne_zero,
        if_false, Option.some.injEq, Prod.mk.injEq] at h
      obtain ⟨rfl, rfl⟩ := h
      refine ⟨?_, ?_, rfl, rfl⟩ <;> simp [vload8]

/-- The function `console_getc` returns when a status read within its fuel is not `0`. -/
theorem console_getc_returns (env : Env) (fuel : Nat) :
    ∀ (s : State), (∃ k, k < fuel ∧ env.dev 0x10001008 (s.cnt 0x10001008 + k) % 256 ≠ 0) →
      ∃ c s', console_getc env fuel s = some (c, s') := by
  induction fuel with
  | zero => intro s ⟨k, hk, _⟩; omega
  | succ fuel ih =>
    intro s ⟨k, hk, hv⟩
    rw [console_getc]
    by_cases h0 : (vload8 env 0x10001008 s).1 = 0
    · simp only [console_has_char, h0, ne_eq, not_true_eq_false, if_false, if_true]
      have hk0 : k ≠ 0 := by
        intro hz
        subst hz
        apply hv
        simpa [vload8] using h0
      apply ih
      refine ⟨k - 1, by omega, ?_⟩
      have e : (vload8 env 0x10001008 s).2.cnt 0x10001008 = s.cnt 0x10001008 + 1 := by
        simp [vload8]
      rw [e, show s.cnt 0x10001008 + 1 + (k - 1) = s.cnt 0x10001008 + k by omega]
      exact hv
    · simp only [console_has_char, h0, ne_eq, not_false_eq_true, if_true, one_ne_zero,
        if_false]
      exact ⟨_, _, rfl⟩

theorem console_out_frame (c : Nat) (s : State) :
    (console_putc c s).mem = s.mem ∧ (console_putc c s).cnt = s.cnt ∧
    (console_puts [13, 10] (console_putc c s)).mem = s.mem ∧
    (console_puts [13, 10] (console_putc c s)).cnt = s.cnt ∧
    (console_puts [32, 8] (console_putc c s)).mem = s.mem ∧
    (console_puts [32, 8] (console_putc c s)).cnt = s.cnt := by
  simp [console_puts, console_putc, vstore8]

/-- Safety of the loop of `read_line`: from an index in `0..max_len-1` with plain
characters below it, the loop ends with such an index, writes only below `buf + max_len - 1`
and keeps `i` in `0..max_len-2` at the start of every iteration. -/
theorem read_line_loop_safe (env : Env) (wait buf : Nat) (max_len : Int)
    (h1 : 1 ≤ max_len) (hmax : max_len ≤ 2147483647) (fuel : Nat) :
    ∀ (i : Int) (hist : List Int) (s : State) (n : Int) (hist' : List Int) (s' : State),
      read_line_loop env wait buf max_len fuel i hist s = some (n, hist', s') →
      0 ≤ i → i ≤ max_len - 1 →
      (∀ j : Nat, (j : Int) < i → isPlainChar (s.mem (buf + j) % 256) = true) →
      (∀ v ∈ hist, 0 ≤ v ∧ v < max_len - 1) →
      0 ≤ n ∧ n ≤ max_len - 1 ∧
      (∀ j : Nat, (j : Int) < n → isPlainChar (s'.mem (buf + j) % 256) = true) ∧
      (∀ a, (a < buf ∨ buf + (max_len - 1).toNat ≤ a) → s'.mem a = s.mem a) ∧
      (∀ v ∈ hist', 0 ≤ v ∧ v < max_len - 1) ∧
      s'.errno = s.errno := by
  have hM : toInt32 (max_len - 1) = max_len - 1 := by unfold toInt32; omega
  induction fuel with
  | zero => intro i hist s n hist' s' h; simp [read_line_loop] at h
  | succ fuel ih =>
    intro i hist s n hist' s' h hi0 hiM hplain hhist
    rw [read_line_loop, hM] at h
    by_cases hlt : i < max_len - 1
    · simp only [hlt, if_true] at h
      cases hg : console_getc env wait s with
      | none => rw [hg] at h; simp at h
      | some r =>
        obtain ⟨c, s1⟩ := r
        rw [hg] at h
        obtain ⟨gc, _, gmem, gerr⟩ := console_getc_spec env wait s c s1 hg
        obtain ⟨f1, _, f3, _, f5, _⟩ := console_out_frame c s1
        have hc256 : c < 256 := by rw [gc]; exact Nat.mod_lt _ (by norm_num)
        have hhist2 : ∀ v ∈ hist ++ [i], 0 ≤ v ∧ v < max_len - 1 := by
          intro v hv
          rcases List.mem_append.mp hv with hv | hv
          · exact hhist v hv
          · simp only [List.mem_singleton] at hv
            subst hv
            exact ⟨hi0, hlt⟩
        simp only [] at h
        by_cases hcr : c = 13 ∨ c = 10
        · simp only [hcr, if_true, Option.some.injEq, Prod.mk.injEq] at h
          obtain ⟨rfl, rfl, rfl⟩ := h
          refine ⟨hi0, hiM, ?_, ?_, hhist2, ?_⟩
          · intro j hj; rw [f3, gmem]; exact hplain j hj
          · intro a _; rw [f3, gmem]
          · rw [← gerr]; rfl
        · simp only [hcr, if_false] at h
          by_cases hbs : c = 8 ∨ c = 127
          · simp only [hbs, if_true] at h
            by_cases hpos : i > 0
            · simp only [hpos, if_true] at h
              obtain ⟨r1, r2, r3, r4, r5, r6⟩ := ih (i - 1) _ _ n hist' s' h (by omega) (by omega)
                (by intro j hj; rw [f5, gmem]; exact hplain j (by omega)) hhist2
              refine ⟨r1, r2, r3, ?_, r5, ?_⟩
              · intro a ha; rw [r4 a ha, f5, gmem]
              · rw [r6, ← gerr]; rfl
            · simp only [hpos, if_false] at h
              obtain ⟨r1, r2, r3, r4, r5, r6⟩ := ih i _ _ n hist' s' h hi0 hiM
                (by intro j hj; rw [f1, gmem]; exact hplain j hj) hhist2
              refine ⟨r1, r2, r3, ?_, r5, ?_⟩
              · intro a ha; rw [r4 a ha, f1, gmem]
              · rw [r6, ← gerr]; rfl
          · simp only [hbs, if_false] at h
            have hst : ∀ a, (ramStore (buf + i.toNat) c (console_putc c s1)).mem a
                = if a = buf + i.toNat then c else s.mem a := by
              intro a
              simp only [ramStore, f1, gmem, Nat.mod_eq_of_lt hc256]
            obtain ⟨r1, r2, r3, r4, r5, r6⟩ := ih (i + 1) _ _ n hist' s' h (by omega) (by omega)
              (by
                intro j hj
                rw [hst]
                by_cases hj' : buf + j = buf + i.toNat
                · rw [if_pos hj', Nat.mod_eq_of_lt hc256]
                  have e1 : c ≠ 13 ∧ c ≠ 10 := by omega
                  have e2 : c ≠ 8 ∧ c ≠ 127 := by omega
                  simp [isPlainChar, e1.1, e1.2, e2.1, e2.2]
                · rw [if_neg hj']
                  exact hplain j (by omega)) hhist2
            refine ⟨r1, r2, r3, ?_, r5, ?_⟩
            · intro a ha
              rw [r4 a ha, hst, if_neg (by omega)]
            · rw [r6]
              show s1.errno = s.errno
              exact gerr
    · simp only [hlt, if_false, Option.some.injEq, Prod.mk.injEq] at h
      obtain ⟨rfl, rfl, rfl⟩ := h
      exact ⟨hi0, hiM, hplain, fun _ _ => rfl, hhist, rfl⟩

/-- When the loop of `read_line` ends: after consuming `m` bytes of the data register, none
of which but the last is CR or LF; and either the last one is CR or LF, or none is and the
loop test `i < max_len - 1` has failed. -/
theorem read_line_loop_consumed (env : Env) (wait buf : Nat) (max_len : Int) (fuel : Nat) :
    ∀ (i : Int) (hist : List Int) (s : State) (n : Int) (hist' : List Int) (s' : State),
      read_line_loop env wait buf max_len fuel i hist s = some (n, hist', s') →
      ∃ m, s'.cnt 0x10001004 = s.cnt 0x10001004 + m ∧
        (∀ j, j + 1 < m → ¬ (env.dev 0x10001004 (s.cnt 0x10001004 + j) % 256 = 13 ∨
          env.dev 0x10001004 (s.cnt 0x10001004 + j) % 256 = 10)) ∧
        ((0 < m ∧ (env.dev 0x10001004 (s.cnt 0x10001004 + (m - 1)) % 256 = 13 ∨
            env.dev 0x10001004 (s.cnt 0x10001004 + (m - 1)) % 256 = 10)) ∨
         (¬ n < toInt32 (max_len - 1) ∧
            ∀ j, j < m → ¬ (env.dev 0x10001004 (s.cnt 0x10001004 + j) % 256 = 13 ∨
              env.dev 0x10001004 (s.cnt 0x10001004 + j) % 256 = 10))) := by
  induction fuel with
  | zero => intro i hist s n hist' s' h; simp [read_line_loop] at h
  | succ fuel ih =>
    intro i hist s n hist' s' h
    rw [read_line_loop] at h
    by_cases hlt : i < toInt32 (max_len - 1)
    · simp only [hlt, if_true] at h
      cases hg : console_getc env wait s with
      | none => rw [hg] at h; simp at h
      | some r =>
        obtain ⟨c, s1⟩ := r
        rw [hg] at h
        obtain ⟨gc, gcnt, _, _⟩ := console_getc_spec env wait s c s1 hg
        obtain ⟨_, f2, _, f4, _, f6⟩ := console_out_frame c s1
        simp only [] at h
        by_cases hcr : c = 13 ∨ c = 10
        · simp only [hcr, if_true, Option.some.injEq, Prod.mk.injEq] at h
          obtain ⟨rfl, rfl, rfl⟩ := h
          refine ⟨1, by rw [f4, gcnt], fun j hj => by omega, Or.inl ⟨by omega, ?_⟩⟩
          rw [Nat.sub_self, Nat.add_zero, ← gc]
          exact hcr
        · have step : ∀ (i2 : Int) (hist2 : List Int) (s2 : State),
              s2.cnt 0x10001004 = s.cnt 0x10001004 + 1 →
              read_line_loop env wait buf max_len fuel i2 hist2 s2 = some (n, hist', s') →
              ∃ m, s'.cnt 0x10001004 = s.cnt 0x10001004 + m ∧
                (∀ j, j + 1 < m → ¬ (env.dev 0x10001004 (s.cnt 0x10001004 + j) % 256 = 13 ∨
                  env.dev 0x10001004 (s.cnt 0x10001004 + j) % 256 = 10)) ∧
                ((0 < m ∧ (env.dev 0x10001004 (s.cnt 0x10001004 + (m - 1)) % 256 = 13 ∨
                    env.dev 0x10001004 (s.cnt 0x10001004 + (m - 1)) % 256 = 10)) ∨
                 (¬ n < toInt32 (max_len - 1) ∧
                    ∀ j, j < m → ¬ (env.dev 0x10001004 (s.cnt 0x10001004 + j) % 256 = 13 ∨
                      env.dev 0x10001004 (s.cnt 0x10001004 + j) % 256 = 10))) := by
            intro i2 hist2 s2 hc2 h2
            obtain ⟨m, p1, p2, p3⟩ := ih i2 hist2 s2 n hist' s' h2
            rw [hc2] at p1 p2 p3
            have hc0 : ¬ (env.dev 0x10001004 (s.cnt 0x10001004 + 0) % 256 = 13 ∨
                env.dev 0x10001004 (s.cnt 0x10001004 + 0) % 256 = 10) := by
              rw [Nat.add_zero, ← gc]; exact hcr
            have shift : ∀ j, j ≠ 0 →
                s.cnt 0x10001004 + j = s.cnt 0x10001004 + 1 + (j - 1) := by
              intro j hj; omega
            refine ⟨m + 1, by omega, ?_, ?_⟩
            · intro j hj
              by_cases hj0 : j = 0
              · subst hj0; exact hc0
              · rw [shift j hj0]; exact p2 (j - 1) (by omega)
            · rcases p3 with ⟨q1, q2⟩ | ⟨q1, q2⟩
              · left
                refine ⟨by omega, ?_⟩
                rw [show s.cnt 0x10001004 + (m + 1 - 1) = s.cnt 0x10001004 + 1 + (m - 1) by omega]
                exact q2
              · right
                refine ⟨q1, ?_⟩
                intro j hj
                by_cases hj0 : j = 0
                · subst hj0; exact hc0
                · rw [shift j hj0]; exact q2 (j - 1) (by omega)
          simp only [hcr, if_false] at h
          by_cases hbs : c = 8 ∨ c = 127
          · simp only [hbs, if_true] at h
            by_cases hpos : i > 0
            · simp only [hpos, if_true] at h
              exact step _ _ _ (by rw [f6, gcnt]) h
            · simp only [hpos, if_false] at h
              exact step _ _ _ (by rw [f2, gcnt]) h
          · simp only [hbs, if_false] at h
            exact step _ _ _ (by
              show (console_putc c s1).cnt 0x10001004 = _
              rw [f2, gcnt]) h
    · simp only [hlt, if_false, Option.some.injEq, Prod.mk.injEq] at h
      obtain ⟨rfl, rfl, rfl⟩ := h
      exact ⟨0, rfl, fun j hj => by omega, Or.inr ⟨hlt, fun j hj => by omega⟩⟩

/-- The loop of `read_line` returns when every wait for a character ends within `wait`
status reads and a CR or LF is among the next `fuel` bytes of the data register. -/
theorem read_line_loop_returns (env : Env) (wait buf : Nat) (max_len : Int)
    (hw : ∀ j, ∃ k, k < wait ∧ env.dev 0x10001008 (j + k) % 256 ≠ 0) (m : Nat) :
    ∀ (fuel : Nat) (i : Int) (hist : List Int) (s : State), m < fuel →
      (env.dev 0x10001004 (s.cnt 0x10001004 + m) % 256 = 13 ∨
        env.dev 0x10001004 (s.cnt 0x10001004 + m) % 256 = 10) →
      ∃ r, read_line_loop env wait buf max_len fuel i hist s = some r := by
  induction m with
  | zero =>
    intro fuel i hist s hf hcr
    obtain ⟨f, rfl⟩ : ∃ f, fuel = f + 1 := ⟨fuel - 1, by omega⟩
    rw [read_line_loop]
    by_cases hlt : i < toInt32 (max_len - 1)
    · obtain ⟨c, s1, hg⟩ := console_getc_returns env wait s (hw _)
      obtain ⟨gc, _, _, _⟩ := console_getc_spec env wait s c s1 hg
      rw [Nat.add_zero, ← gc] at hcr
      simp only [hlt, if_true, hg, hcr]
      exact ⟨_, rfl⟩
    · simp only [hlt, if_false]
      exact ⟨_, rfl⟩
  | succ m ih =>
    intro fuel i hist s hf hcr
    obtain ⟨f, rfl⟩ : ∃ f, fuel = f + 1 := ⟨fuel - 1, by omega⟩
    rw [read_line_loop]
    by_cases hlt : i < toInt32 (max_len - 1)
    · obtain ⟨c, s1, hg⟩ := console_getc_returns env wait s (hw _)
      obtain ⟨_, gcnt, _, _⟩ := console_getc_spec env wait s c s1 hg
      obtain ⟨_, f2, _, _, _, f6⟩ := console_out_frame c s1
      have next : ∀ (i2 : Int) (hist2 : List Int) (s2 : State),
          s2.cnt 0x10001004 = s.cnt 0x10001004 + 1 →
          ∃ r, read_line_loop env wait buf max_len f i2 hist2 s2 = some r := by
        intro i2 hist2 s2 hc2
        apply ih f i2 hist2 s2 (by omega)
        rw [hc2, show s.cnt 0x10001004 + 1 + m = s.cnt 0x10001004 + (m + 1) by omega]
        exact hcr
      simp only [hlt, if_true, hg]
      by_cases hc : c = 13 ∨ c = 10
      · simp only [hc, if_true]
        exact ⟨_, rfl⟩
      · simp only [hc, if_false]
        by_cases hbs : c = 8 ∨ c = 127
        · simp only [hbs, if_true]
          by_cases hpos : i > 0
          · simp only [hpos, if_true]
            exact next _ _ _ (by rw [f6, gcnt])
          · simp only [hpos, if_false]
            exact next _ _ _ (by rw [f2, gcnt])
        · simp only [hbs, if_false]
          exact next _ _ _ (by
            show (console_putc c s1).cnt 0x10001004 = _
            rw [f2, gcnt])
    · simp only [hlt, if_false]
      exact ⟨_, rfl⟩

theorem isCString_cons (mem : Nat → Nat) (p c : Nat) (l : List Nat)
    (hc : mem p % 256 = c) (h0 : 0 < c) (h : IsCString mem (p + 1) l) :
    IsCString mem p (c :: l) := by
  obtain ⟨h1, h2, h3⟩ := h
  refine ⟨?_, ?_, ?_⟩
  · intro i hi
    cases i with
    | zero => simpa using hc
    | succ i =>
      simp only [List.length_cons] at hi
      have := h1 i (by omega)
      rw [show p + 1 + i = p + (i + 1) by omega] at this
      rw [this]
      rfl
  · intro x hx
    rcases List.mem_cons.mp hx with rfl | hx
    · exact ⟨h0, by rw [← hc]; exact Nat.mod_lt _ (by norm_num)⟩
    · exact h2 x hx
  · rw [show p + (c :: l).length = p + 1 + l.length by simp; omega]
    exact h3

/-- A buffer with a NUL at offset `n` holds a NUL-terminated string of at most `n`
characters, all of them among its first `n` bytes. -/
theorem exists_cstring_upto (mem : Nat → Nat) (n : Nat) :
    ∀ p, mem (p + n) % 256 = 0 →
      ∃ l, IsCString mem p l ∧ l.length ≤ n ∧
        ∀ c ∈ l, ∃ j, j < n ∧ c = mem (p + j) % 256 := by
  induction n with
  | zero =>
    intro p h
    exact ⟨[], ⟨fun i hi => by simp at hi, fun c hc => by simp at hc, by simpa using h⟩,
      le_rfl, fun c hc => by simp at hc⟩
  | succ n ih =>
    intro p h
    by_cases hz : mem p % 256 = 0
    · exact ⟨[], ⟨fun i hi => by simp at hi, fun c hc => by simp at hc, by simpa using hz⟩,
        Nat.zero_le _, fun c hc => by simp at hc⟩
    · obtain ⟨l, g1, g2, g3⟩ := ih (p + 1) (by rw [show p + 1 + n = p + (n + 1) by omega]; exact h)
      refine ⟨mem p % 256 :: l, isCString_cons mem p _ l rfl (by omega) g1, by simp; omega, ?_⟩
      intro c hc
      rcases List.mem_cons.mp hc with rfl | hc
      · exact ⟨0, by omega, rfl⟩
      · obtain ⟨j, hj, e⟩ := g3 c hc
        exact ⟨j + 1, by omega, by rw [e, show p + 1 + j = p + (j + 1) by omega]⟩

/-- C30: for every `max_len >= 1` and whatever the console delivers, when `read_line`
returns: its index `i` was in `0..max_len-2` at the start of every iteration and ends in
`0..max_len-1` (a backspace or DEL at `i = 0` does not take it below `0`); memory outside
`buf[0..max_len-1]` is as before; `buf` holds a NUL-terminated string of at most
`max_len - 1` characters, none of them CR, LF, backspace or DEL; and of the `m` characters
it consumed none but the last is CR or LF, the last one being CR or LF unless
`i = max_len - 1` characters are held.  It does return (with enough fuel) when every wait
for a character ends within `wait` status reads and a CR or LF arrives. -/
theorem read_line_spec (env : Env) (wait fuel buf : Nat) (max_len : Int) (s : State)
    (h1 : 1 ≤ max_len) (hmax : max_len ≤ 2147483647) :
    (∀ n hist s', read_line env wait fuel buf max_len s = some (n, hist, s') →
      (∀ v ∈ hist, 0 ≤ v ∧ v < max_len - 1) ∧ 0 ≤ n ∧ n ≤ max_len - 1 ∧
      (∀ a, (a < buf ∨ buf + max_len.toNat ≤ a) → s'.mem a = s.mem a) ∧
      s'.errno = s.errno ∧
      (∃ l, IsCString s'.mem buf l ∧ (l.length : Int) ≤ max_len - 1 ∧
        ∀ c ∈ l, isPlainChar c = true) ∧
      (∃ m, s'.cnt 0x10001004 = s.cnt 0x10001004 + m ∧
        (∀ j, j + 1 < m → ¬ (env.dev 0x10001004 (s.cnt 0x10001004 + j) % 256 = 13 ∨
          env.dev 0x10001004 (s.cnt 0x10001004 + j) % 256 = 10)) ∧
        ((0 < m ∧ (env.dev 0x10001004 (s.cnt 0x10001004 + (m - 1)) % 256 = 13 ∨
            env.dev 0x10001004 (s.cnt 0x10001004 + (m - 1)) % 256 = 10)) ∨
         (n = max_len - 1 ∧
            ∀ j, j < m → ¬ (env.dev 0x10001004 (s.cnt 0x10001004 + j) % 256 = 13 ∨
              env.dev 0x10001004 (s.cnt 0x10001004 + j) % 256 = 10))))) ∧
    ((∀ j, ∃ k, k < wait ∧ env.dev 0x10001008 (j + k) % 256 ≠ 0) →
      ∀ m, m < fuel →
        (env.dev 0x10001004 (s.cnt 0x10001004 + m) % 256 = 13 ∨
          env.dev 0x10001004 (s.cnt 0x10001004 + m) % 256 = 10) →
        ∃ r, read_line env wait fuel buf max_len s = some r) := by
  have hM : toInt32 (max_len - 1) = max_len - 1 := by unfold toInt32; omega
  constructor
  · intro n hist s' h
    unfold read_line at h
    cases hl : read_line_loop env wait buf max_len fuel 0 [] s with
    | none => rw [hl] at h; simp at h
    | some r =>
      obtain ⟨n1, hist1, s1⟩ := r
      rw [hl] at h
      simp only [Option.some.injEq, Prod.mk.injEq] at h
      obtain ⟨rfl, rfl, rfl⟩ := h
      obtain ⟨r1, r2, r3, r4, r5, r6⟩ := read_line_loop_safe env wait buf max_len h1 hmax fuel
        0 [] s n1 hist1 s1 hl le_rfl (by omega) (fun j hj => by omega)
        (fun v hv => by simp at hv)
      obtain ⟨m, c1, c2, c3⟩ := read_line_loop_consumed env wait buf max_len fuel
        0 [] s n1 hist1 s1 hl
      have hmem : ∀ a, (ramStore (buf + n1.toNat) 0 s1).mem a
          = if a = buf + n1.toNat then 0 else s1.mem a := by
        intro a; simp [ramStore]
      refine ⟨r5, r1, r2, ?_, r6, ?_, m, c1, c2, ?_⟩
      · intro a ha
        rw [hmem, if_neg (by omega), r4 a (by omega)]
      · obtain ⟨l, g1, g2, g3⟩ := exists_cstring_upto (ramStore (buf + n1.toNat) 0 s1).mem
          n1.toNat buf (by rw [hmem, if_pos rfl])
        refine ⟨l, g1, by omega, ?_⟩
        intro c hc
        obtain ⟨j, hj, e⟩ := g3 c hc
        rw [e, hmem, if_neg (by omega)]
        exact r3 j (by omega)
      · rw [hM] at c3
        rcases c3 with q | ⟨q1, q2⟩
        · exact Or.inl q
        · exact Or.inr ⟨by omega, q2⟩
  · intro hw m hm hcr
    obtain ⟨r, hr⟩ := read_line_loop_returns env wait buf max_len hw m fuel 0 [] s hm hcr
    obtain ⟨n1, hist1, s1⟩ := r
    exact ⟨(n1, hist1, ramStore (buf + n1.toNat) 0 s1), by simp only [read_line, hr]⟩

set_option maxRecDepth 100000 in
/-- C30 on a concrete run: with "hi", a backspace, "!" and CR arriving, `max_len = 8` and
the status register always ready, `read_line` returns with `i = 2` and "h!" in `buf`. -/
theorem read_line_spec_witness :
    (∃ r, read_line envLine 1 10 0x80000000 8 s0 = some r) ∧
    (read_line envLine 1 10 0x80000000 8 s0).map (fun r =>
      (r.1, r.2.1, (List.range 3).map (fun j => r.2.2.mem (0x80000000 + j))))
      = some (2, [0, 1, 2, 1, 2], [104, 33, 0]) :=
  ⟨(read_line_spec envLine 1 10 0x80000000 8 s0 (by decide) (by decide)).2
      (fun _ => ⟨0, by decide, by simp [envLine]⟩) 4 (by decide) (by decide),
    by decide⟩

/-! ## C28: `tokenize` -/

theorem isSep_iff (c : Nat) : isSep c = true ↔ (c = 32 ∨ c = 9) := by
  simp [isSep]

/-- A list splits into its longest initial part that satisfies `P` and the rest. -/
theorem split_while (P : Nat → Bool) (l : List Nat) :
    ∃ a b, l = a ++ b ∧ (∀ c ∈ a, P c = true) ∧ (∀ c, b.head? = some c → P c = false) := by
  induction l with
  | nil => exact ⟨[], [], rfl, by simp, by simp⟩
  | cons x xs ih =>
    by_cases hx : P x = true
    · obtain ⟨a, b, e, ha, hb⟩ := ih
      refine ⟨x :: a, b, by rw [e]; rfl, ?_, hb⟩
      intro c hc
      rcases List.mem_cons.1 hc with h | h
      · rw [h]; exact hx
      · exact ha c h
    · refine ⟨[], x :: xs, rfl, by simp, ?_⟩
      intro c hc
      simp only [List.head?_cons, Option.some.injEq] at hc
      rw [← hc]
      simpa using hx

theorem takeWhile_split (P : Nat → Bool) (a b : List Nat) (ha : ∀ c ∈ a, P c = true)
    (hb : ∀ c, b.head? = some c → P c = false) : (a ++ b).takeWhile P = a := by
  induction a with
  | nil =>
    cases b with
    | nil => rfl
    | cons x xs =>
      have := hb x rfl
      simp [List.takeWhile, this]
  | cons x xs ih =>
    have hx := ha x (List.mem_cons_self x xs)
    show List.takeWhile P (x :: (xs ++ b)) = x :: xs
    rw [List.takeWhile_cons, hx, ih (fun c hc => ha c (List.mem_cons_of_mem x hc))]
    rfl

theorem isCString_drop (mem : Nat → Nat) (a b : List Nat) :
    ∀ p, IsCString mem p (a ++ b) → IsCString mem (p + a.length) b := by
  induction a with
  | nil => intro p h; simpa using h
  | cons x xs ih =>
    intro p h
    have := ih (p + 1) (isCString_tail mem p x (xs ++ b) h)
    rw [show p + (x :: xs).length = p + 1 + xs.length by simp; omega]
    exact this

theorem isCString_initial (mem mem' : Nat → Nat) (p : Nat) (a b : List Nat)
    (h : IsCString mem p (a ++ b)) (hm : ∀ x, p ≤ x → x < p + a.length → mem' x = mem x)
    (h0 : mem' (p + a.length) % 256 = 0) : IsCString mem' p a := by
  obtain ⟨h1, h2, _⟩ := h
  refine ⟨?_, fun c hc => h2 c (List.mem_append_left b hc), h0⟩
  intro i hi
  rw [hm (p + i) (by omega) (by omega), h1 i (by simp; omega)]
  simp [List.getD_eq_getElem?_getD, List.getElem?_append_left hi]

/-- The loop that skips separators stops after them. -/
theorem tokenize_skip_spec (mem : Nat → Nat) (seps r : List Nat)
    (hs : ∀ c ∈ seps, isSep c = true) (hr : ∀ c, r.head? = some c → isSep c = false) :
    ∀ (p inner : Nat), IsCString mem p (seps ++ r) → seps.length < inner →
      tokenize_skip mem inner p = some (p + seps.length) := by
  induction seps with
  | nil =>
    intro p inner h hi
    obtain ⟨k, rfl⟩ : ∃ k, inner = k + 1 := ⟨inner - 1, by simp at hi; omega⟩
    have hc : ¬ (mem p % 256 = 32 ∨ mem p % 256 = 9) := by
      cases r with
      | nil =>
        have := isCString_nil mem p h
        omega
      | cons x xs =>
        have hx := (isCString_head mem p x xs h).1
        have := hr x rfl
        rw [hx, ← isSep_iff, this]
        simp
    simp only [tokenize_skip]
    rw [if_neg hc]
    rfl
  | cons x xs ih =>
    intro p inner h hi
    obtain ⟨k, rfl⟩ : ∃ k, inner = k + 1 := ⟨inner - 1, by simp at hi; omega⟩
    have hx := (isCString_head mem p x (xs ++ r) h).1
    have hc : mem p % 256 = 32 ∨ mem p % 256 = 9 := by
      rw [hx, ← isSep_iff]
      exact hs x (List.mem_cons_self x xs)
    simp only [tokenize_skip]
    rw [if_pos hc, ih (fun c hc => hs c (List.mem_cons_of_mem x hc)) (p + 1) k
      (isCString_tail mem p x (xs ++ r) h) (by simp at hi; omega)]
    simp only [List.length_cons]
    congr 1
    omega

/-- The loop that scans a token stops after its run of non-separators. -/
theorem tokenize_scan_spec (mem : Nat → Nat) (run r : List Nat)
    (hs : ∀ c ∈ run, isSep c = false) (hr : ∀ c, r.head? = some c → isSep c = true) :
    ∀ (p inner : Nat), IsCString mem p (run ++ r) → run.length < inner →
      tokenize_scan mem inner p = some (p + run.length) := by
  induction run with
  | nil =>
    intro p inner h hi
    obtain ⟨k, rfl⟩ : ∃ k, inner = k + 1 := ⟨inner - 1, by simp at hi; omega⟩
    have hc : ¬ (mem p % 256 ≠ 0 ∧ mem p % 256 ≠ 32 ∧ mem p % 256 ≠ 9) := by
      cases r with
      | nil =>
        have := isCString_nil mem p h
        omega
      | cons x xs =>
        have hx := (isCString_head mem p x xs h).1
        have := (isSep_iff x).1 (hr x rfl)
        rw [hx]
        omega
    simp only [tokenize_scan]
    rw [if_neg hc]
    rfl
  | cons x xs ih =>
    intro p inner h hi
    obtain ⟨k, rfl⟩ : ∃ k, inner = k + 1 := ⟨inner - 1, by simp at hi; omega⟩
    have hx := isCString_head mem p x (xs ++ r) h
    have hc : mem p % 256 ≠ 0 ∧ mem p % 256 ≠ 32 ∧ mem p % 256 ≠ 9 := by
      have h1 := hs x (List.mem_cons_self x xs)
      have h2 : ¬ (x = 32 ∨ x = 9) := by
        rw [← isSep_iff, h1]
        simp
      rw [hx.1]
      omega
    simp only [tokenize_scan]
    rw [if_pos hc, ih (fun c hc => hs c (List.mem_cons_of_mem x hc)) (p + 1) k
      (isCString_tail mem p x (xs ++ r) h) (by simp at hi; omega)]
    simp only [List.length_cons]
    congr 1
    omega

theorem runStartsAux_shift (l : List Nat) :
    ∀ (b : Bool) (pos : Nat), runStartsAux b pos l = (runStartsAux b 0 l).map (fun i => pos + i) := by
  induction l with
  | nil => intro b pos; rfl
  | cons x xs ih =>
    intro b pos
    simp only [runStartsAux, List.map_append]
    rw [ih (isSep x) (pos + 1), ih (isSep x) (0 + 1)]
    congr 1
    · split <;> simp
    · simp only [List.map_map]
      apply List.map_congr_left
      intro i _
      simp only [Function.comp]
      omega

theorem runStartsAux_seps (seps r : List Nat) (hs : ∀ c ∈ seps, isSep c = true) :
    ∀ (b : Bool) (pos : Nat),
      runStartsAux b pos (seps ++ r) =
        if seps = [] then runStartsAux b pos r else runStartsAux true (pos + seps.length) r := by
  induction seps with
  | nil => intro b pos; simp
  | cons x xs ih =>
    intro b pos
    have hx := hs x (List.mem_cons_self x xs)
    show runStartsAux b pos (x :: (xs ++ r)) = _
    rw [runStartsAux, hx, ih (fun c hc => hs c (List.mem_cons_of_mem x hc)) true (pos + 1)]
    by_cases he : xs = []
    · subst he
      simp
    · simp only [he, if_false, List.length_cons]
      simp
      congr 1
      omega

theorem runStartsAux_run (run r : List Nat) (hs : ∀ c ∈ run, isSep c = false) :
    ∀ (pos : Nat), runStartsAux false pos (run ++ r) = runStartsAux false (pos + run.length) r := by
  induction run with
  | nil => intro pos; simp
  | cons x xs ih =>
    intro pos
    have hx := hs x (List.mem_cons_self x xs)
    show runStartsAux false pos (x :: (xs ++ r)) = _
    rw [runStartsAux, hx, ih (fun c hc => hs c (List.mem_cons_of_mem x hc)) (pos + 1)]
    simp
    congr 1
    omega

/-- The offsets listed by `runStartsAux` are those of the characters other than space and
tab whose predecessor is a space or a tab, or is missing. -/
theorem mem_runStartsAux (l : List Nat) :
    ∀ (b : Bool) (pos i : Nat), i ∈ runStartsAux b pos l ↔
      ∃ j, i = pos + j ∧ j < l.length ∧ isSep (l.getD j 0) = false ∧ (j = 0 → b = true) ∧
        (0 < j → isSep (l.getD (j - 1) 0) = true) := by
  induction l with
  | nil => intro b pos i; simp [runStartsAux]
  | cons x xs ih =>
    intro b pos i
    rw [runStartsAux, List.mem_append, ih]
    constructor
    · rintro (h | ⟨j, e, hj, h1, h2, h3⟩)
      · by_cases hb : (b && !isSep x) = true
        · rw [if_pos hb] at h
          simp only [List.mem_singleton] at h
          simp only [Bool.and_eq_true, Bool.not_eq_true'] at hb
          exact ⟨0, by omega, by simp, by simpa using hb.2, fun _ => hb.1, fun h => by omega⟩
        · rw [if_neg hb] at h
          simp at h
      · refine ⟨j + 1, by omega, by simp; omega, by simpa using h1, fun h => by omega, ?_⟩
        intro _
        cases j with
        | zero => simpa using h2 rfl
        | succ j => simpa using h3 (by omega)
    · rintro ⟨j, e, hj, h1, h2, h3⟩
      cases j with
      | zero =>
        left
        have hb : (b && !isSep x) = true := by
          simp only [List.getD_cons_zero] at h1
          simp [h2 rfl, h1]
        rw [if_pos hb]
        simp [e]
      | succ j =>
        right
        refine ⟨j, by omega, by simpa using hj, by simpa using h1, ?_, ?_⟩
        · intro h0
          subst h0
          simpa using h3 (by omega)
        · intro h0
          obtain ⟨j', rfl⟩ : ∃ j', j = j' + 1 := ⟨j - 1, by omega⟩
          simpa using h3 (by omega)

theorem runStarts_token (seps run r2 : List Nat) (c : Nat)
    (hs : ∀ x ∈ seps, isSep x = true) (hc : isSep c = false)
    (hrun : ∀ x ∈ run, isSep x = false) :
    runStarts (seps ++ ((c :: run) ++ r2)) =
      seps.length :: runStartsAux false (seps.length + (c :: run).length) r2 := by
  have e1 : runStarts (seps ++ ((c :: run) ++ r2)) =
      runStartsAux true seps.length ((c :: run) ++ r2) := by
    unfold runStarts
    rw [runStartsAux_seps seps _ hs true 0]
    by_cases he : seps = []
    · subst he
      simp
    · simp [he]
  rw [e1]
  show runStartsAux true seps.length (c :: (run ++ r2)) = _
  rw [runStartsAux, hc, runStartsAux_run run r2 hrun]
  simp only [Bool.not_false, Bool.and_self, if_true, List.singleton_append, List.length_cons]
  congr 2
  omega

theorem runAt_token (seps run r2 : List Nat)
    (hrun : ∀ x ∈ run, isSep x = false) (hr2 : ∀ x, r2.head? = some x → isSep x = true) :
    runAt (seps ++ (run ++ r2)) seps.length = run := by
  unfold runAt
  rw [List.drop_left]
  exact takeWhile_split (fun c => !isSep c) run r2 (fun x hx => by simp [hrun x hx])
    (fun x hx => by simp [hr2 x hx])

theorem runAt_shift (pre r : List Nat) (i : Nat) :
    runAt (pre ++ r) (pre.length + i) = runAt r i := by
  unfold runAt
  rw [List.drop_append]

/-- The outer loop of `tokenize` on the rest of the line, `toks` being the slots written
so far. -/
theorem tokenize_loop_spec (max_tokens : Int) (inner : Nat) :
    ∀ (n : Nat) (rest : List Nat) (mem : Nat → Nat) (p : Nat) (toks : List Nat) (fuel : Nat),
      rest.length ≤ n → IsCString mem p rest → rest.length < fuel → rest.length < inner →
      ∃ mem', tokenize_loop max_tokens inner fuel mem p toks =
          some (mem', toks ++ ((runStarts rest).take
            (max_tokens - (toks.length : Int)).toNat).map (fun i => p + i)) ∧
        (∀ i ∈ (runStarts rest).take (max_tokens - (toks.length : Int)).toNat,
          IsCString mem' (p + i) (runAt rest i) ∧ runAt rest i ≠ []) ∧
        (∀ a, a < p ∨ p + rest.length ≤ a → mem' a = mem a) := by
  intro n
  induction n with
  | zero =>
    intro rest mem p toks fuel hn h hf _
    have : rest = [] := List.eq_nil_of_length_eq_zero (by omega)
    subst this
    obtain ⟨k, rfl⟩ : ∃ k, fuel = k + 1 := ⟨fuel - 1, by omega⟩
    have h0 := isCString_nil mem p h
    refine ⟨mem, ?_, ?_, fun _ _ => rfl⟩
    · simp only [tokenize_loop]
      rw [if_neg (by omega)]
      simp [runStarts, runStartsAux]
    · intro i hi
      simp [runStarts, runStartsAux] at hi
  | succ n ih =>
    intro rest mem p toks fuel hn h hf hin
    obtain ⟨k, rfl⟩ : ∃ k, fuel = k + 1 := ⟨fuel - 1, by omega⟩
    by_cases hcond : mem p % 256 ≠ 0 ∧ (toks.length : Int) < max_tokens
    · obtain ⟨seps, r1, e1, hseps, hr1⟩ := split_while isSep rest
      subst e1
      have hskip := tokenize_skip_spec mem seps r1 hseps hr1 p inner h
        (by simp at hin; omega)
      have hd := isCString_drop mem seps r1 p h
      cases r1 with
      | nil =>
        have h0 := isCString_nil mem _ hd
        have hrs : runStarts (seps ++ []) = [] := by
          unfold runStarts
          rw [runStartsAux_seps seps [] hseps true 0]
          split <;> rfl
        refine ⟨mem, ?_, ?_, fun _ _ => rfl⟩
        · simp only [tokenize_loop]
          rw [if_pos hcond]
          simp only [hskip]
          rw [if_pos h0, hrs]
          simp
        · intro i hi
          rw [hrs] at hi
          simp at hi
      | cons c r1' =>
        have hc : isSep c = false := hr1 c rfl
        obtain ⟨run, r2, e2, hrun0, hr20⟩ := split_while (fun x => !isSep x) r1'
        subst e2
        have hrun : ∀ x ∈ run, isSep x = false := fun x hx => by simpa using hrun0 x hx
        have hr2 : ∀ x, r2.head? = some x → isSep x = true := fun x hx => by
          simpa using hr20 x hx
        have hrunc : ∀ x ∈ c :: run, isSep x = false := by
          intro x hx
          rcases List.mem_cons.1 hx with e | e
          · rw [e]; exact hc
          · exact hrun x e
        have hd1 : IsCString mem (p + seps.length) ((c :: run) ++ r2) := hd
        have hc0 : ¬ mem (p + seps.length) % 256 = 0 := by
          have := isCString_head mem _ c (run ++ r2) hd
          omega
        have hscan := tokenize_scan_spec mem (c :: run) r2 hrunc hr2 (p + seps.length) inner
          hd1 (by simp at hin ⊢; omega)
        have hd2 := isCString_drop mem (c :: run) r2 (p + seps.length) hd1
        have hM : (max_tokens - (toks.length : Int)).toNat =
            (max_tokens - ((toks ++ [p + seps.length]).length : Int)).toNat + 1 := by
          simp only [List.length_append, List.length_singleton, Nat.cast_add, Nat.cast_one]
          omega
        have hrt : runStarts (seps ++ c :: (run ++ r2)) =
            seps.length :: runStartsAux false (seps.length + (c :: run).length) r2 :=
          runStarts_token seps run r2 c hseps hc hrun
        have hra : runAt (seps ++ c :: (run ++ r2)) seps.length = c :: run :=
          runAt_token seps (c :: run) r2 hrunc hr2
        have hlen : (seps ++ c :: (run ++ r2)).length =
            seps.length + (c :: run).length + r2.length := by
          simp only [List.length_append, List.length_cons]
          omega
        cases r2 with
        | nil =>
          have h0 := isCString_nil mem _ hd2
          obtain ⟨mem', e, _, hfr⟩ := ih [] mem (p + seps.length + (c :: run).length)
            (toks ++ [p + seps.length]) k (by simp) hd2
            (by simp at hf ⊢; omega) (by simp only [List.length_nil]; omega)
          have hrt' : runStarts (seps ++ c :: (run ++ [])) = [seps.length] := by
            rw [hrt]; rfl
          refine ⟨mem', ?_, ?_, ?_⟩
          · simp only [tokenize_loop]
            rw [if_pos hcond]
            simp only [hskip]
            rw [if_neg hc0]
            simp only [hscan]
            rw [if_neg (by rw [h0]; simp), e, hrt', hM]
            simp [runStarts, runStartsAux]
          · intro i hi
            rw [hrt', hM] at hi
            simp only [List.take_succ_cons, List.take_nil, List.mem_singleton] at hi
            subst hi
            rw [hra]
            refine ⟨isCString_initial mem mem' _ (c :: run) [] hd1 ?_ ?_, by simp⟩
            · intro x _ hx2
              exact hfr x (Or.inl hx2)
            · rw [hfr _ (Or.inr (by simp))]
              exact h0
          · intro a ha
            apply hfr a
            rw [hlen] at ha
            simp only [List.length_nil] at ha ⊢
            omega
        | cons s r3 =>
          have hs : isSep s = true := hr2 s rfl
          have hs0 := isCString_head mem _ s r3 hd2
          have ht : IsCString (fun a => if a = p + seps.length + (c :: run).length then 0
              else mem a) (p + seps.length + (c :: run).length + 1) r3 :=
            isCString_congr mem _ _ r3 (isCString_tail mem _ s r3 hd2) (by
              intro a ha _
              rw [if_neg (by omega)])
          obtain ⟨mem', e, htok, hfr⟩ := ih r3 _ (p + seps.length + (c :: run).length + 1)
            (toks ++ [p + seps.length]) k
            (by rw [hlen] at hn; simp only [List.length_cons] at hn ⊢; omega) ht
            (by rw [hlen] at hf; simp only [List.length_cons] at hf ⊢; omega)
            (by rw [hlen] at hin; simp only [List.length_cons] at hin ⊢; omega)
          have hrt' : runStarts (seps ++ c :: (run ++ s :: r3)) =
              seps.length :: (runStarts r3).map
                (fun i => seps.length + (c :: run).length + 1 + i) := by
            rw [hrt, runStartsAux, hs, runStartsAux_shift r3 true]
            rfl
          have hpre : seps ++ c :: (run ++ s :: r3) = (seps ++ ((c :: run) ++ [s])) ++ r3 := by
            simp
          have hprelen : (seps ++ ((c :: run) ++ [s])).length =
              seps.length + (c :: run).length + 1 := by
            simp only [List.length_append, List.length_singleton]
            omega
          refine ⟨mem', ?_, ?_, ?_⟩
          · simp only [tokenize_loop]
            rw [if_pos hcond]
            simp only [hskip]
            rw [if_neg hc0]
            simp only [hscan]
            rw [if_pos (by rw [hs0.1]; omega), e, hrt', hM]
            simp only [List.take_succ_cons, List.map_cons, List.append_assoc,
              List.singleton_append, ← List.map_take, List.map_map]
            congr 4
            apply List.map_congr_left
            intro i _
            simp only [Function.comp]
            omega
          · intro i hi
            rw [hrt', hM, List.take_succ_cons] at hi
            rcases List.mem_cons.1 hi with e1 | e1
            · subst e1
              rw [hra]
              refine ⟨isCString_initial mem mem' _ (c :: run) (s :: r3) hd1 ?_ ?_, by simp⟩
              · intro x _ hx2
                rw [hfr x (Or.inl (by omega))]
                rw [if_neg (by omega)]
              · rw [hfr _ (Or.inl (by omega))]
                simp
            · rw [← List.map_take] at e1
              obtain ⟨j, hj, rfl⟩ := List.mem_map.1 e1
              have := htok j hj
              rw [hpre, ← hprelen, runAt_shift, hprelen]
              rw [show p + (seps.length + (c :: run).length + 1 + j) =
                p + seps.length + (c :: run).length + 1 + j by omega]
              exact this
          · intro a ha
            rw [hlen] at ha
            simp only [List.length_cons] at ha
            rw [hfr a (by simp only [List.length_cons]; omega)]
            rw [if_neg (by simp only [List.length_cons]; omega)]
    · refine ⟨mem, ?_, ?_, fun _ _ => rfl⟩
      · simp only [tokenize_loop]
        rw [if_neg hcond]
        rcases not_and_or.1 hcond with h1 | h1
        · have : rest = [] := by
            cases rest with
            | nil => rfl
            | cons x xs =>
              have := isCString_head mem p x xs h
              omega
          subst this
          simp [runStarts, runStartsAux]
        · rw [show (max_tokens - (toks.length : Int)).toNat = 0 by omega]
          simp
      · intro i hi
        rcases not_and_or.1 hcond with h1 | h1
        · have : rest = [] := by
            cases rest with
            | nil => rfl
            | cons x xs =>
              have := isCString_head mem p x xs h
              omega
          subst this
          simp [runStarts, runStartsAux] at hi
        · rw [show (max_tokens - (toks.length : Int)).toNat = 0 by omega] at hi
          simp at hi

/-- C28: for every NUL-terminated line `l` at `line` and every `max_tokens`, `tokenize`
(with fuel beyond the length of the line) returns with `*count` equal to
`min(k, max(max_tokens, 0))`, where `k` is the number of maximal runs of characters other
than space and tab; `tokens[0..*count)` point, in order, at the starts of the first
`*count` runs, and each of them is afterwards a NUL-terminated string that is exactly its
run, which is not empty and holds no space or tab; every slot written has an index below
`max_tokens`; and memory outside the characters of the line is unchanged. -/
theorem tokenize_spec (mem : Nat → Nat) (line : Nat) (l : List Nat) (max_tokens : Int)
    (inner fuel : Nat) (h : IsCString mem line l) (hi : l.length < inner)
    (hf : l.length < fuel) :
    ∃ mem' tokens, tokenize mem inner fuel line max_tokens = some (mem', tokens) ∧
      (tokens.length : Int) = min ((runStarts l).length : Int) (max max_tokens 0) ∧
      tokens = ((runStarts l).take tokens.length).map (fun i => line + i) ∧
      (∀ i ∈ (runStarts l).take tokens.length,
        IsCString mem' (line + i) (runAt l i) ∧ runAt l i ≠ [] ∧
          ∀ c ∈ runAt l i, c ≠ 32 ∧ c ≠ 9) ∧
      (∀ j, j < tokens.length → (j : Int) < max_tokens) ∧
      (∀ a, a < line ∨ line + l.length ≤ a → mem' a = mem a) := by
  obtain ⟨mem', e, htok, hfr⟩ :=
    tokenize_loop_spec max_tokens inner l.length l mem line [] fuel le_rfl h hf hi
  simp only [List.length_nil, Nat.cast_zero, sub_zero, List.nil_append] at e htok
  have hlen : (((runStarts l).take max_tokens.toNat).map (fun i => line + i)).length =
      min max_tokens.toNat (runStarts l).length := by
    simp
  have htake : (runStarts l).take (min max_tokens.toNat (runStarts l).length) =
      (runStarts l).take max_tokens.toNat := by
    rw [List.take_eq_take]
    simp
  refine ⟨mem', _, e, ?_, ?_, ?_, ?_, hfr⟩
  · rw [hlen]
    omega
  · rw [hlen, htake]
  · rw [hlen, htake]
    intro i hi
    refine ⟨(htok i hi).1, (htok i hi).2, ?_⟩
    intro c hc
    have := List.mem_takeWhile_imp hc
    have h2 : ¬ (c = 32 ∨ c = 9) := by
      rw [← isSep_iff]
      simpa using this
    omega
  · intro j hj
    rw [hlen] at hj
    omega

theorem tokenize_spec_witness :
    IsCString memLine 0x80000400 [32, 97, 98, 32, 32, 99] ∧
    (tokenize memLine 10 10 0x80000400 5).map Prod.snd = some [0x80000401, 0x80000405] ∧
    ∃ mem' tokens, tokenize memLine 10 10 0x80000400 5 = some (mem', tokens) ∧
      (tokens.length : Int) = min ((runStarts [32, 97, 98, 32, 32, 99]).length : Int) (max 5 0) ∧
      tokens = ((runStarts [32, 97, 98, 32, 32, 99]).take tokens.length).map
        (fun i => 0x80000400 + i) ∧
      (∀ i ∈ (runStarts [32, 97, 98, 32, 32, 99]).take tokens.length,
        IsCString mem' (0x80000400 + i) (runAt [32, 97, 98, 32, 32, 99] i) ∧
          runAt [32, 97, 98, 32, 32, 99] i ≠ [] ∧
          ∀ c ∈ runAt [32, 97, 98, 32, 32, 99] i, c ≠ 32 ∧ c ≠ 9) ∧
      (∀ j, j < tokens.length → (j : Int) < 5) ∧
      (∀ a, a < 0x80000400 ∨ 0x80000400 + [32, 97, 98, 32, 32, 99].length ≤ a →
        mem' a = memLine a) :=
  ⟨by decide, by decide,
    tokenize_spec memLine 0x80000400 [32, 97, 98, 32, 32, 99] 5 10 10 (by decide) (by decide)
      (by decide)⟩

end PyRV32
